import Mathlib

/-!
# Userspace RCU, QSBR flavour: the grace-period engine of `urcu-qsbr.c`

A shallow embedding of `src/urcu-qsbr.c` (liburcu 0.12.1).  The calling thread's
code is embedded as functions on an explicit configuration `Cfg`; every other
thread is an environment `Env` that rewrites the shared memory at the points
where the calling thread blocks (`mutex_lock`, the futex sleep of `wait_gp`,
the busy wait on a waiter node).  Theorems quantify over the environment and
name, as hypotheses, what they rely on the other threads not doing.

Loops that wait for other threads take a fuel argument (one unit per loop
iteration); running out of fuel is the outcome `Halt.out_of_fuel`.  Every way a
call can stop without returning carries the configuration it stopped in, so
that what a call did can be stated of the calls that do not return as well.

The headers `urcu/static/urcu-qsbr.h`, `urcu/list.h` and `urcu-wait.h` are not
part of the sources at hand; the helpers they define are modelled from the
specification and marked as such.  `assert` is modelled as compiled in.
-/

set_option linter.constructorNameAsVariable false

namespace Urcu

/-! ## Data model -/

/-- A thread, standing for its thread-local `urcu_qsbr_reader` record. -/
abbrev Tid := Nat

/-- Modelled from the spec: the constant `URCU_QSBR_GP_ONLINE` of the absent
header `urcu/static/urcu-qsbr.h` (spec section 6: `URCU_QSBR_GP_ONLINE = 1`). -/
def URCU_QSBR_GP_ONLINE : Nat := 1

/-- Modelled from the spec: the constant `URCU_QSBR_GP_CTR` of the absent header
`urcu/static/urcu-qsbr.h` (spec section 6: `URCU_QSBR_GP_CTR = 2`; the comment at
`urcu-qsbr.c:419` says the same). -/
def URCU_QSBR_GP_CTR : Nat := 2

/-- `#define RCU_QS_ACTIVE_ATTEMPTS 100` (`urcu-qsbr.c:79`). -/
def RCU_QS_ACTIVE_ATTEMPTS : Nat := 100

/-- Modelled from the spec: the three reader states of spec section 4.2 (the enum
lives in the absent header `urcu/static/urcu-qsbr.h`). -/
inductive urcu_state where
  | URCU_READER_ACTIVE_CURRENT
  | URCU_READER_ACTIVE_OLD
  | URCU_READER_INACTIVE
  deriving DecidableEq, Repr

/-- Modelled from the spec: the per-thread reader record of spec section 3
(`struct urcu_qsbr_reader`, absent header).  The `node` link is represented by
membership of the thread in one of the lists of the configuration. -/
structure urcu_qsbr_reader where
  ctr : Nat
  waiting : Nat
  registered : Bool
  tid : Option Tid
  deriving DecidableEq, Repr

/-- Modelled from the spec: the state field of a waiter node (spec section 3,
"each carrying a state field in WAITING, RUNNING"; absent header `urcu-wait.h`). -/
inductive urcu_wait_state where
  | URCU_WAIT_WAITING
  | URCU_WAIT_RUNNING
  deriving DecidableEq, Repr

/-- The two process-wide mutexes (`urcu-qsbr.c:61`, `urcu-qsbr.c:71`). -/
inductive Mutex where
  | rcu_gp_lock
  | rcu_registry_lock
  deriving DecidableEq, Repr

/-- The three reader lists `wait_for_readers` is handed pointers to: the global
`registry` (`urcu-qsbr.c:89`) and the two scratch lists on the stack of
`urcu_qsbr_synchronize_rcu`. -/
inductive ListRef where
  | registry
  | cur_snap_readers
  | qsreaders
  deriving DecidableEq, Repr

/-- What the calling thread does, in program order (a ghost log). -/
inductive Event where
  | lock (l : Mutex)
  | unlock (l : Mutex)
  | gp_ctr_store (v : Nat)
  | futex_store (v : Int)
  | waiting_store (t : Tid)
  | scan
  | examine (t : Tid) (s : urcu_state)
  | cpu_relax
  | wait_gp
  | futex_wake
  | wake_waiter (t : Tid)
  deriving DecidableEq, Repr

/-- Memory shared between threads: the global `urcu_qsbr_gp` (`ctr`, `futex`),
every thread's reader record, the registry, the `gp_waiters` queue and the state
word of every thread's waiter node. -/
structure Mem where
  gp_ctr : Nat
  gp_futex : Int
  reader : Tid → urcu_qsbr_reader
  registry : List Tid
  gp_waiters : List Tid
  wait_state : Tid → urcu_wait_state

/-- The other threads: `env k m` is the shared memory after they have run during
the `k`-th blocking point of the calling thread, starting from `m`. -/
abbrev Env := Nat → Mem → Mem

/-- Configuration of the calling thread: the shared memory, the locals of
`urcu_qsbr_synchronize_rcu` (`cur_snap_readers`, `qsreaders`, `waiters`), which
mutexes the thread holds, the number of blocking points passed and, as ghost
state, the log and the list `seen` of the shared memories the other threads were
handed at the blocking points, in order. -/
structure Cfg where
  mem : Mem
  cur_snap_readers : List Tid
  qsreaders : List Tid
  waiters : List Tid
  holds_gp : Bool
  holds_registry : Bool
  clock : Nat
  trace : List Event
  seen : List Mem

/-- How a call ends when it does not return: a failed `assert`, `urcu_die`, a
caller blocked for ever on a mutex it holds itself, or the model's fuel ran out
while the caller waited for other threads.  Each carries the configuration the
call stopped in. -/
inductive Halt where
  | assertion (c : Cfg)
  | die (c : Cfg)
  | deadlock (c : Cfg)
  | out_of_fuel (c : Cfg)

/-- Outcome of one turn of the `for (;;)` loop of `wait_for_readers`. -/
inductive LoopStep where
  | brk (c : Cfg)
  | cont (wait_loops : Nat) (c : Cfg)

/-- Process-wide state at load time (spec section 6: epoch ctr = 1, registry empty,
waiter queue empty; `urcu-qsbr.c:73`, `:89`, `:98`). -/
def Mem.init : Mem :=
  { gp_ctr := URCU_QSBR_GP_ONLINE
    gp_futex := 0
    reader := fun _ => { ctr := 0, waiting := 0, registered := false, tid := none }
    registry := []
    gp_waiters := []
    wait_state := fun _ => .URCU_WAIT_WAITING }

/-- Initial configuration: initial memory, no mutex held. -/
def Cfg.init : Cfg :=
  { mem := Mem.init
    cur_snap_readers := []
    qsreaders := []
    waiters := []
    holds_gp := false
    holds_registry := false
    clock := 0
    trace := []
    seen := [] }

/-! ## Small accessors -/

/-- Append an event to the log. -/
def Cfg.log (c : Cfg) (e : Event) : Cfg :=
  { c with trace := c.trace ++ [e] }

/-- The list a `ListRef` points to. -/
def Cfg.list (c : Cfg) : ListRef → List Tid
  | .registry => c.mem.registry
  | .cur_snap_readers => c.cur_snap_readers
  | .qsreaders => c.qsreaders

/-- Overwrite the list a `ListRef` points to. -/
def Cfg.setList (c : Cfg) (r : ListRef) (l : List Tid) : Cfg :=
  match r with
  | .registry => { c with mem := { c.mem with registry := l } }
  | .cur_snap_readers => { c with cur_snap_readers := l }
  | .qsreaders => { c with qsreaders := l }

/-- Overwrite one thread's reader record. -/
def Cfg.setReader (c : Cfg) (t : Tid) (r : urcu_qsbr_reader) : Cfg :=
  { c with mem := { c.mem with reader := fun u => if u = t then r else c.mem.reader u } }

/-- Whether the calling thread holds the mutex. -/
def Cfg.holds (c : Cfg) : Mutex → Bool
  | .rcu_gp_lock => c.holds_gp
  | .rcu_registry_lock => c.holds_registry

/-- Record that the calling thread holds / does not hold the mutex. -/
def Cfg.setHolds (c : Cfg) (l : Mutex) (b : Bool) : Cfg :=
  match l with
  | .rcu_gp_lock => { c with holds_gp := b }
  | .rcu_registry_lock => { c with holds_registry := b }

/-- The other threads run while the calling thread is blocked: they are handed
the shared memory as it stands, which `seen` records, and leave their own. -/
def yield (env : Env) (c : Cfg) : Cfg :=
  { c with mem := env c.clock c.mem, clock := c.clock + 1, seen := c.seen ++ [c.mem] }

/-! ## Intrusive lists (`urcu/list.h`, absent) -/

/-- Modelled from the spec: `cds_list_empty` of the absent `urcu/list.h`. -/
def cds_list_empty (r : ListRef) (c : Cfg) : Bool :=
  (c.list r).isEmpty

/-- Modelled from the spec: `cds_list_del` of the absent `urcu/list.h` ("unlinks
the node", spec section 4.7): the node leaves whichever list links it. -/
def cds_list_del (t : Tid) (c : Cfg) : Cfg :=
  { c with
    mem := { c.mem with registry := c.mem.registry.filter (fun u => u ≠ t) }
    cur_snap_readers := c.cur_snap_readers.filter (fun u => u ≠ t)
    qsreaders := c.qsreaders.filter (fun u => u ≠ t) }

/-- Modelled from the spec: `cds_list_add` of the absent `urcu/list.h` ("links the
TLS node into the registry", spec section 4.7): the node is linked at the head. -/
def cds_list_add (t : Tid) (r : ListRef) (c : Cfg) : Cfg :=
  c.setList r (t :: c.list r)

/-- Modelled from the spec: `cds_list_move` of the absent `urcu/list.h` ("move it
to", spec section 4.5): unlink the node, then link it at the head of the target. -/
def cds_list_move (t : Tid) (r : ListRef) (c : Cfg) : Cfg :=
  cds_list_add t r (cds_list_del t c)

/-- Modelled from the spec: `cds_list_splice` of the absent `urcu/list.h` ("splices
the qsreaders scratch list back into the registry", spec section 4.4): the nodes of
`src` are linked in front of those of `dst`, and are no longer reached from `src`. -/
def cds_list_splice (src dst : ListRef) (c : Cfg) : Cfg :=
  (c.setList dst (c.list src ++ c.list dst)).setList src []

/-! ## Reader side (`urcu/static/urcu-qsbr.h`, absent) -/

/-- Modelled from the spec: the classifier `urcu_qsbr_reader_state` of the absent
header, spec section 4.2.  INACTIVE when the reader's `ctr` is 0; ACTIVE_CURRENT
when it is online and its `ctr` matches the current epoch, "on 64-bit: same high
bits; on 32-bit: same parity" (the bits above the online bit, respectively the
parity bit `URCU_QSBR_GP_CTR`); ACTIVE_OLD otherwise. -/
def urcu_qsbr_reader_state (bits gp_ctr v : Nat) : urcu_state :=
  if v = 0 then .URCU_READER_INACTIVE
  else if bits < 64 then
    (if (v / URCU_QSBR_GP_CTR) % 2 = (gp_ctr / URCU_QSBR_GP_CTR) % 2
      then .URCU_READER_ACTIVE_CURRENT else .URCU_READER_ACTIVE_OLD)
  else
    (if v / URCU_QSBR_GP_CTR = gp_ctr / URCU_QSBR_GP_CTR
      then .URCU_READER_ACTIVE_CURRENT else .URCU_READER_ACTIVE_OLD)

/-- Modelled from the spec: the futex-wake check of the reader side (spec section
4.1 and 4.6: "if `waiting` was set by a writer, clears it and issues a futex
wake on the global futex"); the helper is in the absent header. -/
def urcu_qsbr_wake_up_gp (self : Tid) (c : Cfg) : Cfg :=
  if (c.mem.reader self).waiting ≠ 0 then
    (c.setReader self { c.mem.reader self with waiting := 0 }).log .futex_wake
  else c

/-- Modelled from the spec: `_urcu_qsbr_read_ongoing` of the absent header (spec
section 4.1: "reports whether this thread's `ctr` is non-zero"); wrapped by
`urcu_qsbr_read_ongoing` (`urcu-qsbr.c:489`). -/
def urcu_qsbr_read_ongoing (self : Tid) (c : Cfg) : Bool :=
  (c.mem.reader self).ctr ≠ 0

/-- Modelled from the spec: `_urcu_qsbr_thread_offline` of the absent header (spec
section 4.1: "stores 0 into the per-thread `ctr` and performs the same futex-wake
check"); wrapped by `urcu_qsbr_thread_offline` (`urcu-qsbr.c:505`). -/
def urcu_qsbr_thread_offline (self : Tid) (c : Cfg) : Cfg :=
  urcu_qsbr_wake_up_gp self (c.setReader self { c.mem.reader self with ctr := 0 })

/-- Modelled from the spec: `_urcu_qsbr_thread_online` of the absent header (spec
section 4.1: "stores the current global `ctr` into its own `ctr`"); wrapped by
`urcu_qsbr_thread_online` (`urcu-qsbr.c:512`). -/
def urcu_qsbr_thread_online (self : Tid) (c : Cfg) : Cfg :=
  c.setReader self { c.mem.reader self with ctr := c.mem.gp_ctr }

/-- Modelled from the spec: `_urcu_qsbr_quiescent_state` of the absent header (spec
section 4.1: "publishes the current global epoch into the per-thread `ctr`, then
performs the futex-wake check"); wrapped by `urcu_qsbr_quiescent_state`
(`urcu-qsbr.c:498`). -/
def urcu_qsbr_quiescent_state (self : Tid) (c : Cfg) : Cfg :=
  urcu_qsbr_wake_up_gp self (c.setReader self { c.mem.reader self with ctr := c.mem.gp_ctr })

/-! ## Waiter queue (`urcu-wait.h`, absent) -/

/-- Modelled from the spec: `urcu_wait_add` of the absent `urcu-wait.h` (spec
section 4.3): enqueue the caller's node; the result is 0 when the caller is first
in the queue and non-zero otherwise. -/
def urcu_wait_add (self : Tid) (c : Cfg) : Nat × Cfg :=
  (if c.mem.gp_waiters.isEmpty then 0 else 1,
   { c with mem := { c.mem with gp_waiters := self :: c.mem.gp_waiters } })

/-- Modelled from the spec: `urcu_wait_set_state` of the absent `urcu-wait.h`. -/
def urcu_wait_set_state (self : Tid) (s : urcu_wait_state) (c : Cfg) : Cfg :=
  { c with mem := { c.mem with
      wait_state := fun u => if u = self then s else c.mem.wait_state u } }

/-- Modelled from the spec: `urcu_move_waiters` of the absent `urcu-wait.h` (spec
section 4.3: "atomically drains all currently-queued waiters into a local batch"). -/
def urcu_move_waiters (c : Cfg) : Cfg :=
  { c with waiters := c.mem.gp_waiters, mem := { c.mem with gp_waiters := [] } }

/-- Modelled from the spec: waking one batched waiter (spec section 4.4 step 8:
"transitioning each to RUNNING and waking any that are futex-sleeping"); a node
that is already RUNNING is left alone. -/
def urcu_adaptative_wake_up (c : Cfg) (t : Tid) : Cfg :=
  if c.mem.wait_state t = .URCU_WAIT_RUNNING then c
  else (urcu_wait_set_state t .URCU_WAIT_RUNNING c).log (.wake_waiter t)

/-- Modelled from the spec: `urcu_wake_all_waiters` of the absent `urcu-wait.h`
(spec section 4.4 step 8: "walks the batched waiter list"). -/
def urcu_wake_all_waiters (c : Cfg) : Cfg :=
  c.waiters.foldl urcu_adaptative_wake_up c

/-- Modelled from the spec: `urcu_adaptative_busy_wait` of the absent `urcu-wait.h`
(spec section 4.3: wait "until the leader transitions the node to RUNNING", then
return).  Each turn of the wait lets the other threads run. -/
def urcu_adaptative_busy_wait (env : Env) (self : Tid) : Nat → Cfg → Except Halt Cfg
  | 0, c => .error (.out_of_fuel c)
  | fuel + 1, c =>
    if c.mem.wait_state self = .URCU_WAIT_RUNNING then .ok c
    else urcu_adaptative_busy_wait env self fuel (yield env c)

/-! ## `urcu-qsbr.c` -/

/-- The library call `pthread_mutex_lock` on a mutex initialised with
`PTHREAD_MUTEX_INITIALIZER` (`urcu-qsbr.c:61`, `:71`), with its return value: the
caller blocks while other threads run, then holds the mutex and gets 0.  A caller
that already holds the mutex blocks for ever; no error is returned. -/
def pthread_mutex_lock (env : Env) (l : Mutex) (c : Cfg) : Except Halt (Nat × Cfg) :=
  if c.holds l then .error (.deadlock c)
  else .ok (0, ((yield env c).setHolds l true).log (.lock l))

/-- The library call `pthread_mutex_unlock` on such a mutex, with its return
value: it returns 0 and leaves the mutex released, whether or not the caller
held it. -/
def pthread_mutex_unlock (l : Mutex) (c : Cfg) : Nat × Cfg :=
  (0, (c.setHolds l false).log (.unlock l))

/-- The function `mutex_lock` (`urcu-qsbr.c:100`, the branch compiled without
`DISTRUST_SIGNALS_EXTREME`): `urcu_die` when `pthread_mutex_lock` returns
non-zero. -/
def mutex_lock (env : Env) (l : Mutex) (c : Cfg) : Except Halt Cfg :=
  match pthread_mutex_lock env l c with
  | .error e => .error e
  | .ok r => if r.1 ≠ 0 then .error (.die r.2) else .ok r.2

/-- The function `mutex_unlock` (`urcu-qsbr.c:117`): `urcu_die` when
`pthread_mutex_unlock` returns non-zero. -/
def mutex_unlock (l : Mutex) (c : Cfg) : Except Halt Cfg :=
  let r := pthread_mutex_unlock l c
  if r.1 ≠ 0 then .error (.die r.2) else .ok r.2

/-- The store `uatomic_set(&urcu_qsbr_gp.futex, v)`. -/
def uatomic_set_futex (v : Int) (c : Cfg) : Cfg :=
  ({ c with mem := { c.mem with gp_futex := v } } : Cfg).log (.futex_store v)

/-- The store `_CMM_STORE_SHARED(index->waiting, 1)` (`urcu-qsbr.c:181`). -/
def store_waiting (c : Cfg) (t : Tid) : Cfg :=
  (c.setReader t { c.mem.reader t with waiting := 1 }).log (.waiting_store t)

/-- The store `CMM_STORE_SHARED(urcu_qsbr_gp.ctr, v)`. -/
def store_gp_ctr (v : Nat) (c : Cfg) : Cfg :=
  ({ c with mem := { c.mem with gp_ctr := v } } : Cfg).log (.gp_ctr_store v)

/-- The function `wait_gp` (`urcu-qsbr.c:129`): return at once when the futex is no
longer -1, otherwise sleep on it (the other threads run) and return.  The retry
on `EINTR` and the fatal errno are not modelled. -/
def wait_gp (env : Env) (c : Cfg) : Cfg :=
  let c := c.log .wait_gp
  if c.mem.gp_futex ≠ -1 then c else yield env c

/-- The hint `caa_cpu_relax()` (`urcu-qsbr.c:231`). -/
def caa_cpu_relax (c : Cfg) : Cfg :=
  c.log .cpu_relax

/-- Lines 169-185 of `wait_for_readers`: count the attempt and, once the counter
has reached `RCU_QS_ACTIVE_ATTEMPTS`, arm the futex and flag every reader still in
`input_readers`. -/
def wfr_arm (input_readers : ListRef) (wait_loops : Nat) (c : Cfg) : Nat × Cfg :=
  let wait_loops := if wait_loops < RCU_QS_ACTIVE_ATTEMPTS then wait_loops + 1 else wait_loops
  if wait_loops ≥ RCU_QS_ACTIVE_ATTEMPTS then
    let c := uatomic_set_futex (-1) c
    (wait_loops, (c.list input_readers).foldl store_waiting c)
  else (wait_loops, c)

/-- Lines 187-208 of `wait_for_readers`: the body of the scan, for one reader. -/
def wfr_examine (bits : Nat) (cur_snap_readers : Option ListRef) (qsreaders : ListRef)
    (c : Cfg) (index : Tid) : Cfg :=
  let s := urcu_qsbr_reader_state bits c.mem.gp_ctr (c.mem.reader index).ctr
  let c := c.log (.examine index s)
  match s with
  | .URCU_READER_ACTIVE_CURRENT =>
    match cur_snap_readers with
    | some l => cds_list_move index l c
    | none => cds_list_move index qsreaders c
  | .URCU_READER_INACTIVE => cds_list_move index qsreaders c
  | .URCU_READER_ACTIVE_OLD => c

/-- Lines 186-209 of `wait_for_readers`: `cds_list_for_each_entry_safe` over
`input_readers`. -/
def wfr_scan (bits : Nat) (input_readers : ListRef) (cur_snap_readers : Option ListRef)
    (qsreaders : ListRef) (c : Cfg) : Cfg :=
  (c.list input_readers).foldl (wfr_examine bits cur_snap_readers qsreaders) (c.log .scan)

/-- One turn of the `for (;;)` loop of `wait_for_readers` (`urcu-qsbr.c:167-239`). -/
def wfr_body (bits : Nat) (env : Env) (input_readers : ListRef)
    (cur_snap_readers : Option ListRef) (qsreaders : ListRef)
    (wait_loops : Nat) (c : Cfg) : Except Halt LoopStep :=
  let a := wfr_arm input_readers wait_loops c
  let wait_loops := a.1
  let c := wfr_scan bits input_readers cur_snap_readers qsreaders a.2
  if cds_list_empty input_readers c then
    .ok (.brk (if wait_loops ≥ RCU_QS_ACTIVE_ATTEMPTS then uatomic_set_futex 0 c else c))
  else
    match mutex_unlock .rcu_registry_lock c with
    | .error e => .error e
    | .ok c =>
      let c := if wait_loops ≥ RCU_QS_ACTIVE_ATTEMPTS then wait_gp env c else caa_cpu_relax c
      match mutex_lock env .rcu_registry_lock c with
      | .error e => .error e
      | .ok c => .ok (.cont wait_loops c)

/-- The `for (;;)` loop of `wait_for_readers`, one unit of fuel per turn. -/
def wfr_loop (bits : Nat) (env : Env) (input_readers : ListRef)
    (cur_snap_readers : Option ListRef) (qsreaders : ListRef) :
    Nat → Nat → Cfg → Except Halt Cfg
  | 0, _, c => .error (.out_of_fuel c)
  | fuel + 1, wait_loops, c =>
    match wfr_body bits env input_readers cur_snap_readers qsreaders wait_loops c with
    | .error e => .error e
    | .ok (.brk c) => .ok c
    | .ok (.cont wait_loops c) =>
      wfr_loop bits env input_readers cur_snap_readers qsreaders fuel wait_loops c

/-- The function `wait_for_readers` (`urcu-qsbr.c:155`): `wait_loops = 0`, then the
loop. -/
def wait_for_readers (bits : Nat) (env : Env) (fuel : Nat) (input_readers : ListRef)
    (cur_snap_readers : Option ListRef) (qsreaders : ListRef) (c : Cfg) : Except Halt Cfg :=
  wfr_loop bits env input_readers cur_snap_readers qsreaders fuel 0 c

/-- The configuration at the top of the loop of `wait_for_readers` after `n`
unsuccessful turns, when the loop gets that far. -/
def wfr_after (bits : Nat) (env : Env) (input_readers : ListRef)
    (cur_snap_readers : Option ListRef) (qsreaders : ListRef) :
    Nat → Nat → Cfg → Option (Nat × Cfg)
  | 0, wait_loops, c => some (wait_loops, c)
  | n + 1, wait_loops, c =>
    match wfr_body bits env input_readers cur_snap_readers qsreaders wait_loops c with
    | .ok (.cont wait_loops c) =>
      wfr_after bits env input_readers cur_snap_readers qsreaders n wait_loops c
    | _ => none

/-- The grace period proper, between the registry check and the label `out:` of
`urcu_qsbr_synchronize_rcu`: lines 301-349 when `CAA_BITS_PER_LONG < 64`, lines
424-453 otherwise. -/
def grace_period (bits : Nat) (env : Env) (fuel : Nat) (c : Cfg) : Except Halt Cfg :=
  if bits < 64 then
    match wait_for_readers bits env fuel .registry (some .cur_snap_readers) .qsreaders c with
    | .error e => .error e
    | .ok c =>
      let c := store_gp_ctr (c.mem.gp_ctr ^^^ URCU_QSBR_GP_CTR) c
      match wait_for_readers bits env fuel .cur_snap_readers none .qsreaders c with
      | .error e => .error e
      | .ok c => .ok (cds_list_splice .qsreaders .registry c)
  else
    let c := store_gp_ctr ((c.mem.gp_ctr + URCU_QSBR_GP_CTR) % 2 ^ bits) c
    match wait_for_readers bits env fuel .registry none .qsreaders c with
    | .error e => .error e
    | .ok c => .ok (cds_list_splice .qsreaders .registry c)

/-- From the label `gp_end:` of `urcu_qsbr_synchronize_rcu` to its return. -/
def gp_end (was_online : Bool) (self : Tid) (c : Cfg) : Cfg :=
  if was_online then urcu_qsbr_thread_online self c else c

/-- The leader's part of `urcu_qsbr_synchronize_rcu`, from `urcu_wait_set_state` to
`urcu_wake_all_waiters` (lines 282-353, respectively 403-458). -/
def synchronize_rcu_leader (bits : Nat) (env : Env) (fuel : Nat) (self : Tid) (c : Cfg) :
    Except Halt Cfg :=
  let c := urcu_wait_set_state self .URCU_WAIT_RUNNING c
  match mutex_lock env .rcu_gp_lock c with
  | .error e => .error e
  | .ok c =>
    let c := urcu_move_waiters c
    match mutex_lock env .rcu_registry_lock c with
    | .error e => .error e
    | .ok c =>
      match (if cds_list_empty .registry c then .ok c else grace_period bits env fuel c) with
      | .error e => .error e
      | .ok c =>
        match mutex_unlock .rcu_registry_lock c with
        | .error e => .error e
        | .ok c =>
          match mutex_unlock .rcu_gp_lock c with
          | .error e => .error e
          | .ok c => .ok (urcu_wake_all_waiters c)

/-- The function `urcu_qsbr_synchronize_rcu` (`urcu-qsbr.c:248` when
`CAA_BITS_PER_LONG < 64`, `urcu-qsbr.c:366` otherwise; the two differ only in
`grace_period`), called by thread `self` on a build with `bits`-bit `long`. -/
def urcu_qsbr_synchronize_rcu (bits : Nat) (env : Env) (fuel : Nat) (self : Tid) (c : Cfg) :
    Except Halt Cfg :=
  let c := { c with cur_snap_readers := [], qsreaders := [], waiters := [] }
  let c := urcu_wait_set_state self .URCU_WAIT_WAITING c
  let was_online := urcu_qsbr_read_ongoing self c
  let c := if was_online then urcu_qsbr_thread_offline self c else c
  let r := urcu_wait_add self c
  if r.1 ≠ 0 then
    match urcu_adaptative_busy_wait env self fuel r.2 with
    | .error e => .error e
    | .ok c => .ok (gp_end was_online self c)
  else
    match synchronize_rcu_leader bits env fuel self r.2 with
    | .error e => .error e
    | .ok c => .ok (gp_end was_online self c)

/-- The function `urcu_qsbr_register_thread` (`urcu-qsbr.c:521`). -/
def urcu_qsbr_register_thread (env : Env) (self : Tid) (c : Cfg) : Except Halt Cfg :=
  let c := c.setReader self { c.mem.reader self with tid := some self }
  if (c.mem.reader self).ctr ≠ 0 then .error (.assertion c)
  else
    match mutex_lock env .rcu_registry_lock c with
    | .error e => .error e
    | .ok c =>
      if (c.mem.reader self).registered then .error (.assertion c)
      else
        let c := c.setReader self { c.mem.reader self with registered := true }
        let c := cds_list_add self .registry c
        match mutex_unlock .rcu_registry_lock c with
        | .error e => .error e
        | .ok c => .ok (urcu_qsbr_thread_online self c)

/-- The function `urcu_qsbr_unregister_thread` (`urcu-qsbr.c:540`). -/
def urcu_qsbr_unregister_thread (env : Env) (self : Tid) (c : Cfg) : Except Halt Cfg :=
  let c := urcu_qsbr_thread_offline self c
  if !(c.mem.reader self).registered then .error (.assertion c)
  else
    let c := c.setReader self { c.mem.reader self with registered := false }
    match mutex_lock env .rcu_registry_lock c with
    | .error e => .error e
    | .ok c =>
      let c := cds_list_del self c
      mutex_unlock .rcu_registry_lock c

/-! ## Specification-level definitions -/

/-- The list the scan moves reader `t` to, if it moves it (`urcu-qsbr.c:187-208`):
nowhere for ACTIVE_OLD, `qsreaders` for INACTIVE, and for ACTIVE_CURRENT
`cur_snap_readers` when that pointer is non-null and `qsreaders` otherwise. -/
def wfr_dest (bits : Nat) (cur_snap_readers : Option ListRef) (qsreaders : ListRef)
    (c : Cfg) (t : Tid) : Option ListRef :=
  match urcu_qsbr_reader_state bits c.mem.gp_ctr (c.mem.reader t).ctr with
  | .URCU_READER_ACTIVE_CURRENT => some (cur_snap_readers.getD qsreaders)
  | .URCU_READER_INACTIVE => some qsreaders
  | .URCU_READER_ACTIVE_OLD => none

/-- Well-formed intrusive lists: a node is linked at most once, in at most one
list. -/
def ListsWF (c : Cfg) : Prop :=
  (∀ r, (c.list r).Nodup) ∧ ∀ x r₁ r₂, x ∈ c.list r₁ → x ∈ c.list r₂ → r₁ = r₂

/-- The other threads neither link nor unlink a node of the registry. -/
def EnvKeepsRegistry (env : Env) : Prop :=
  ∀ k m, (env k m).registry = m.registry

/-- The other threads do not write any thread's `registered` flag. -/
def EnvKeepsRegistered (env : Env) : Prop :=
  ∀ k m t, ((env k m).reader t).registered = (m.reader t).registered

/-- The other threads do not store to `urcu_qsbr_gp.ctr`. -/
def EnvKeepsGpCtr (env : Env) : Prop :=
  ∀ k m, (env k m).gp_ctr = m.gp_ctr

/-- The other threads do not store to `urcu_qsbr_gp.futex`. -/
def EnvKeepsFutex (env : Env) : Prop :=
  ∀ k m, (env k m).gp_futex = m.gp_futex

/-- The other threads keep the global `ctr` odd (they store to it only as leaders
of grace periods of their own, which add `URCU_QSBR_GP_CTR` or flip that bit). -/
def EnvKeepsGpOdd (env : Env) : Prop :=
  ∀ k m, m.gp_ctr % 2 = 1 → (env k m).gp_ctr % 2 = 1

/-- The other threads do not write the `ctr` of thread `self` ("written to only
by each individual reader", `urcu-qsbr.c:82`). -/
def EnvKeepsOwnCtr (self : Tid) (env : Env) : Prop :=
  ∀ k m, ((env k m).reader self).ctr = (m.reader self).ctr

/-- Shared memory `m'` is what the other threads can make of `m` in finitely many
of their turns. -/
inductive EnvSteps (env : Env) : Mem → Mem → Prop where
  | refl (m : Mem) : EnvSteps env m m
  | step (k : Nat) {m m' : Mem} : EnvSteps env m m' → EnvSteps env m (env k m')

/-- Lines 222-237 of `wait_for_readers`, entered holding the registry lock: drop
the lock, wait (`wait_gp` once the counter is saturated, the CPU-relax hint
before), take the lock again. -/
def wfr_pause (env : Env) (wait_loops : Nat) (c : Cfg) : Cfg :=
  let u := (c.setHolds .rcu_registry_lock false).log (.unlock .rcu_registry_lock)
  let w := if wait_loops ≥ RCU_QS_ACTIVE_ATTEMPTS then wait_gp env u else caa_cpu_relax u
  ((yield env w).setHolds .rcu_registry_lock true).log (.lock .rcu_registry_lock)

/-- How the lists of `c'` come from those of `c` when nodes are only ever moved
from the list `i` to the list `qs` or to the list `cur` points to: nothing appears
from nowhere, and nothing is lost. -/
def Moved (i : ListRef) (cur : Option ListRef) (qs : ListRef) (c c' : Cfg) : Prop :=
  (∀ x ρ, x ∈ c'.list ρ → x ∈ c.list ρ ∨ (x ∈ c.list i ∧ (ρ = qs ∨ cur = some ρ))) ∧
  (∀ x ρ, x ∈ c.list ρ →
    x ∈ c'.list ρ ∨ (ρ = i ∧ (x ∈ c'.list qs ∨ ∃ l, cur = some l ∧ x ∈ c'.list l)))

/-- Lines 368-392 of `urcu_qsbr_synchronize_rcu` (250-276 on a 32-bit build): the
configuration once the caller has gone offline and queued its waiter node. -/
def sync_queued (self : Tid) (c : Cfg) : Cfg :=
  let c := { c with cur_snap_readers := [], qsreaders := [], waiters := [] }
  let c := urcu_wait_set_state self .URCU_WAIT_WAITING c
  let c := if urcu_qsbr_read_ongoing self c then urcu_qsbr_thread_offline self c else c
  (urcu_wait_add self c).2

/-- Lines 403-412 of `urcu_qsbr_synchronize_rcu`, entered holding neither mutex:
the leader marks its node RUNNING, takes `rcu_gp_lock`, drains the waiter queue
and takes `rcu_registry_lock`. -/
def leader_locked (env : Env) (self : Tid) (c : Cfg) : Cfg :=
  let c := urcu_wait_set_state self .URCU_WAIT_RUNNING c
  let c := ((yield env c).setHolds .rcu_gp_lock true).log (.lock .rcu_gp_lock)
  let c := urcu_move_waiters c
  ((yield env c).setHolds .rcu_registry_lock true).log (.lock .rcu_registry_lock)

/-- Lines 455-458 of `urcu_qsbr_synchronize_rcu`, entered holding both mutexes:
release `rcu_registry_lock`, then `rcu_gp_lock`, then wake the batched waiters. -/
def leader_release (c : Cfg) : Cfg :=
  let c := (c.setHolds .rcu_registry_lock false).log (.unlock .rcu_registry_lock)
  let c := (c.setHolds .rcu_gp_lock false).log (.unlock .rcu_gp_lock)
  urcu_wake_all_waiters c

/-- The value the leader stores to `urcu_qsbr_gp.ctr`: the parity flip of line 321
when `CAA_BITS_PER_LONG < 64`, the increment of line 424 otherwise. -/
def gp_ctr_next (bits v : Nat) : Nat :=
  if bits < 64 then v ^^^ URCU_QSBR_GP_CTR else (v + URCU_QSBR_GP_CTR) % 2 ^ bits

/-- A property of configurations that every step of the grace period proper
preserves. -/
structure GpStable (bits : Nat) (env : Env) (Q : Cfg → Prop) : Prop where
  store : ∀ c, Q c → Q (store_gp_ctr (gp_ctr_next bits c.mem.gp_ctr) c)
  arm : ∀ i w c, Q c → Q (wfr_arm i w c).2
  scan : ∀ i cur qs c, Q c → Q (wfr_scan bits i cur qs c)
  pause : ∀ w c, Q c → Q (wfr_pause env w c)
  futex : ∀ c, Q c → Q (uatomic_set_futex 0 c)
  splice : ∀ c, Q c → Q (cds_list_splice .qsreaders .registry c)

/-- A property of configurations that every step of the leader's part of
`urcu_qsbr_synchronize_rcu` preserves. -/
structure LeaderStable (bits : Nat) (env : Env) (caller : Tid) (Q : Cfg → Prop) : Prop where
  gp : GpStable bits env Q
  locked : ∀ c, Q c → Q (leader_locked env caller c)
  release : ∀ c, Q c → Q (leader_release c)

/-- The other threads only do what readers and queued writers do: they leave the
registry, the `registered` flags and the global `ctr` alone (the first two are
written under `rcu_registry_lock` by the registering thread, the last under
`rcu_gp_lock` by the leader). -/
def ReaderSideEnv (env : Env) : Prop :=
  EnvKeepsRegistry env ∧ EnvKeepsRegistered env ∧ EnvKeepsGpCtr env

/-- The configurations the library reaches from its load-time state when threads
call its entry points one after the other, on a build with `bits`-bit `long`,
while other threads do what `ReaderSideEnv` allows.  A call that aborts or does
not return reaches nothing. -/
inductive Reachable (bits : Nat) : Cfg → Prop where
  | init : Reachable bits Cfg.init
  | register_thread (env : Env) (self : Tid) {c r : Cfg} :
      Reachable bits c → ReaderSideEnv env →
      urcu_qsbr_register_thread env self c = .ok r → Reachable bits r
  | unregister_thread (env : Env) (self : Tid) {c r : Cfg} :
      Reachable bits c → ReaderSideEnv env →
      urcu_qsbr_unregister_thread env self c = .ok r → Reachable bits r
  | synchronize_rcu (env : Env) (fuel : Nat) (self : Tid) {c r : Cfg} :
      Reachable bits c → ReaderSideEnv env →
      urcu_qsbr_synchronize_rcu bits env fuel self c = .ok r → Reachable bits r
  | thread_offline (self : Tid) {c : Cfg} :
      Reachable bits c → Reachable bits (urcu_qsbr_thread_offline self c)
  | thread_online (self : Tid) {c : Cfg} :
      Reachable bits c → Reachable bits (urcu_qsbr_thread_online self c)
  | quiescent_state (self : Tid) {c : Cfg} :
      Reachable bits c → Reachable bits (urcu_qsbr_quiescent_state self c)

/-- The configuration `urcu_qsbr_register_thread` returns when both assertions
hold and the registry lock is free. -/
def register_result (env : Env) (self : Tid) (c : Cfg) : Cfg :=
  let c := c.setReader self { c.mem.reader self with tid := some self }
  let c := ((yield env c).setHolds .rcu_registry_lock true).log (.lock .rcu_registry_lock)
  let c := c.setReader self { c.mem.reader self with registered := true }
  let c := cds_list_add self .registry c
  let c := (c.setHolds .rcu_registry_lock false).log (.unlock .rcu_registry_lock)
  urcu_qsbr_thread_online self c

/-- The configuration `urcu_qsbr_unregister_thread` returns when its assertion
holds and the registry lock is free. -/
def unregister_result (env : Env) (self : Tid) (c : Cfg) : Cfg :=
  let c := urcu_qsbr_thread_offline self c
  let c := c.setReader self { c.mem.reader self with registered := false }
  let c := ((yield env c).setHolds .rcu_registry_lock true).log (.lock .rcu_registry_lock)
  let c := cds_list_del self c
  (c.setHolds .rcu_registry_lock false).log (.unlock .rcu_registry_lock)

/-- A property of configurations that every step of `urcu_qsbr_synchronize_rcu`
preserves, on the leader path and on the path that waits for the leader. -/
structure SyncStable (bits : Nat) (env : Env) (caller : Tid) (Q : Cfg → Prop) : Prop where
  leader : LeaderStable bits env caller Q
  queued : ∀ c, Q c → Q (sync_queued caller c)
  yield : ∀ c, Q c → Q (yield env c)
  finish : ∀ b c, Q c → Q (gp_end b caller c)

/-- Registry consistency: a thread's node is linked in the registry exactly when
its `registered` flag is true, and no node is linked twice. -/
def RegistryConsistent (c : Cfg) : Prop :=
  (∀ t, t ∈ c.mem.registry ↔ (c.mem.reader t).registered = true) ∧ c.mem.registry.Nodup

/-- Log entries of `mutex_lock` and `mutex_unlock`. -/
def Event.onMutex : Event → Bool
  | .lock _ => true
  | .unlock _ => true
  | _ => false

/-- Log entries that only the grace period proper and `wait_for_readers` write:
the stores to the global `ctr`, to the futex and to `waiting` flags, the scans with
their examinations, and the two kinds of wait. -/
def Event.ofGracePeriod : Event → Bool
  | .gp_ctr_store _ => true
  | .futex_store _ => true
  | .waiting_store _ => true
  | .scan => true
  | .examine _ _ => true
  | .cpu_relax => true
  | .wait_gp => true
  | _ => false

/-- Run a monitor over a log: `rule s e` is the monitor's state after entry `e`
in state `s`, or `none` when `e` breaks the rule the monitor stands for. -/
def check_trace {σ : Type} (rule : σ → Event → Option σ) : σ → List Event → Option σ
  | s, [] => some s
  | s, e :: es =>
    match rule s e with
    | some s' => check_trace rule s' es
    | none => none

/-- The discipline of `rcu_registry_lock` in `wait_for_readers`; the state is
whether the lock is held.  The lock is taken only when free and released only
when held; a scan and each of its examinations need it held; a wait (`wait_gp` or
the CPU-relax hint) needs it released. -/
def registry_rule (held : Bool) : Event → Option Bool
  | .lock .rcu_registry_lock => if held then none else some true
  | .unlock .rcu_registry_lock => if held then some false else none
  | .scan => if held then some held else none
  | .examine _ _ => if held then some held else none
  | .cpu_relax => if held then none else some held
  | .wait_gp => if held then none else some held
  | _ => some held

/-- The nesting of the two mutexes; the state is (`rcu_gp_lock` held,
`rcu_registry_lock` held).  `rcu_gp_lock` is taken only while neither is held,
`rcu_registry_lock` only while `rcu_gp_lock` is held and itself free, and a mutex
is released only when held. -/
def nesting_rule (h : Bool × Bool) : Event → Option (Bool × Bool)
  | .lock .rcu_gp_lock => if h.1 || h.2 then none else some (true, h.2)
  | .lock .rcu_registry_lock => if h.1 && !h.2 then some (h.1, true) else none
  | .unlock .rcu_gp_lock => if h.1 then some (false, h.2) else none
  | .unlock .rcu_registry_lock => if h.2 then some (h.1, false) else none
  | _ => some h

/-- Forbids a store to the global `ctr`. -/
def no_gp_ctr_store_rule (_ : Unit) : Event → Option Unit
  | .gp_ctr_store _ => none
  | _ => some ()

/-- Forbids the examination of thread `self` with an outcome other than
INACTIVE. -/
def self_inactive_rule (self : Tid) (_ : Unit) : Event → Option Unit
  | .examine t s => if t = self ∧ s ≠ .URCU_READER_INACTIVE then none else some ()
  | _ => some ()

/-- What a monitor must accept for a turn of `wait_for_readers` to pass it:
`held` is its state during the scans, `free` its state during the waits. -/
structure TurnRule {σ : Type} (rule : σ → Event → Option σ) (held free : σ) : Prop where
  futex : ∀ v, rule held (.futex_store v) = some held
  waiting : ∀ t, rule held (.waiting_store t) = some held
  scan : rule held .scan = some held
  unlock : rule held (.unlock .rcu_registry_lock) = some free
  cpu_relax : rule free .cpu_relax = some free
  wait_gp : rule free .wait_gp = some free
  lock : rule free (.lock .rcu_registry_lock) = some held

/-- What a monitor must accept for a whole call of `urcu_qsbr_synchronize_rcu` to
pass it: `out` is its state outside the leader's part, `free` its state while
the leader holds `rcu_gp_lock` only, `held` its state while it holds both. -/
structure LeaderRule {σ : Type} (rule : σ → Event → Option σ) (out free held : σ) : Prop where
  turn : TurnRule rule held free
  store : ∀ v, rule held (.gp_ctr_store v) = some held
  lock_gp : rule out (.lock .rcu_gp_lock) = some free
  unlock_gp : rule free (.unlock .rcu_gp_lock) = some out
  wake : ∀ t, rule out (.wake_waiter t) = some out
  futex_wake : rule out .futex_wake = some out

/-- The log entries of one scan, counting step included: the arming stores when
the counter is saturated, then the scan with its examinations. -/
def turn_events (bits : Nat) (i : ListRef) (w : Nat) (c : Cfg) : List Event :=
  (if (wfr_arm i w c).1 ≥ RCU_QS_ACTIVE_ATTEMPTS
    then Event.futex_store (-1) :: (c.list i).map Event.waiting_store else []) ++
  Event.scan :: (c.list i).map (fun t =>
    Event.examine t (urcu_qsbr_reader_state bits c.mem.gp_ctr (c.mem.reader t).ctr))

/-- Whenever the calling thread blocks, every reader other than `self` is offline
or passes through a quiescent state: none is ACTIVE_OLD when the calling thread
runs again. -/
def OthersQuiesce (bits : Nat) (self : Tid) (env : Env) : Prop :=
  ∀ k m t, t ≠ self →
    urcu_qsbr_reader_state bits (env k m).gp_ctr ((env k m).reader t).ctr ≠
      .URCU_READER_ACTIVE_OLD

/-- Whenever the calling thread blocks, the leader of the current grace period
finishes and marks the waiter node of `self` RUNNING. -/
def LeaderWakes (self : Tid) (env : Env) : Prop :=
  ∀ k m, (env k m).wait_state self = .URCU_WAIT_RUNNING

/-- The configuration a call stopped in when it did not return. -/
def Halt.cfg : Halt → Cfg
  | .assertion c => c
  | .die c => c
  | .deadlock c => c
  | .out_of_fuel c => c

/-- The configuration a call ends in: the one it returns, or the one it stopped
in. -/
def final_cfg : Except Halt Cfg → Cfg
  | .ok c => c
  | .error e => e.cfg

/-- A call that has not gone wrong: it returned, or the model's fuel ran out while
it waited for other threads.  It did not fail an assertion, did not call
`urcu_die` and is not blocked for ever on a mutex. -/
def in_order : Except Halt Cfg → Bool
  | .ok _ => true
  | .error (.out_of_fuel _) => true
  | .error _ => false

/-- Thread `self` is offline now and was offline at every blocking point of the
calling thread since `seen` was `base`: each shared memory the other threads
have been handed since then shows the `ctr` of `self` at 0. -/
def OfflineSince (self : Tid) (base : List Mem) (c : Cfg) : Prop :=
  (c.mem.reader self).ctr = 0 ∧
  ∃ ms, c.seen = base ++ ms ∧ ∀ m ∈ ms, (m.reader self).ctr = 0

/-- From the blocking point numbered `k₀` on, the other threads do not store to
`urcu_qsbr_gp.ctr`. -/
def EnvKeepsGpCtrFrom (k₀ : Nat) (env : Env) : Prop :=
  ∀ k m, k₀ ≤ k → (env k m).gp_ctr = m.gp_ctr

/-- What the examinations logged so far, `evs`, say about the lists of `c'`, for
a wait that started in `c` on the list `i`: only readers of the original list
were examined; each of them is still in the list or was examined with an
outcome other than ACTIVE_OLD; and the list `cur_snap_readers` points to has
gained exactly the readers examined ACTIVE_CURRENT. -/
def Examined (i : ListRef) (cur : Option ListRef) (c c' : Cfg) (evs : List Event) : Prop :=
  (∀ t s, Event.examine t s ∈ evs → t ∈ c.list i) ∧
  (∀ t ∈ c.list i,
    t ∈ c'.list i ∨ ∃ s, Event.examine t s ∈ evs ∧ s ≠ .URCU_READER_ACTIVE_OLD) ∧
  (∀ l, cur = some l → ∀ t,
    t ∈ c'.list l ↔ (t ∈ c.list l ∨ Event.examine t .URCU_READER_ACTIVE_CURRENT ∈ evs))

/-! ## Concrete inputs -/

/-- An environment in which every online reader passes through a quiescent state
whenever the calling thread blocks: it republishes the current global `ctr`. -/
def env_quiesce : Env := fun _ m =>
  { m with reader := fun t =>
      { m.reader t with ctr := if (m.reader t).ctr = 0 then 0 else m.gp_ctr } }

/-- Shared memory in the middle of a 64-bit grace period with epoch 3: reader 1 is
offline, reader 2 has published the current epoch, reader 3 still holds epoch 1. -/
def mem_three_readers : Mem :=
  { gp_ctr := 3
    gp_futex := 0
    reader := fun t =>
      if t = 1 then { ctr := 0, waiting := 0, registered := true, tid := some 1 }
      else if t = 2 then { ctr := 3, waiting := 0, registered := true, tid := some 2 }
      else if t = 3 then { ctr := 1, waiting := 0, registered := true, tid := some 3 }
      else { ctr := 0, waiting := 0, registered := false, tid := none }
    registry := [1, 2, 3]
    gp_waiters := []
    wait_state := fun _ => .URCU_WAIT_WAITING }

/-- A leader about to call `wait_for_readers` on `mem_three_readers`, holding both
mutexes. -/
def cfg_three_readers : Cfg :=
  { mem := mem_three_readers
    cur_snap_readers := []
    qsreaders := []
    waiters := []
    holds_gp := true
    holds_registry := true
    clock := 0
    trace := []
    seen := [] }

/-- Threads 1 and 2 have registered, in that order. -/
def cfg_two_registered : Cfg :=
  register_result env_quiesce 2 (register_result env_quiesce 1 Cfg.init)

/-- After thread 1, a registered reader, has called `synchronize_rcu` on a 64-bit
build from `cfg_two_registered` (`Cfg.init` stands in if the call does not
return). -/
def cfg_two_synced : Cfg :=
  match urcu_qsbr_synchronize_rcu 64 env_quiesce 2 1 cfg_two_registered with
  | .ok r => r
  | .error _ => Cfg.init

/-- An environment in which a second writer, thread 9, queues its waiter node
whenever the calling thread blocks and the node is not queued yet. -/
def env_second_writer : Env := fun _ m =>
  { m with gp_waiters := if 9 ∈ m.gp_waiters then m.gp_waiters else 9 :: m.gp_waiters }

/-- After thread 1, a registered reader, has called `synchronize_rcu` on a 32-bit
build from `cfg_two_registered` (`Cfg.init` stands in if the call does not
return). -/
def cfg_two_synced32 : Cfg :=
  match urcu_qsbr_synchronize_rcu 32 env_quiesce 2 1 cfg_two_registered with
  | .ok r => r
  | .error _ => Cfg.init

/-- An environment in which every online reader other than `self` passes through
a quiescent state whenever the calling thread blocks. -/
def env_quiesce_except (self : Tid) : Env := fun _ m =>
  { m with reader := fun t =>
      if t = self then m.reader t
      else { m.reader t with ctr := if (m.reader t).ctr = 0 then 0 else m.gp_ctr } }

/-- An environment in which another thread leads: whenever the calling thread
blocks, a grace period of the 64-bit build completes (the global `ctr` advances
by `URCU_QSBR_GP_CTR`) and every queued waiter is marked RUNNING. -/
def env_leader : Env := fun _ m =>
  { m with gp_ctr := (m.gp_ctr + URCU_QSBR_GP_CTR) % 2 ^ 64
           wait_state := fun _ => .URCU_WAIT_RUNNING }

/-- Reader 1 calls `synchronize_rcu` from `cfg_two_registered` and leads, while
reader 2 quiesces whenever it blocks. -/
def cfg_self_led : Cfg :=
  match urcu_qsbr_synchronize_rcu 64 (env_quiesce_except 1) 2 1 cfg_two_registered with
  | .ok r => r
  | .error _ => Cfg.init

/-- The configuration `cfg_two_registered` with the waiter node of thread 9
already queued: thread 9 is leading a grace period. -/
def cfg_two_registered_led : Cfg :=
  { cfg_two_registered with mem := { cfg_two_registered.mem with gp_waiters := [9] } }

/-- Reader 1 calls `synchronize_rcu` from `cfg_two_registered_led` and waits for
the leader. -/
def cfg_self_woken : Cfg :=
  match urcu_qsbr_synchronize_rcu 64 env_leader 2 1 cfg_two_registered_led with
  | .ok r => r
  | .error _ => Cfg.init

/-- An environment in which nothing happens: no reader passes through a quiescent
state. -/
def env_stalled : Env := fun _ m => m

/-- An environment in which the readers are stalled during the first `n`
blocking points of the calling thread and quiesce from then on. -/
def env_resume_at (n : Nat) : Env := fun k m => if k < n then m else env_quiesce k m

/-- The configuration at the top of the loop of `wait_for_readers`, called on
`cfg_three_readers`, after 100 scans that each found reader 3 ACTIVE_OLD. -/
def cfg_after_100_scans : Cfg :=
  match wfr_after 64 env_stalled .registry none .qsreaders 100 0 cfg_three_readers with
  | some p => p.2
  | none => cfg_three_readers

/-- What `wait_for_readers` returns on `cfg_three_readers` when reader 3 stays
stalled during the first 105 blocking points of the writer (`Cfg.init` stands in
if the call does not return). -/
def cfg_after_futex_wait : Cfg :=
  match wait_for_readers 64 (env_resume_at 105) 200 .registry none .qsreaders
      cfg_three_readers with
  | .ok r => r
  | .error _ => Cfg.init

/-- An environment in which another leader is ahead of the caller of
`cfg_two_registered`: its grace period of the 32-bit build completes while the
caller waits for `rcu_gp_lock`, at the blocking point numbered 2; otherwise the
readers quiesce. -/
def env_behind_leader : Env := fun k m =>
  if k = 2 then { m with gp_ctr := m.gp_ctr ^^^ URCU_QSBR_GP_CTR } else env_quiesce k m

/-- After thread 1 has called `synchronize_rcu` on a 32-bit build from
`cfg_two_registered` behind another leader (`Cfg.init` stands in if the call does
not return). -/
def cfg_two_synced32_behind : Cfg :=
  match urcu_qsbr_synchronize_rcu 32 env_behind_leader 2 1 cfg_two_registered with
  | .ok r => r
  | .error _ => Cfg.init

/-! ## Lists: what a scan does -/

theorem foldl_inv {α β : Type} (P : β → Prop) (f : β → α → β) (l : List α)
    (h : ∀ b a, a ∈ l → P b → P (f b a)) : ∀ b, P b → P (l.foldl f b) := by
  induction l with
  | nil => intro b hb; simpa using hb
  | cons a l ih =>
    intro b hb
    simp only [List.foldl_cons]
    exact ih (fun b x hx => h b x (List.mem_cons_of_mem _ hx)) _
      (h b a (List.mem_cons_self _ _) hb)

theorem list_setList (c : Cfg) (r r' : ListRef) (l : List Tid) :
    (c.setList r l).list r' = if r' = r then l else c.list r' := by
  cases r <;> cases r' <;> simp [Cfg.setList, Cfg.list]

theorem mem_list_del (x t : Tid) (r : ListRef) (c : Cfg) :
    x ∈ (cds_list_del t c).list r ↔ x ≠ t ∧ x ∈ c.list r := by
  cases r <;> simp [cds_list_del, Cfg.list, and_comm]

theorem nodup_list_del (t : Tid) (r : ListRef) (c : Cfg) (h : (c.list r).Nodup) :
    ((cds_list_del t c).list r).Nodup := by
  cases r <;> simp only [cds_list_del, Cfg.list] at h ⊢ <;> exact h.filter _

theorem mem_list_move (x t : Tid) (d r : ListRef) (c : Cfg) :
    x ∈ (cds_list_move t d c).list r ↔ (x = t ∧ r = d) ∨ (x ≠ t ∧ x ∈ c.list r) := by
  unfold cds_list_move cds_list_add
  rw [list_setList]
  by_cases hr : r = d
  · subst hr
    simp only [if_true, List.mem_cons, mem_list_del, and_true]
  · simp [hr, mem_list_del]

theorem nodup_list_move (t : Tid) (d r : ListRef) (c : Cfg) (h : (c.list r).Nodup) :
    ((cds_list_move t d c).list r).Nodup := by
  unfold cds_list_move cds_list_add
  rw [list_setList]
  by_cases hr : r = d
  · subst hr
    simp only [if_true, List.nodup_cons]
    exact ⟨fun hm => ((mem_list_del t t r c).1 hm).1 rfl, nodup_list_del t r c h⟩
  · simp only [hr, if_false]
    exact nodup_list_del t r c h

/-! ## What a scan leaves alone -/

theorem cds_list_move_mem (t : Tid) (d : ListRef) (c : Cfg) :
    (cds_list_move t d c).mem.gp_ctr = c.mem.gp_ctr ∧
    (cds_list_move t d c).mem.gp_futex = c.mem.gp_futex ∧
    (cds_list_move t d c).mem.reader = c.mem.reader ∧
    (cds_list_move t d c).mem.gp_waiters = c.mem.gp_waiters ∧
    (cds_list_move t d c).mem.wait_state = c.mem.wait_state := by
  cases d <;> simp [cds_list_move, cds_list_add, cds_list_del, Cfg.setList, Cfg.list]

theorem cds_list_move_rest (t : Tid) (d : ListRef) (c : Cfg) :
    (cds_list_move t d c).waiters = c.waiters ∧
    (cds_list_move t d c).holds_gp = c.holds_gp ∧
    (cds_list_move t d c).holds_registry = c.holds_registry ∧
    (cds_list_move t d c).clock = c.clock ∧
    (cds_list_move t d c).trace = c.trace := by
  cases d <;> simp [cds_list_move, cds_list_add, cds_list_del, Cfg.setList, Cfg.list]

/-- The log entry the scan writes for reader `t`. -/
theorem wfr_examine_trace (bits : Nat) (cur : Option ListRef) (qs : ListRef) (c : Cfg)
    (t : Tid) :
    (wfr_examine bits cur qs c t).trace =
      c.trace ++ [.examine t (urcu_qsbr_reader_state bits c.mem.gp_ctr (c.mem.reader t).ctr)] := by
  unfold wfr_examine
  cases urcu_qsbr_reader_state bits c.mem.gp_ctr (c.mem.reader t).ctr <;>
    cases cur <;> simp [(cds_list_move_rest _ _ _).2.2.2.2, Cfg.log]

theorem wfr_examine_mem (bits : Nat) (cur : Option ListRef) (qs : ListRef) (c : Cfg)
    (t : Tid) :
    (wfr_examine bits cur qs c t).mem.gp_ctr = c.mem.gp_ctr ∧
    (wfr_examine bits cur qs c t).mem.gp_futex = c.mem.gp_futex ∧
    (wfr_examine bits cur qs c t).mem.reader = c.mem.reader ∧
    (wfr_examine bits cur qs c t).mem.gp_waiters = c.mem.gp_waiters ∧
    (wfr_examine bits cur qs c t).mem.wait_state = c.mem.wait_state := by
  unfold wfr_examine
  cases urcu_qsbr_reader_state bits c.mem.gp_ctr (c.mem.reader t).ctr <;>
    cases cur <;> simp [cds_list_move_mem, Cfg.log]

theorem wfr_examine_rest (bits : Nat) (cur : Option ListRef) (qs : ListRef) (c : Cfg)
    (t : Tid) :
    (wfr_examine bits cur qs c t).waiters = c.waiters ∧
    (wfr_examine bits cur qs c t).holds_gp = c.holds_gp ∧
    (wfr_examine bits cur qs c t).holds_registry = c.holds_registry ∧
    (wfr_examine bits cur qs c t).clock = c.clock := by
  unfold wfr_examine
  cases urcu_qsbr_reader_state bits c.mem.gp_ctr (c.mem.reader t).ctr <;>
    cases cur <;> simp [cds_list_move_rest, Cfg.log]

/-- The scan as the move of one reader: where `wfr_dest` says, or nowhere. -/
theorem wfr_examine_list (bits : Nat) (cur : Option ListRef) (qs : ListRef) (c : Cfg)
    (t x : Tid) (r : ListRef) :
    x ∈ (wfr_examine bits cur qs c t).list r ↔
      if x = t then
        (match wfr_dest bits cur qs c t with
          | some d => r = d
          | none => x ∈ c.list r)
      else x ∈ c.list r := by
  have hlog : ∀ e, (c.log e).list r = c.list r := by
    intro e; cases r <;> rfl
  unfold wfr_examine wfr_dest
  cases urcu_qsbr_reader_state bits c.mem.gp_ctr (c.mem.reader t).ctr <;>
    cases cur <;> by_cases hx : x = t <;>
    simp [mem_list_move, hlog, hx]

theorem wfr_examine_nodup (bits : Nat) (cur : Option ListRef) (qs : ListRef) (c : Cfg)
    (t : Tid) (r : ListRef) (h : (c.list r).Nodup) :
    ((wfr_examine bits cur qs c t).list r).Nodup := by
  have hlog : ∀ e, (c.log e).list r = c.list r := by
    intro e; cases r <;> rfl
  unfold wfr_examine
  cases urcu_qsbr_reader_state bits c.mem.gp_ctr (c.mem.reader t).ctr <;>
    cases cur <;> simp only [] <;>
    first
      | exact nodup_list_move _ _ _ _ (by rw [hlog]; exact h)
      | (rw [hlog]; exact h)

theorem wfr_dest_congr (bits : Nat) (cur : Option ListRef) (qs : ListRef) (c c' : Cfg)
    (hg : c'.mem.gp_ctr = c.mem.gp_ctr) (hr : c'.mem.reader = c.mem.reader) (t : Tid) :
    wfr_dest bits cur qs c' t = wfr_dest bits cur qs c t := by
  unfold wfr_dest; rw [hg, hr]

theorem foldl_examine_mem (bits : Nat) (cur : Option ListRef) (qs : ListRef) (l : List Tid)
    (c : Cfg) :
    (l.foldl (wfr_examine bits cur qs) c).mem.gp_ctr = c.mem.gp_ctr ∧
    (l.foldl (wfr_examine bits cur qs) c).mem.gp_futex = c.mem.gp_futex ∧
    (l.foldl (wfr_examine bits cur qs) c).mem.reader = c.mem.reader ∧
    (l.foldl (wfr_examine bits cur qs) c).mem.gp_waiters = c.mem.gp_waiters ∧
    (l.foldl (wfr_examine bits cur qs) c).mem.wait_state = c.mem.wait_state := by
  refine foldl_inv (fun b => b.mem.gp_ctr = c.mem.gp_ctr ∧ b.mem.gp_futex = c.mem.gp_futex ∧
    b.mem.reader = c.mem.reader ∧ b.mem.gp_waiters = c.mem.gp_waiters ∧
    b.mem.wait_state = c.mem.wait_state) _ l ?_ c ⟨rfl, rfl, rfl, rfl, rfl⟩
  intro b a _ hb
  obtain ⟨h1, h2, h3, h4, h5⟩ := wfr_examine_mem bits cur qs b a
  exact ⟨h1.trans hb.1, h2.trans hb.2.1, h3.trans hb.2.2.1, h4.trans hb.2.2.2.1,
    h5.trans hb.2.2.2.2⟩

theorem foldl_examine_rest (bits : Nat) (cur : Option ListRef) (qs : ListRef) (l : List Tid)
    (c : Cfg) :
    (l.foldl (wfr_examine bits cur qs) c).waiters = c.waiters ∧
    (l.foldl (wfr_examine bits cur qs) c).holds_gp = c.holds_gp ∧
    (l.foldl (wfr_examine bits cur qs) c).holds_registry = c.holds_registry ∧
    (l.foldl (wfr_examine bits cur qs) c).clock = c.clock := by
  refine foldl_inv (fun b => b.waiters = c.waiters ∧ b.holds_gp = c.holds_gp ∧
    b.holds_registry = c.holds_registry ∧ b.clock = c.clock) _ l ?_ c ⟨rfl, rfl, rfl, rfl⟩
  intro b a _ hb
  obtain ⟨h1, h2, h3, h4⟩ := wfr_examine_rest bits cur qs b a
  exact ⟨h1.trans hb.1, h2.trans hb.2.1, h3.trans hb.2.2.1, h4.trans hb.2.2.2⟩

theorem foldl_examine_trace (bits : Nat) (cur : Option ListRef) (qs : ListRef) (l : List Tid) :
    ∀ c : Cfg, (l.foldl (wfr_examine bits cur qs) c).trace =
      c.trace ++ l.map (fun t =>
        Event.examine t (urcu_qsbr_reader_state bits c.mem.gp_ctr (c.mem.reader t).ctr)) := by
  induction l with
  | nil => intro c; simp
  | cons t l ih =>
    intro c
    simp only [List.foldl_cons, List.map_cons]
    rw [ih, wfr_examine_trace]
    obtain ⟨h1, _, h3, _, _⟩ := wfr_examine_mem bits cur qs c t
    rw [h1, h3]
    simp

theorem foldl_examine_list (bits : Nat) (cur : Option ListRef) (qs : ListRef) (l : List Tid) :
    ∀ (c : Cfg) (x : Tid) (r : ListRef),
      x ∈ (l.foldl (wfr_examine bits cur qs) c).list r ↔
        if x ∈ l then
          (match wfr_dest bits cur qs c x with
            | some d => r = d
            | none => x ∈ c.list r)
        else x ∈ c.list r := by
  induction l with
  | nil => intro c x r; simp
  | cons t l ih =>
    intro c x r
    simp only [List.foldl_cons]
    rw [ih]
    obtain ⟨h1, _, h3, _, _⟩ := wfr_examine_mem bits cur qs c t
    rw [wfr_dest_congr bits cur qs c _ h1 h3, wfr_examine_list]
    by_cases hxt : x = t
    · subst hxt
      by_cases hxl : x ∈ l
      · simp only [hxl, List.mem_cons, true_or, or_true, if_true]
        cases hd : wfr_dest bits cur qs c x <;> simp
      · simp [hxl]
    · by_cases hxl : x ∈ l <;> simp [hxl, hxt]

theorem foldl_examine_nodup (bits : Nat) (cur : Option ListRef) (qs : ListRef) (l : List Tid)
    (c : Cfg) (r : ListRef) (h : (c.list r).Nodup) :
    ((l.foldl (wfr_examine bits cur qs) c).list r).Nodup :=
  foldl_inv (fun b => (b.list r).Nodup) _ l
    (fun b a _ hb => wfr_examine_nodup bits cur qs b a r hb) c h

/-- Membership in every list after a scan: a reader of `input_readers` with a
destination is in that list and in no other; every other node stays where it is. -/
theorem wfr_scan_list (bits : Nat) (i : ListRef) (cur : Option ListRef) (qs : ListRef)
    (c : Cfg) (x : Tid) (r : ListRef) :
    x ∈ (wfr_scan bits i cur qs c).list r ↔
      if x ∈ c.list i then
        (match wfr_dest bits cur qs c x with
          | some d => r = d
          | none => x ∈ c.list r)
      else x ∈ c.list r := by
  have hlog : ∀ r, (c.log .scan).list r = c.list r := by
    intro r; cases r <;> rfl
  unfold wfr_scan
  rw [foldl_examine_list, hlog]
  rfl

theorem wfr_scan_nodup (bits : Nat) (i : ListRef) (cur : Option ListRef) (qs : ListRef)
    (c : Cfg) (r : ListRef) (h : (c.list r).Nodup) :
    ((wfr_scan bits i cur qs c).list r).Nodup := by
  have hlog : (c.log .scan).list r = c.list r := by cases r <;> rfl
  unfold wfr_scan
  exact foldl_examine_nodup bits cur qs _ _ r (by rw [hlog]; exact h)

theorem wfr_scan_mem (bits : Nat) (i : ListRef) (cur : Option ListRef) (qs : ListRef)
    (c : Cfg) :
    (wfr_scan bits i cur qs c).mem.gp_ctr = c.mem.gp_ctr ∧
    (wfr_scan bits i cur qs c).mem.gp_futex = c.mem.gp_futex ∧
    (wfr_scan bits i cur qs c).mem.reader = c.mem.reader ∧
    (wfr_scan bits i cur qs c).mem.gp_waiters = c.mem.gp_waiters ∧
    (wfr_scan bits i cur qs c).mem.wait_state = c.mem.wait_state :=
  foldl_examine_mem bits cur qs _ (c.log .scan)

theorem wfr_scan_rest (bits : Nat) (i : ListRef) (cur : Option ListRef) (qs : ListRef)
    (c : Cfg) :
    (wfr_scan bits i cur qs c).waiters = c.waiters ∧
    (wfr_scan bits i cur qs c).holds_gp = c.holds_gp ∧
    (wfr_scan bits i cur qs c).holds_registry = c.holds_registry ∧
    (wfr_scan bits i cur qs c).clock = c.clock :=
  foldl_examine_rest bits cur qs _ (c.log .scan)

theorem wfr_scan_trace (bits : Nat) (i : ListRef) (cur : Option ListRef) (qs : ListRef)
    (c : Cfg) :
    (wfr_scan bits i cur qs c).trace =
      c.trace ++ Event.scan :: (c.list i).map (fun t =>
        Event.examine t (urcu_qsbr_reader_state bits c.mem.gp_ctr (c.mem.reader t).ctr)) := by
  unfold wfr_scan
  rw [foldl_examine_trace]
  simp [Cfg.log]

/-! ## One turn of the loop of `wait_for_readers` -/

theorem foldl_store_waiting (l : List Tid) : ∀ c : Cfg,
    l.foldl store_waiting c =
      { c with
        mem := { c.mem with
          reader := fun t =>
            if t ∈ l then { c.mem.reader t with waiting := 1 } else c.mem.reader t }
        trace := c.trace ++ l.map Event.waiting_store } := by
  induction l with
  | nil => intro c; simp
  | cons a l ih =>
    intro c
    simp only [List.foldl_cons]
    rw [ih]
    simp only [store_waiting, Cfg.setReader, Cfg.log, List.map_cons, List.append_assoc,
      List.singleton_append, List.mem_cons]
    congr 2
    funext t
    by_cases hta : t = a <;> by_cases htl : t ∈ l <;> simp [hta, htl]

theorem wfr_arm_fst (i : ListRef) (w : Nat) (c : Cfg) :
    (wfr_arm i w c).1 = if w < RCU_QS_ACTIVE_ATTEMPTS then w + 1 else w := by
  unfold wfr_arm
  dsimp only
  split <;> split <;> rfl

/-- Below the threshold the counting step does nothing else. -/
theorem wfr_arm_spin (i : ListRef) (w : Nat) (c : Cfg)
    (h : (wfr_arm i w c).1 < RCU_QS_ACTIVE_ATTEMPTS) : (wfr_arm i w c).2 = c := by
  rw [wfr_arm_fst] at h
  unfold wfr_arm
  simp only []
  rw [if_neg (by omega)]

/-- At the threshold the futex is armed and every reader of `input_readers` is
flagged. -/
theorem wfr_arm_saturated (i : ListRef) (w : Nat) (c : Cfg)
    (h : RCU_QS_ACTIVE_ATTEMPTS ≤ (wfr_arm i w c).1) :
    (wfr_arm i w c).2 =
      { c with
        mem := { c.mem with
          gp_futex := -1
          reader := fun t =>
            if t ∈ c.list i then { c.mem.reader t with waiting := 1 } else c.mem.reader t }
        trace := c.trace ++ Event.futex_store (-1) :: (c.list i).map Event.waiting_store } := by
  rw [wfr_arm_fst] at h
  have hl : (uatomic_set_futex (-1) c).list i = c.list i := by cases i <;> rfl
  unfold wfr_arm
  simp only []
  rw [if_pos (by simpa using h), foldl_store_waiting, hl]
  simp [uatomic_set_futex, Cfg.log]

theorem wfr_arm_frame (i : ListRef) (w : Nat) (c : Cfg) :
    (∀ r, (wfr_arm i w c).2.list r = c.list r) ∧
    (wfr_arm i w c).2.mem.gp_ctr = c.mem.gp_ctr ∧
    (∀ t, ((wfr_arm i w c).2.mem.reader t).ctr = (c.mem.reader t).ctr) ∧
    (∀ t, ((wfr_arm i w c).2.mem.reader t).registered = (c.mem.reader t).registered) ∧
    (wfr_arm i w c).2.mem.gp_waiters = c.mem.gp_waiters ∧
    (wfr_arm i w c).2.mem.wait_state = c.mem.wait_state ∧
    (wfr_arm i w c).2.waiters = c.waiters ∧
    (wfr_arm i w c).2.holds_gp = c.holds_gp ∧
    (wfr_arm i w c).2.holds_registry = c.holds_registry ∧
    (wfr_arm i w c).2.clock = c.clock := by
  by_cases h : (wfr_arm i w c).1 < RCU_QS_ACTIVE_ATTEMPTS
  · rw [wfr_arm_spin i w c h]; simp
  · rw [wfr_arm_saturated i w c (by omega)]
    refine ⟨fun r => by cases r <;> rfl, rfl, fun t => ?_, fun t => ?_, rfl, rfl, rfl, rfl,
      rfl, rfl⟩ <;> (simp only []; split <;> rfl)

/-- The function `mutex_unlock` always returns: the mutex is released and the
unlock is logged, whether or not the caller held the mutex. -/
theorem mutex_unlock_eq (l : Mutex) (c : Cfg) :
    mutex_unlock l c = .ok ((c.setHolds l false).log (.unlock l)) := by
  simp [mutex_unlock, pthread_mutex_unlock]

theorem mutex_unlock_held {l : Mutex} {c : Cfg} (_ : c.holds l = true) :
    mutex_unlock l c = .ok ((c.setHolds l false).log (.unlock l)) :=
  mutex_unlock_eq l c

theorem mutex_lock_free {env : Env} {l : Mutex} {c : Cfg} (h : c.holds l = false) :
    mutex_lock env l c = .ok (((yield env c).setHolds l true).log (.lock l)) := by
  simp [mutex_lock, pthread_mutex_lock, h]

theorem mutex_lock_held {env : Env} {l : Mutex} {c : Cfg} (h : c.holds l = true) :
    mutex_lock env l c = .error (.deadlock c) := by
  simp [mutex_lock, pthread_mutex_lock, h]

theorem wait_gp_holds (env : Env) (c : Cfg) (l : Mutex) :
    (wait_gp env c).holds l = c.holds l := by
  unfold wait_gp
  dsimp only
  split <;> cases l <;> rfl

/-- The two ways a turn of the loop can end: the scan emptied `input_readers` and
the loop is left, or the turn ends with `wfr_pause` and the loop goes round. -/
theorem wfr_body_eq (bits : Nat) (env : Env) (i : ListRef) (cur : Option ListRef)
    (qs : ListRef) (w : Nat) (c : Cfg) :
    wfr_body bits env i cur qs w c =
      if (wfr_scan bits i cur qs (wfr_arm i w c).2).list i = [] then
        .ok (.brk (if (wfr_arm i w c).1 ≥ RCU_QS_ACTIVE_ATTEMPTS
          then uatomic_set_futex 0 (wfr_scan bits i cur qs (wfr_arm i w c).2)
          else wfr_scan bits i cur qs (wfr_arm i w c).2))
      else
        .ok (.cont (wfr_arm i w c).1
          (wfr_pause env (wfr_arm i w c).1 (wfr_scan bits i cur qs (wfr_arm i w c).2))) := by
  unfold wfr_body
  simp only [cds_list_empty, List.isEmpty_iff]
  by_cases he : (wfr_scan bits i cur qs (wfr_arm i w c).2).list i = []
  · simp only [he, if_true]
  · simp only [he, if_false]
    rw [mutex_unlock_eq]
    dsimp only
    rw [mutex_lock_free]
    · rfl
    · split
      · rw [wait_gp_holds]; rfl
      · rfl

/-- A turn that ends the loop: the scan emptied `input_readers`. -/
theorem wfr_body_brk {bits : Nat} {env : Env} {i : ListRef} {cur : Option ListRef}
    {qs : ListRef} {w : Nat} {c c' : Cfg}
    (h : wfr_body bits env i cur qs w c = .ok (.brk c')) :
    (wfr_scan bits i cur qs (wfr_arm i w c).2).list i = [] ∧
    c' = (if (wfr_arm i w c).1 ≥ RCU_QS_ACTIVE_ATTEMPTS
      then uatomic_set_futex 0 (wfr_scan bits i cur qs (wfr_arm i w c).2)
      else wfr_scan bits i cur qs (wfr_arm i w c).2) := by
  rw [wfr_body_eq] at h
  split at h
  · rename_i he
    refine ⟨he, ?_⟩
    injection h with h
    injection h with h
    exact h.symm
  · cases h

/-- A turn that goes round again: the scan left a reader in `input_readers`, and
the turn ends with `wfr_pause`. -/
theorem wfr_body_cont {bits : Nat} {env : Env} {i : ListRef} {cur : Option ListRef}
    {qs : ListRef} {w w' : Nat} {c c' : Cfg}
    (h : wfr_body bits env i cur qs w c = .ok (.cont w' c')) :
    (wfr_scan bits i cur qs (wfr_arm i w c).2).list i ≠ [] ∧
    w' = (wfr_arm i w c).1 ∧
    c' = wfr_pause env (wfr_arm i w c).1 (wfr_scan bits i cur qs (wfr_arm i w c).2) := by
  rw [wfr_body_eq] at h
  split at h
  · cases h
  · rename_i he
    injection h with h
    injection h with h1 h2
    exact ⟨he, h1.symm, h2.symm⟩

theorem envSteps_registry {env : Env} (he : EnvKeepsRegistry env) {m m' : Mem}
    (h : EnvSteps env m m') : m'.registry = m.registry := by
  induction h with
  | refl => rfl
  | step k _ ih => rw [he, ih]

theorem envSteps_gp_ctr {env : Env} (he : EnvKeepsGpCtr env) {m m' : Mem}
    (h : EnvSteps env m m') : m'.gp_ctr = m.gp_ctr := by
  induction h with
  | refl => rfl
  | step k _ ih => rw [he, ih]

theorem envSteps_gp_futex {env : Env} (he : EnvKeepsFutex env) {m m' : Mem}
    (h : EnvSteps env m m') : m'.gp_futex = m.gp_futex := by
  induction h with
  | refl => rfl
  | step k _ ih => rw [he, ih]

theorem envSteps_registered {env : Env} (he : EnvKeepsRegistered env) {m m' : Mem}
    (h : EnvSteps env m m') (t : Tid) : (m'.reader t).registered = (m.reader t).registered := by
  induction h with
  | refl => rfl
  | step k _ ih => rw [he, ih]

theorem envSteps_own_ctr {env : Env} {self : Tid} (he : EnvKeepsOwnCtr self env) {m m' : Mem}
    (h : EnvSteps env m m') : (m'.reader self).ctr = (m.reader self).ctr := by
  induction h with
  | refl => rfl
  | step k _ ih => rw [he, ih]

theorem envSteps_trans {env : Env} {m₁ m₂ m₃ : Mem} (h₁ : EnvSteps env m₁ m₂)
    (h₂ : EnvSteps env m₂ m₃) : EnvSteps env m₁ m₃ := by
  induction h₂ with
  | refl => exact h₁
  | step k _ ih => exact EnvSteps.step k (ih h₁)

theorem envSteps_yield (env : Env) (c : Cfg) : EnvSteps env c.mem (yield env c).mem :=
  EnvSteps.step c.clock (EnvSteps.refl c.mem)

theorem wait_gp_mem (env : Env) (c : Cfg) : EnvSteps env c.mem (wait_gp env c).mem := by
  unfold wait_gp
  dsimp only
  split
  · exact EnvSteps.refl _
  · exact EnvSteps.step _ (EnvSteps.refl _)

theorem wait_gp_rest (env : Env) (c : Cfg) :
    (wait_gp env c).cur_snap_readers = c.cur_snap_readers ∧
    (wait_gp env c).qsreaders = c.qsreaders ∧
    (wait_gp env c).waiters = c.waiters ∧
    (wait_gp env c).holds_gp = c.holds_gp ∧
    (wait_gp env c).holds_registry = c.holds_registry ∧
    (wait_gp env c).trace = c.trace ++ [.wait_gp] := by
  unfold wait_gp
  dsimp only
  split <;> simp [Cfg.log, Urcu.yield]

/-- What the pause between two scans leaves alone, and what it logs. -/
theorem wfr_pause_rest (env : Env) (w : Nat) (c : Cfg) :
    (wfr_pause env w c).cur_snap_readers = c.cur_snap_readers ∧
    (wfr_pause env w c).qsreaders = c.qsreaders ∧
    (wfr_pause env w c).waiters = c.waiters ∧
    (wfr_pause env w c).holds_gp = c.holds_gp ∧
    (wfr_pause env w c).holds_registry = true ∧
    (wfr_pause env w c).trace = c.trace ++ [.unlock .rcu_registry_lock,
      if w ≥ RCU_QS_ACTIVE_ATTEMPTS then .wait_gp else .cpu_relax, .lock .rcu_registry_lock] := by
  unfold wfr_pause
  dsimp only
  by_cases hw : w ≥ RCU_QS_ACTIVE_ATTEMPTS
  · simp only [hw, if_true]
    obtain ⟨h1, h2, h3, h4, _, h6⟩ := wait_gp_rest env
      ((c.setHolds .rcu_registry_lock false).log (.unlock .rcu_registry_lock))
    refine ⟨h1, h2, h3, h4, rfl, ?_⟩
    show (wait_gp env _).trace ++ [Event.lock Mutex.rcu_registry_lock] = _
    rw [h6]
    simp [Cfg.log, Cfg.setHolds]
  · simp [hw, Cfg.log, Urcu.yield, Cfg.setHolds, caa_cpu_relax]

theorem wfr_pause_mem (env : Env) (w : Nat) (c : Cfg) :
    EnvSteps env c.mem (wfr_pause env w c).mem := by
  unfold wfr_pause
  dsimp only
  by_cases hw : w ≥ RCU_QS_ACTIVE_ATTEMPTS
  · simp only [hw, if_true]
    exact EnvSteps.step _ (wait_gp_mem env
      ((c.setHolds .rcu_registry_lock false).log (.unlock .rcu_registry_lock)))
  · simp only [hw, if_false]
    exact EnvSteps.step _ (EnvSteps.refl _)

theorem wfr_pause_list {env : Env} (he : EnvKeepsRegistry env) (w : Nat) (c : Cfg)
    (r : ListRef) : (wfr_pause env w c).list r = c.list r := by
  obtain ⟨h1, h2, _⟩ := wfr_pause_rest env w c
  cases r
  · exact envSteps_registry he (wfr_pause_mem env w c)
  · exact h1
  · exact h2

/-! ## Lists across the whole of `wait_for_readers` -/

theorem moved_refl (i : ListRef) (cur : Option ListRef) (qs : ListRef) (c : Cfg) :
    Moved i cur qs c c :=
  ⟨fun _ _ h => Or.inl h, fun _ _ h => Or.inl h⟩

theorem moved_trans {i : ListRef} {cur : Option ListRef} {qs : ListRef} {c₁ c₂ c₃ : Cfg}
    (hq : qs ≠ i) (hc : cur ≠ some i)
    (h₁ : Moved i cur qs c₁ c₂) (h₂ : Moved i cur qs c₂ c₃) : Moved i cur qs c₁ c₃ := by
  refine ⟨fun x ρ hx => ?_, fun x ρ hx => ?_⟩
  · rcases h₂.1 x ρ hx with h | ⟨h, hρ⟩
    · exact h₁.1 x ρ h
    · rcases h₁.1 x i h with h' | ⟨h', _⟩
      · exact Or.inr ⟨h', hρ⟩
      · exact Or.inr ⟨h', hρ⟩
  · rcases h₁.2 x ρ hx with h | ⟨hρ, h | ⟨l, hl, h⟩⟩
    · exact h₂.2 x ρ h
    · rcases h₂.2 x qs h with h' | ⟨h', _⟩
      · exact Or.inr ⟨hρ, Or.inl h'⟩
      · exact absurd h' hq
    · rcases h₂.2 x l h with h' | ⟨h', _⟩
      · exact Or.inr ⟨hρ, Or.inr ⟨l, hl, h'⟩⟩
      · exact absurd (h' ▸ hl) hc

theorem moved_congr {i : ListRef} {cur : Option ListRef} {qs : ListRef} {c₁ c₂ d₁ d₂ : Cfg}
    (h₁ : ∀ r, d₁.list r = c₁.list r) (h₂ : ∀ r, d₂.list r = c₂.list r)
    (h : Moved i cur qs c₁ c₂) : Moved i cur qs d₁ d₂ := by
  unfold Moved at h ⊢
  simp only [h₁, h₂]
  exact h

theorem listsWF_congr {c d : Cfg} (h : ∀ r, d.list r = c.list r) (hc : ListsWF c) :
    ListsWF d := by
  unfold ListsWF at hc ⊢
  simp only [h]
  exact hc

theorem wfr_dest_cases (bits : Nat) (cur : Option ListRef) (qs : ListRef) (c : Cfg) (t : Tid)
    (d : ListRef) (h : wfr_dest bits cur qs c t = some d) : d = qs ∨ cur = some d := by
  unfold wfr_dest at h
  split at h
  · cases cur with
    | none => left; simpa using h.symm
    | some l => right; simp at h; rw [h]
  · left; simpa using h.symm
  · cases h

theorem wfr_scan_wf (bits : Nat) (i : ListRef) (cur : Option ListRef) (qs : ListRef)
    (c : Cfg) (h : ListsWF c) : ListsWF (wfr_scan bits i cur qs c) := by
  refine ⟨fun r => wfr_scan_nodup bits i cur qs c r (h.1 r), fun x r₁ r₂ h₁ h₂ => ?_⟩
  rw [wfr_scan_list] at h₁ h₂
  by_cases hx : x ∈ c.list i
  · simp only [hx, if_true] at h₁ h₂
    cases hd : wfr_dest bits cur qs c x with
    | none => rw [hd] at h₁ h₂; exact h.2 x r₁ r₂ h₁ h₂
    | some d => rw [hd] at h₁ h₂; exact h₁.trans h₂.symm
  · simp only [hx, if_false] at h₁ h₂
    exact h.2 x r₁ r₂ h₁ h₂

theorem wfr_scan_moved (bits : Nat) (i : ListRef) (cur : Option ListRef) (qs : ListRef)
    (c : Cfg) (h : ListsWF c) : Moved i cur qs c (wfr_scan bits i cur qs c) := by
  refine ⟨fun x ρ hx => ?_, fun x ρ hx => ?_⟩
  · rw [wfr_scan_list] at hx
    by_cases hxi : x ∈ c.list i
    · simp only [hxi, if_true] at hx
      cases hd : wfr_dest bits cur qs c x with
      | none => rw [hd] at hx; exact Or.inl hx
      | some d =>
        rw [hd] at hx
        subst hx
        exact Or.inr ⟨hxi, wfr_dest_cases bits cur qs c x ρ hd⟩
    · simp only [hxi, if_false] at hx
      exact Or.inl hx
  · by_cases hxi : x ∈ c.list i
    · have hρ : ρ = i := h.2 x ρ i hx hxi
      cases hd : wfr_dest bits cur qs c x with
      | none =>
        left
        rw [wfr_scan_list]
        simp only [hxi, if_true, hd]
        exact hx
      | some d =>
        right
        refine ⟨hρ, ?_⟩
        have hmem : x ∈ (wfr_scan bits i cur qs c).list d := by
          rw [wfr_scan_list]
          simp only [hxi, if_true, hd]
        rcases wfr_dest_cases bits cur qs c x d hd with hq | hc
        · left; subst hq; exact hmem
        · right; exact ⟨d, hc, hmem⟩
    · left
      rw [wfr_scan_list]
      simp only [hxi, if_false]
      exact hx

theorem uatomic_set_futex_list (v : Int) (c : Cfg) (r : ListRef) :
    (uatomic_set_futex v c).list r = c.list r := by
  cases r <;> rfl

/-- Induction over the turns of the loop: what every turn preserves holds at the
top of the last turn. -/
theorem wfr_loop_last {bits : Nat} {env : Env} {i : ListRef} {cur : Option ListRef}
    {qs : ListRef} (P : Nat → Cfg → Prop)
    (hcont : ∀ w c w' c', P w c → wfr_body bits env i cur qs w c = .ok (.cont w' c') → P w' c') :
    ∀ (fuel w : Nat) (c r : Cfg), P w c → wfr_loop bits env i cur qs fuel w c = .ok r →
      ∃ w₀ c₀, P w₀ c₀ ∧ wfr_body bits env i cur qs w₀ c₀ = .ok (.brk r) := by
  intro fuel
  induction fuel with
  | zero => intro w c r _ h; simp [wfr_loop] at h
  | succ n ih =>
    intro w c r hP h
    unfold wfr_loop at h
    split at h
    · cases h
    · rename_i c' hb
      injection h with h
      subst h
      exact ⟨w, c, hP, hb⟩
    · rename_i w' c' hb
      exact ih w' c' r (hcont w c w' c' hP hb) h

/-- One turn of the loop, seen from the lists. -/
theorem wfr_turn_lists (bits : Nat) {env : Env} (i : ListRef) (cur : Option ListRef)
    (qs : ListRef) (he : EnvKeepsRegistry env) (w : Nat) (c : Cfg) (h : ListsWF c) :
    ListsWF (wfr_scan bits i cur qs (wfr_arm i w c).2) ∧
    Moved i cur qs c (wfr_scan bits i cur qs (wfr_arm i w c).2) ∧
    (∀ r, (wfr_pause env (wfr_arm i w c).1 (wfr_scan bits i cur qs (wfr_arm i w c).2)).list r =
      (wfr_scan bits i cur qs (wfr_arm i w c).2).list r) := by
  have ha : ∀ r, (wfr_arm i w c).2.list r = c.list r := (wfr_arm_frame i w c).1
  have hwf : ListsWF (wfr_arm i w c).2 := listsWF_congr ha h
  refine ⟨wfr_scan_wf bits i cur qs _ hwf, ?_, fun r => wfr_pause_list he _ _ r⟩
  exact moved_congr (fun r => (ha r).symm) (fun _ => rfl) (wfr_scan_moved bits i cur qs _ hwf)

/-- The lists when `wait_for_readers` returns: `input_readers` is empty, the lists
are well formed, and every node is where it was or has moved from `input_readers`
to `qsreaders` or `cur_snap_readers`. -/
theorem wait_for_readers_lists {bits : Nat} {env : Env} {fuel : Nat} {i : ListRef}
    {cur : Option ListRef} {qs : ListRef} {c r : Cfg}
    (hq : qs ≠ i) (hc : cur ≠ some i) (he : EnvKeepsRegistry env) (hwf : ListsWF c)
    (h : wait_for_readers bits env fuel i cur qs c = .ok r) :
    r.list i = [] ∧ ListsWF r ∧ Moved i cur qs c r := by
  obtain ⟨w₀, c₀, ⟨hwf₀, hm₀⟩, hb⟩ := wfr_loop_last
    (fun _ c' => ListsWF c' ∧ Moved i cur qs c c')
    (fun w c₁ w' c' hP hb => by
      obtain ⟨_, _, hc'⟩ := wfr_body_cont hb
      obtain ⟨h1, h2, h3⟩ := wfr_turn_lists bits i cur qs he w c₁ hP.1
      subst hc'
      exact ⟨listsWF_congr h3 h1, moved_trans hq hc hP.2 (moved_congr (fun _ => rfl) h3 h2)⟩)
    fuel 0 c r ⟨hwf, moved_refl i cur qs c⟩ h
  obtain ⟨hempty, hr⟩ := wfr_body_brk hb
  obtain ⟨h1, h2, _⟩ := wfr_turn_lists bits i cur qs he w₀ c₀ hwf₀
  have hl : ∀ ρ, r.list ρ = (wfr_scan bits i cur qs (wfr_arm i w₀ c₀).2).list ρ := by
    intro ρ
    rw [hr]
    split
    · exact uatomic_set_futex_list _ _ _
    · rfl
  exact ⟨(hl i).trans hempty, listsWF_congr hl h1,
    moved_trans hq hc hm₀ (moved_congr (fun _ => rfl) hl h2)⟩

/-- Whatever the counting step, the scan, the pause and the final futex store
each preserve holds when `wait_for_readers` returns. -/
theorem wait_for_readers_inv {bits : Nat} {env : Env} {fuel : Nat} {i : ListRef}
    {cur : Option ListRef} {qs : ListRef} {c r : Cfg} (Q : Cfg → Prop)
    (harm : ∀ w c, Q c → Q (wfr_arm i w c).2)
    (hscan : ∀ c, Q c → Q (wfr_scan bits i cur qs c))
    (hpause : ∀ w c, Q c → Q (wfr_pause env w c))
    (hfutex : ∀ c, Q c → Q (uatomic_set_futex 0 c))
    (h₀ : Q c) (h : wait_for_readers bits env fuel i cur qs c = .ok r) : Q r := by
  obtain ⟨w₀, c₀, hQ, hb⟩ := wfr_loop_last (fun _ c' => Q c')
    (fun w c₁ w' c' hP hb => by
      obtain ⟨_, _, hc'⟩ := wfr_body_cont hb
      subst hc'
      exact hpause _ _ (hscan _ (harm _ _ hP)))
    fuel 0 c r h₀ h
  obtain ⟨_, hr⟩ := wfr_body_brk hb
  rw [hr]
  split
  · exact hfutex _ (hscan _ (harm _ _ hQ))
  · exact hscan _ (harm _ _ hQ)

theorem urcu_qsbr_reader_state_inactive (bits g v : Nat) :
    urcu_qsbr_reader_state bits g v = .URCU_READER_INACTIVE ↔ v = 0 := by
  unfold urcu_qsbr_reader_state
  by_cases hv : v = 0
  · simp [hv]
  · simp only [hv, if_false, iff_false]
    split <;> split <;> simp

theorem wfr_dest_ne_input (bits : Nat) (i : ListRef) (cur : Option ListRef) (qs : ListRef)
    (hq : qs ≠ i) (hc : cur ≠ some i) (c : Cfg) (t : Tid) :
    wfr_dest bits cur qs c t ≠ some i := by
  intro h
  rcases wfr_dest_cases bits cur qs c t i h with h' | h'
  · exact hq h'.symm
  · exact hc h'

/-- A scan that meets no ACTIVE_OLD reader empties `input_readers`. -/
theorem wfr_scan_empties (bits : Nat) (i : ListRef) (cur : Option ListRef) (qs : ListRef)
    (hq : qs ≠ i) (hc : cur ≠ some i) (c : Cfg)
    (h : ∀ t ∈ c.list i,
      urcu_qsbr_reader_state bits c.mem.gp_ctr (c.mem.reader t).ctr ≠ .URCU_READER_ACTIVE_OLD) :
    (wfr_scan bits i cur qs c).list i = [] := by
  apply List.eq_nil_iff_forall_not_mem.2
  intro x hx
  rw [wfr_scan_list] at hx
  by_cases hxi : x ∈ c.list i
  · simp only [hxi, if_true] at hx
    cases hd : wfr_dest bits cur qs c x with
    | none =>
      have := h x hxi
      unfold wfr_dest at hd
      split at hd <;> simp_all
    | some d =>
      rw [hd] at hx
      exact wfr_dest_ne_input bits i cur qs hq hc c x (hx ▸ hd)
  · simp only [hxi, if_false] at hx

theorem wfr_arm_state (bits : Nat) (i : ListRef) (w : Nat) (c : Cfg) (t : Tid) :
    urcu_qsbr_reader_state bits (wfr_arm i w c).2.mem.gp_ctr
      ((wfr_arm i w c).2.mem.reader t).ctr =
    urcu_qsbr_reader_state bits c.mem.gp_ctr (c.mem.reader t).ctr := by
  obtain ⟨_, h2, h3, _⟩ := wfr_arm_frame i w c
  rw [h2, h3]

/-- When no reader of `input_readers` is ACTIVE_OLD, `wait_for_readers` returns in
its first turn. -/
theorem wait_for_readers_first_turn (bits : Nat) (env : Env) (fuel : Nat) (i : ListRef)
    (cur : Option ListRef) (qs : ListRef) (hq : qs ≠ i) (hc : cur ≠ some i) (c : Cfg)
    (h : ∀ t ∈ c.list i,
      urcu_qsbr_reader_state bits c.mem.gp_ctr (c.mem.reader t).ctr ≠ .URCU_READER_ACTIVE_OLD) :
    ∃ r, wait_for_readers bits env (fuel + 1) i cur qs c = .ok r := by
  have hempty : (wfr_scan bits i cur qs (wfr_arm i 0 c).2).list i = [] := by
    apply wfr_scan_empties bits i cur qs hq hc
    intro t ht
    rw [(wfr_arm_frame i 0 c).1] at ht
    rw [wfr_arm_state]
    exact h t ht
  unfold wait_for_readers wfr_loop
  rw [wfr_body_eq, if_pos hempty]
  exact ⟨_, rfl⟩

/-! ## The stages of `urcu_qsbr_synchronize_rcu` -/

/-- The two paths of `urcu_qsbr_synchronize_rcu`: the caller leads when the waiter
queue was empty, and waits for the leader otherwise. -/
theorem urcu_qsbr_synchronize_rcu_eq (bits : Nat) (env : Env) (fuel : Nat) (self : Tid)
    (c : Cfg) :
    urcu_qsbr_synchronize_rcu bits env fuel self c =
      if c.mem.gp_waiters = [] then
        (synchronize_rcu_leader bits env fuel self (sync_queued self c)).map
          (gp_end (decide ((c.mem.reader self).ctr ≠ 0)) self)
      else
        (urcu_adaptative_busy_wait env self fuel (sync_queued self c)).map
          (gp_end (decide ((c.mem.reader self).ctr ≠ 0)) self) := by
  have hw : ∀ c' : Cfg, (urcu_wait_add self c').1 = if c'.mem.gp_waiters = [] then 0 else 1 := by
    intro c'; simp [urcu_wait_add, List.isEmpty_iff]
  have hq : ∀ b : Bool, (if b = true then urcu_qsbr_thread_offline self
        (urcu_wait_set_state self .URCU_WAIT_WAITING
          { c with cur_snap_readers := [], qsreaders := [], waiters := [] })
      else urcu_wait_set_state self .URCU_WAIT_WAITING
          { c with cur_snap_readers := [], qsreaders := [], waiters := [] }).mem.gp_waiters =
      c.mem.gp_waiters := by
    intro b
    cases b
    · rfl
    · simp only [if_true, urcu_qsbr_thread_offline, urcu_qsbr_wake_up_gp]
      split <;> rfl
  unfold urcu_qsbr_synchronize_rcu
  simp only [hw, hq]
  by_cases hg : c.mem.gp_waiters = []
  · simp only [hg, if_true]
    rw [if_neg (by simp)]
    cases hl : synchronize_rcu_leader bits env fuel self (sync_queued self c) with
    | error e => simp only [sync_queued] at hl; rw [hl]; rfl
    | ok c' => simp only [sync_queued] at hl; rw [hl]; rfl
  · simp only [hg, if_false]
    rw [if_pos (by simp)]
    cases hl : urcu_adaptative_busy_wait env self fuel (sync_queued self c) with
    | error e => simp only [sync_queued] at hl; rw [hl]; rfl
    | ok c' => simp only [sync_queued] at hl; rw [hl]; rfl

theorem leader_locked_holds (env : Env) (self : Tid) (c : Cfg) :
    (leader_locked env self c).holds_gp = true ∧
    (leader_locked env self c).holds_registry = true := by
  simp [leader_locked, Cfg.log, Cfg.setHolds, Urcu.yield, urcu_move_waiters]

/-- The leader's part, entered holding neither mutex, as lock / grace period /
release. -/
theorem synchronize_rcu_leader_eq (bits : Nat) (env : Env) (fuel : Nat) (self : Tid)
    (c : Cfg) (hg : c.holds_gp = false) (hr : c.holds_registry = false) :
    synchronize_rcu_leader bits env fuel self c =
      match (if cds_list_empty .registry (leader_locked env self c)
          then .ok (leader_locked env self c)
          else grace_period bits env fuel (leader_locked env self c)) with
      | .error e => .error e
      | .ok c₂ =>
        match mutex_unlock .rcu_registry_lock c₂ with
        | .error e => .error e
        | .ok c₃ =>
          match mutex_unlock .rcu_gp_lock c₃ with
          | .error e => .error e
          | .ok c₄ => .ok (urcu_wake_all_waiters c₄) := by
  have h₁ : (urcu_wait_set_state self .URCU_WAIT_RUNNING c).holds .rcu_gp_lock = false := by
    simpa [Cfg.holds, urcu_wait_set_state] using hg
  have h₂ : (urcu_move_waiters (((yield env (urcu_wait_set_state self .URCU_WAIT_RUNNING
      c)).setHolds .rcu_gp_lock true).log (.lock .rcu_gp_lock))).holds .rcu_registry_lock =
      false := by
    simpa [Cfg.holds, urcu_wait_set_state, urcu_move_waiters, Cfg.log, Cfg.setHolds,
      Urcu.yield] using hr
  unfold synchronize_rcu_leader
  dsimp only
  rw [mutex_lock_free h₁]
  dsimp only
  rw [mutex_lock_free h₂]
  rfl

/-- Whatever every step of the grace period preserves holds when it returns. -/
theorem grace_period_inv {bits : Nat} {env : Env} {fuel : Nat} {c r : Cfg} {Q : Cfg → Prop}
    (hQ : GpStable bits env Q) (h₀ : Q c) (h : grace_period bits env fuel c = .ok r) : Q r := by
  have hw : ∀ i cur qs c r, Q c → wait_for_readers bits env fuel i cur qs c = .ok r → Q r :=
    fun i cur qs c r hc hr =>
      wait_for_readers_inv Q (hQ.arm i) (hQ.scan i cur qs) hQ.pause hQ.futex hc hr
  unfold grace_period at h
  by_cases hb : bits < 64
  · simp only [hb, if_true] at h
    split at h
    · cases h
    · rename_i c₁ h₁
      split at h
      · cases h
      · rename_i c₂ h₂
        injection h with h
        subst h
        have := hQ.store c₁ (hw _ _ _ _ _ h₀ h₁)
        simp only [gp_ctr_next, hb, if_true] at this
        exact hQ.splice _ (hw _ _ _ _ _ this h₂)
  · simp only [hb, if_false] at h
    split at h
    · cases h
    · rename_i c₁ h₁
      injection h with h
      subst h
      have := hQ.store c h₀
      simp only [gp_ctr_next, hb, if_false] at this
      exact hQ.splice _ (hw _ _ _ _ _ this h₁)

theorem grace_period_holds {bits : Nat} {env : Env} {fuel : Nat} {c r : Cfg}
    (h : grace_period bits env fuel c = .ok r) (hr : c.holds_registry = true) :
    r.holds_registry = true ∧ r.holds_gp = c.holds_gp := by
  refine grace_period_inv (Q := fun c' => c'.holds_registry = true ∧ c'.holds_gp = c.holds_gp)
    ⟨fun _ h => h, fun i w c' h => ?_, fun i cur qs c' h => ?_, fun w c' h => ?_, fun _ h => h,
      fun _ h => h⟩ ⟨hr, rfl⟩ h
  · obtain ⟨_, _, _, _, _, _, _, h8, h9, _⟩ := wfr_arm_frame i w c'
    exact ⟨h9.trans h.1, h8.trans h.2⟩
  · obtain ⟨_, h2, h3, _⟩ := wfr_scan_rest bits i cur qs c'
    exact ⟨h3.trans h.1, h2.trans h.2⟩
  · obtain ⟨_, _, _, h4, h5, _⟩ := wfr_pause_rest env w c'
    exact ⟨h5, h4.trans h.2⟩

/-- When the leader's part returns, it was entered holding neither mutex, the
grace-period stage returned, and the result is its release. -/
theorem synchronize_rcu_leader_ok {bits : Nat} {env : Env} {fuel : Nat} {self : Tid}
    {c r : Cfg} (h : synchronize_rcu_leader bits env fuel self c = .ok r) :
    c.holds_gp = false ∧ c.holds_registry = false ∧
    ∃ c₂, (if cds_list_empty .registry (leader_locked env self c)
        then .ok (leader_locked env self c)
        else grace_period bits env fuel (leader_locked env self c)) = .ok c₂ ∧
      c₂.holds_registry = true ∧ c₂.holds_gp = true ∧ r = leader_release c₂ := by
  have hg : c.holds_gp = false := by
    by_contra hg
    have hg' : (urcu_wait_set_state self .URCU_WAIT_RUNNING c).holds .rcu_gp_lock = true := by
      simpa [Cfg.holds, urcu_wait_set_state] using hg
    unfold synchronize_rcu_leader at h
    dsimp only at h
    rw [mutex_lock_held hg'] at h
    cases h
  have hr : c.holds_registry = false := by
    by_contra hr
    have h₁ : (urcu_wait_set_state self .URCU_WAIT_RUNNING c).holds .rcu_gp_lock = false := by
      simpa [Cfg.holds, urcu_wait_set_state] using hg
    have h₂ : (urcu_move_waiters (((yield env (urcu_wait_set_state self .URCU_WAIT_RUNNING
        c)).setHolds .rcu_gp_lock true).log (.lock .rcu_gp_lock))).holds .rcu_registry_lock =
        true := by
      simpa [Cfg.holds, urcu_wait_set_state, urcu_move_waiters, Cfg.log, Cfg.setHolds,
        Urcu.yield] using hr
    unfold synchronize_rcu_leader at h
    dsimp only at h
    rw [mutex_lock_free h₁] at h
    dsimp only at h
    rw [mutex_lock_held h₂] at h
    cases h
  refine ⟨hg, hr, ?_⟩
  rw [synchronize_rcu_leader_eq bits env fuel self c hg hr] at h
  obtain ⟨hlg, hlr⟩ := leader_locked_holds env self c
  split at h
  · cases h
  · rename_i c₂ h₂
    have hc₂ : c₂.holds_registry = true ∧ c₂.holds_gp = true := by
      split at h₂
      · injection h₂ with h₂; subst h₂; exact ⟨hlr, hlg⟩
      · obtain ⟨h1, h2⟩ := grace_period_holds h₂ hlr
        exact ⟨h1, h2.trans hlg⟩
    refine ⟨c₂, h₂, hc₂.1, hc₂.2, ?_⟩
    have hu₁ : c₂.holds .rcu_registry_lock = true := hc₂.1
    rw [mutex_unlock_held hu₁] at h
    dsimp only at h
    have hu₂ : ((c₂.setHolds .rcu_registry_lock false).log
        (.unlock .rcu_registry_lock)).holds .rcu_gp_lock = true := hc₂.2
    rw [mutex_unlock_held hu₂] at h
    injection h with h
    exact h.symm

/-- Whatever every step of the leader's part preserves holds when it returns. -/
theorem synchronize_rcu_leader_inv {bits : Nat} {env : Env} {fuel : Nat} {self : Tid}
    {c r : Cfg} {Q : Cfg → Prop} (hQ : LeaderStable bits env self Q) (h₀ : Q c)
    (h : synchronize_rcu_leader bits env fuel self c = .ok r) : Q r := by
  obtain ⟨_, _, c₂, h₂, _, _, hr⟩ := synchronize_rcu_leader_ok h
  subst hr
  apply hQ.release
  split at h₂
  · injection h₂ with h₂; subst h₂; exact hQ.locked c h₀
  · exact grace_period_inv hQ.gp (hQ.locked c h₀) h₂

/-- Whatever a turn of the other threads preserves holds when the busy wait on the
waiter node returns. -/
theorem urcu_adaptative_busy_wait_inv {env : Env} {self : Tid} {Q : Cfg → Prop}
    (hQ : ∀ c, Q c → Q (yield env c)) :
    ∀ (fuel : Nat) (c r : Cfg), Q c → urcu_adaptative_busy_wait env self fuel c = .ok r →
      Q r ∧ r.mem.wait_state self = .URCU_WAIT_RUNNING := by
  intro fuel
  induction fuel with
  | zero => intro c r _ h; simp [urcu_adaptative_busy_wait] at h
  | succ n ih =>
    intro c r hc h
    unfold urcu_adaptative_busy_wait at h
    split at h
    · rename_i hw
      injection h with h
      subst h
      exact ⟨hc, hw⟩
    · exact ih _ r (hQ c hc) h

/-- The result of `urcu_qsbr_synchronize_rcu` is `gp_end` applied to the result of
the leader's part, or of the wait for the leader. -/
theorem urcu_qsbr_synchronize_rcu_ok {bits : Nat} {env : Env} {fuel : Nat} {self : Tid}
    {c r : Cfg} (h : urcu_qsbr_synchronize_rcu bits env fuel self c = .ok r) :
    ∃ c₂, r = gp_end (decide ((c.mem.reader self).ctr ≠ 0)) self c₂ ∧
      ((c.mem.gp_waiters = [] ∧
          synchronize_rcu_leader bits env fuel self (sync_queued self c) = .ok c₂) ∨
       (c.mem.gp_waiters ≠ [] ∧
          urcu_adaptative_busy_wait env self fuel (sync_queued self c) = .ok c₂)) := by
  rw [urcu_qsbr_synchronize_rcu_eq] at h
  split at h
  · rename_i hg
    cases hl : synchronize_rcu_leader bits env fuel self (sync_queued self c) with
    | error e => rw [hl] at h; cases h
    | ok c₂ =>
      rw [hl] at h
      injection h with h
      exact ⟨c₂, h.symm, Or.inl ⟨hg, rfl⟩⟩
  · rename_i hg
    cases hl : urcu_adaptative_busy_wait env self fuel (sync_queued self c) with
    | error e => rw [hl] at h; cases h
    | ok c₂ =>
      rw [hl] at h
      injection h with h
      exact ⟨c₂, h.symm, Or.inr ⟨hg, rfl⟩⟩

/-! ## What the stages leave alone -/

theorem urcu_wake_all_waiters_frame (c : Cfg) :
    (urcu_wake_all_waiters c).mem.gp_ctr = c.mem.gp_ctr ∧
    (urcu_wake_all_waiters c).mem.gp_futex = c.mem.gp_futex ∧
    (urcu_wake_all_waiters c).mem.reader = c.mem.reader ∧
    (urcu_wake_all_waiters c).mem.registry = c.mem.registry ∧
    (urcu_wake_all_waiters c).mem.gp_waiters = c.mem.gp_waiters ∧
    (urcu_wake_all_waiters c).cur_snap_readers = c.cur_snap_readers ∧
    (urcu_wake_all_waiters c).qsreaders = c.qsreaders ∧
    (urcu_wake_all_waiters c).waiters = c.waiters ∧
    (urcu_wake_all_waiters c).holds_gp = c.holds_gp ∧
    (urcu_wake_all_waiters c).holds_registry = c.holds_registry ∧
    (urcu_wake_all_waiters c).clock = c.clock := by
  unfold urcu_wake_all_waiters
  refine foldl_inv (fun b => b.mem.gp_ctr = c.mem.gp_ctr ∧ b.mem.gp_futex = c.mem.gp_futex ∧
    b.mem.reader = c.mem.reader ∧ b.mem.registry = c.mem.registry ∧
    b.mem.gp_waiters = c.mem.gp_waiters ∧ b.cur_snap_readers = c.cur_snap_readers ∧
    b.qsreaders = c.qsreaders ∧ b.waiters = c.waiters ∧ b.holds_gp = c.holds_gp ∧
    b.holds_registry = c.holds_registry ∧ b.clock = c.clock) _ c.waiters ?_ c
    ⟨rfl, rfl, rfl, rfl, rfl, rfl, rfl, rfl, rfl, rfl, rfl⟩
  intro b a _ hb
  unfold urcu_adaptative_wake_up
  split
  · exact hb
  · exact hb

theorem leader_release_frame (c : Cfg) :
    (leader_release c).mem.gp_ctr = c.mem.gp_ctr ∧
    (leader_release c).mem.gp_futex = c.mem.gp_futex ∧
    (leader_release c).mem.reader = c.mem.reader ∧
    (leader_release c).mem.registry = c.mem.registry ∧
    (leader_release c).mem.gp_waiters = c.mem.gp_waiters ∧
    (leader_release c).cur_snap_readers = c.cur_snap_readers ∧
    (leader_release c).qsreaders = c.qsreaders ∧
    (leader_release c).waiters = c.waiters ∧
    (leader_release c).holds_gp = false ∧
    (leader_release c).holds_registry = false ∧
    (leader_release c).clock = c.clock := by
  unfold leader_release
  dsimp only
  obtain ⟨h1, h2, h3, h4, h5, h6, h7, h8, h9, h10, h11⟩ := urcu_wake_all_waiters_frame
    ((((c.setHolds .rcu_registry_lock false).log (.unlock .rcu_registry_lock)).setHolds
      .rcu_gp_lock false).log (.unlock .rcu_gp_lock))
  exact ⟨h1, h2, h3, h4, h5, h6, h7, h8, h9, h10, h11⟩

theorem urcu_qsbr_wake_up_gp_frame (self : Tid) (c : Cfg) :
    (urcu_qsbr_wake_up_gp self c).mem.gp_ctr = c.mem.gp_ctr ∧
    (urcu_qsbr_wake_up_gp self c).mem.gp_futex = c.mem.gp_futex ∧
    (∀ t, ((urcu_qsbr_wake_up_gp self c).mem.reader t).ctr = (c.mem.reader t).ctr) ∧
    (∀ t, ((urcu_qsbr_wake_up_gp self c).mem.reader t).registered =
      (c.mem.reader t).registered) ∧
    (urcu_qsbr_wake_up_gp self c).mem.registry = c.mem.registry ∧
    (urcu_qsbr_wake_up_gp self c).mem.gp_waiters = c.mem.gp_waiters ∧
    (urcu_qsbr_wake_up_gp self c).mem.wait_state = c.mem.wait_state ∧
    (urcu_qsbr_wake_up_gp self c).cur_snap_readers = c.cur_snap_readers ∧
    (urcu_qsbr_wake_up_gp self c).qsreaders = c.qsreaders ∧
    (urcu_qsbr_wake_up_gp self c).waiters = c.waiters ∧
    (urcu_qsbr_wake_up_gp self c).holds_gp = c.holds_gp ∧
    (urcu_qsbr_wake_up_gp self c).holds_registry = c.holds_registry ∧
    (urcu_qsbr_wake_up_gp self c).clock = c.clock := by
  unfold urcu_qsbr_wake_up_gp
  split
  · refine ⟨rfl, rfl, fun t => ?_, fun t => ?_, rfl, rfl, rfl, rfl, rfl, rfl, rfl, rfl, rfl⟩ <;>
      (simp only [Cfg.log, Cfg.setReader]; split <;> simp_all)
  · exact ⟨rfl, rfl, fun _ => rfl, fun _ => rfl, rfl, rfl, rfl, rfl, rfl, rfl, rfl, rfl, rfl⟩

/-- Going offline writes the caller's `ctr` (to 0) and `waiting` flag only. -/
theorem urcu_qsbr_thread_offline_frame (self : Tid) (c : Cfg) :
    (urcu_qsbr_thread_offline self c).mem.gp_ctr = c.mem.gp_ctr ∧
    (urcu_qsbr_thread_offline self c).mem.gp_futex = c.mem.gp_futex ∧
    ((urcu_qsbr_thread_offline self c).mem.reader self).ctr = 0 ∧
    (∀ t, t ≠ self →
      ((urcu_qsbr_thread_offline self c).mem.reader t).ctr = (c.mem.reader t).ctr) ∧
    (∀ t, ((urcu_qsbr_thread_offline self c).mem.reader t).registered =
      (c.mem.reader t).registered) ∧
    (urcu_qsbr_thread_offline self c).mem.registry = c.mem.registry ∧
    (urcu_qsbr_thread_offline self c).mem.gp_waiters = c.mem.gp_waiters ∧
    (urcu_qsbr_thread_offline self c).mem.wait_state = c.mem.wait_state ∧
    (urcu_qsbr_thread_offline self c).cur_snap_readers = c.cur_snap_readers ∧
    (urcu_qsbr_thread_offline self c).qsreaders = c.qsreaders ∧
    (urcu_qsbr_thread_offline self c).waiters = c.waiters ∧
    (urcu_qsbr_thread_offline self c).holds_gp = c.holds_gp ∧
    (urcu_qsbr_thread_offline self c).holds_registry = c.holds_registry ∧
    (urcu_qsbr_thread_offline self c).clock = c.clock := by
  unfold urcu_qsbr_thread_offline
  obtain ⟨h1, h2, h3, h4, h5, h6, h7, h8, h9, h10, h11, h12, h13⟩ :=
    urcu_qsbr_wake_up_gp_frame self (c.setReader self { c.mem.reader self with ctr := 0 })
  refine ⟨h1, h2, ?_, fun t ht => ?_, fun t => ?_, h5, h6, h7, h8, h9, h10, h11, h12, h13⟩
  · rw [h3]; simp [Cfg.setReader]
  · rw [h3]; simp [Cfg.setReader, ht]
  · rw [h4]; simp only [Cfg.setReader]; split <;> simp_all

/-- Going online writes the caller's `ctr` only: it becomes the global `ctr`. -/
theorem urcu_qsbr_thread_online_frame (self : Tid) (c : Cfg) :
    (urcu_qsbr_thread_online self c).mem.gp_ctr = c.mem.gp_ctr ∧
    (urcu_qsbr_thread_online self c).mem.gp_futex = c.mem.gp_futex ∧
    ((urcu_qsbr_thread_online self c).mem.reader self).ctr = c.mem.gp_ctr ∧
    (∀ t, t ≠ self →
      ((urcu_qsbr_thread_online self c).mem.reader t).ctr = (c.mem.reader t).ctr) ∧
    (∀ t, ((urcu_qsbr_thread_online self c).mem.reader t).registered =
      (c.mem.reader t).registered) ∧
    (urcu_qsbr_thread_online self c).mem.registry = c.mem.registry ∧
    (urcu_qsbr_thread_online self c).mem.gp_waiters = c.mem.gp_waiters ∧
    (urcu_qsbr_thread_online self c).mem.wait_state = c.mem.wait_state ∧
    (urcu_qsbr_thread_online self c).cur_snap_readers = c.cur_snap_readers ∧
    (urcu_qsbr_thread_online self c).qsreaders = c.qsreaders ∧
    (urcu_qsbr_thread_online self c).waiters = c.waiters ∧
    (urcu_qsbr_thread_online self c).holds_gp = c.holds_gp ∧
    (urcu_qsbr_thread_online self c).holds_registry = c.holds_registry ∧
    (urcu_qsbr_thread_online self c).clock = c.clock ∧
    (urcu_qsbr_thread_online self c).trace = c.trace := by
  unfold urcu_qsbr_thread_online
  refine ⟨rfl, rfl, ?_, fun t ht => ?_, fun t => ?_, rfl, rfl, rfl, rfl, rfl, rfl, rfl, rfl,
    rfl, rfl⟩
  · simp [Cfg.setReader]
  · simp [Cfg.setReader, ht]
  · simp only [Cfg.setReader]; split <;> simp_all

theorem urcu_qsbr_quiescent_state_frame (self : Tid) (c : Cfg) :
    (urcu_qsbr_quiescent_state self c).mem.gp_ctr = c.mem.gp_ctr ∧
    (∀ t, ((urcu_qsbr_quiescent_state self c).mem.reader t).registered =
      (c.mem.reader t).registered) ∧
    (urcu_qsbr_quiescent_state self c).mem.registry = c.mem.registry := by
  unfold urcu_qsbr_quiescent_state
  obtain ⟨h1, _, _, h4, h5, _⟩ :=
    urcu_qsbr_wake_up_gp_frame self
      (c.setReader self { c.mem.reader self with ctr := c.mem.gp_ctr })
  refine ⟨h1, fun t => ?_, h5⟩
  rw [h4]; simp only [Cfg.setReader]; split <;> simp_all

/-- Until the caller's node is queued, only its own record, its waiter node and
the queue are written; the caller is offline from then on. -/
theorem sync_queued_frame (self : Tid) (c : Cfg) :
    (sync_queued self c).mem.gp_ctr = c.mem.gp_ctr ∧
    (sync_queued self c).mem.gp_futex = c.mem.gp_futex ∧
    ((sync_queued self c).mem.reader self).ctr = 0 ∧
    (∀ t, t ≠ self → ((sync_queued self c).mem.reader t).ctr = (c.mem.reader t).ctr) ∧
    (∀ t, ((sync_queued self c).mem.reader t).registered = (c.mem.reader t).registered) ∧
    (sync_queued self c).mem.registry = c.mem.registry ∧
    (sync_queued self c).mem.gp_waiters = self :: c.mem.gp_waiters ∧
    (sync_queued self c).cur_snap_readers = [] ∧
    (sync_queued self c).qsreaders = [] ∧
    (sync_queued self c).holds_gp = c.holds_gp ∧
    (sync_queued self c).holds_registry = c.holds_registry ∧
    (sync_queued self c).clock = c.clock := by
  unfold sync_queued
  dsimp only
  by_cases ho : (c.mem.reader self).ctr = 0
  · have : urcu_qsbr_read_ongoing self (urcu_wait_set_state self .URCU_WAIT_WAITING
        { c with cur_snap_readers := [], qsreaders := [], waiters := [] }) = false := by
      simp [urcu_qsbr_read_ongoing, urcu_wait_set_state, ho]
    rw [this]
    simp [urcu_wait_add, urcu_wait_set_state, ho]
  · have : urcu_qsbr_read_ongoing self (urcu_wait_set_state self .URCU_WAIT_WAITING
        { c with cur_snap_readers := [], qsreaders := [], waiters := [] }) = true := by
      simp [urcu_qsbr_read_ongoing, urcu_wait_set_state, ho]
    rw [this]
    obtain ⟨h1, h2, h3, h4, h5, h6, h7, _, h9, h10, _, h12, h13, h14⟩ :=
      urcu_qsbr_thread_offline_frame self (urcu_wait_set_state self .URCU_WAIT_WAITING
        { c with cur_snap_readers := [], qsreaders := [], waiters := [] })
    simp only [if_true, urcu_wait_add]
    exact ⟨h1, h2, h3, h4, h5, h6, by rw [h7]; rfl, h9, h10, h12, h13, h14⟩

theorem gp_end_frame (b : Bool) (self : Tid) (c : Cfg) :
    (gp_end b self c).mem.gp_ctr = c.mem.gp_ctr ∧
    (gp_end b self c).mem.gp_futex = c.mem.gp_futex ∧
    (∀ t, ((gp_end b self c).mem.reader t).registered = (c.mem.reader t).registered) ∧
    (gp_end b self c).mem.registry = c.mem.registry ∧
    (gp_end b self c).mem.wait_state = c.mem.wait_state ∧
    (gp_end b self c).waiters = c.waiters ∧
    (gp_end b self c).holds_gp = c.holds_gp ∧
    (gp_end b self c).holds_registry = c.holds_registry ∧
    (gp_end b self c).trace = c.trace ∧
    (gp_end b self c).cur_snap_readers = c.cur_snap_readers ∧
    (gp_end b self c).qsreaders = c.qsreaders := by
  unfold gp_end
  cases b
  · exact ⟨rfl, rfl, fun _ => rfl, rfl, rfl, rfl, rfl, rfl, rfl, rfl, rfl⟩
  · obtain ⟨h1, h2, _, _, h5, h6, _, h8, h9, h10, h11, h12, h13, _, h15⟩ :=
      urcu_qsbr_thread_online_frame self c
    exact ⟨h1, h2, h5, h6, h8, h11, h12, h13, h15, h9, h10⟩

/-! ## Registration -/

/-- When `urcu_qsbr_register_thread` returns: the caller was offline, the registry
lock was free, the caller was not registered when the lock was taken, and the
result is `register_result`. -/
theorem urcu_qsbr_register_thread_ok {env : Env} {self : Tid} {c r : Cfg}
    (h : urcu_qsbr_register_thread env self c = .ok r) :
    (c.mem.reader self).ctr = 0 ∧ c.holds_registry = false ∧
    ((env c.clock (c.setReader self { c.mem.reader self with tid := some self }).mem).reader
      self).registered = false ∧
    r = register_result env self c := by
  unfold urcu_qsbr_register_thread at h
  dsimp only at h
  split at h
  · cases h
  · rename_i hctr
    have hctr' : (c.mem.reader self).ctr = 0 := by
      simpa [Cfg.setReader] using hctr
    by_cases hr : c.holds_registry = true
    · rw [mutex_lock_held (by simpa [Cfg.holds, Cfg.setReader] using hr)] at h
      cases h
    · have hr' : c.holds_registry = false := by simpa using hr
      rw [mutex_lock_free (by simpa [Cfg.holds, Cfg.setReader] using hr')] at h
      dsimp only at h
      split at h
      · cases h
      · rename_i hreg
        rw [mutex_unlock_held (by simp [Cfg.holds, cds_list_add, Cfg.setList, Cfg.setReader,
          Cfg.log, Cfg.setHolds, Urcu.yield])] at h
        injection h with h
        refine ⟨hctr', hr', ?_, h.symm⟩
        simpa [Cfg.log, Cfg.setHolds, Urcu.yield, Cfg.setReader] using hreg

/-- When `urcu_qsbr_unregister_thread` returns: the caller was registered, the
registry lock was free, and the result is `unregister_result`. -/
theorem urcu_qsbr_unregister_thread_ok {env : Env} {self : Tid} {c r : Cfg}
    (h : urcu_qsbr_unregister_thread env self c = .ok r) :
    (c.mem.reader self).registered = true ∧ c.holds_registry = false ∧
    r = unregister_result env self c := by
  obtain ⟨_, _, _, _, h5, _, _, _, _, _, _, _, h13, _⟩ := urcu_qsbr_thread_offline_frame self c
  unfold urcu_qsbr_unregister_thread at h
  dsimp only at h
  split at h
  · cases h
  · rename_i hreg
    rw [h5 self] at hreg
    by_cases hr : c.holds_registry = true
    · rw [mutex_lock_held (by simpa [Cfg.holds, Cfg.setReader, h13] using hr)] at h
      cases h
    · have hr' : c.holds_registry = false := by simpa using hr
      rw [mutex_lock_free (by simpa [Cfg.holds, Cfg.setReader, h13] using hr')] at h
      dsimp only at h
      rw [mutex_unlock_held (by simp [Cfg.holds, cds_list_del, Cfg.log, Cfg.setHolds,
        Urcu.yield])] at h
      injection h with h
      exact ⟨by simpa using hreg, hr', h.symm⟩

/-! ## Invariants of the entry points -/

/-- Whatever every step of `urcu_qsbr_synchronize_rcu` preserves holds when it
returns. -/
theorem urcu_qsbr_synchronize_rcu_inv {bits : Nat} {env : Env} {fuel : Nat} {self : Tid}
    {c r : Cfg} {Q : Cfg → Prop} (hQ : SyncStable bits env self Q) (h₀ : Q c)
    (h : urcu_qsbr_synchronize_rcu bits env fuel self c = .ok r) : Q r := by
  obtain ⟨c₂, hr, hl | hl⟩ := urcu_qsbr_synchronize_rcu_ok h
  · rw [hr]
    exact hQ.finish _ _ (synchronize_rcu_leader_inv hQ.leader (hQ.queued c h₀) hl.2)
  · rw [hr]
    exact hQ.finish _ _ (urcu_adaptative_busy_wait_inv hQ.yield fuel _ _ (hQ.queued c h₀) hl.2).1

theorem cds_list_splice_frame (a b : ListRef) (c : Cfg) :
    (cds_list_splice a b c).mem.gp_ctr = c.mem.gp_ctr ∧
    (cds_list_splice a b c).mem.gp_futex = c.mem.gp_futex ∧
    (cds_list_splice a b c).mem.reader = c.mem.reader ∧
    (cds_list_splice a b c).mem.gp_waiters = c.mem.gp_waiters ∧
    (cds_list_splice a b c).mem.wait_state = c.mem.wait_state ∧
    (cds_list_splice a b c).waiters = c.waiters ∧
    (cds_list_splice a b c).holds_gp = c.holds_gp ∧
    (cds_list_splice a b c).holds_registry = c.holds_registry ∧
    (cds_list_splice a b c).clock = c.clock ∧
    (cds_list_splice a b c).trace = c.trace := by
  cases a <;> cases b <;> simp [cds_list_splice, Cfg.setList, Cfg.list]

theorem gp_ctr_next_odd (bits v : Nat) (h : v % 2 = 1) :
    gp_ctr_next bits v % 2 = 1 ∧ (64 ≤ bits → gp_ctr_next bits v < 2 ^ bits) := by
  unfold gp_ctr_next URCU_QSBR_GP_CTR
  by_cases hb : bits < 64
  · simp only [hb, if_true]
    refine ⟨?_, fun h64 => by omega⟩
    rw [Nat.xor_mod_two_eq]
    omega
  · simp only [hb, if_false]
    refine ⟨?_, fun _ => Nat.mod_lt _ (Nat.pos_pow_of_pos _ (by decide))⟩
    rw [Nat.mod_mod_of_dvd _ (dvd_pow_self 2 (by omega))]
    omega

/-- While the other threads do not write `registered` flags, no step of
`urcu_qsbr_synchronize_rcu` changes one. -/
theorem registered_stable (bits : Nat) (env : Env) (self : Tid) (he : EnvKeepsRegistered env)
    (f : Tid → Bool) :
    SyncStable bits env self (fun c => ∀ t, (c.mem.reader t).registered = f t) := by
  have key : ∀ c c' : Cfg, (∀ t, (c'.mem.reader t).registered = (c.mem.reader t).registered) →
      (∀ t, (c.mem.reader t).registered = f t) → (∀ t, (c'.mem.reader t).registered = f t) := by
    intro c c' h hc t; rw [h]; exact hc t
  refine ⟨⟨⟨fun c => key c _ (fun _ => rfl), fun i w c => key c _ ?_,
    fun i cur qs c => key c _ ?_, fun w c => key c _ ?_, fun c => key c _ (fun _ => rfl),
    fun c => key c _ ?_⟩, fun c => key c _ ?_, fun c => key c _ ?_⟩, fun c => key c _ ?_,
    fun c => key c _ (fun t => he _ _ t), fun b c => key c _ ?_⟩
  · exact (wfr_arm_frame i w c).2.2.2.1
  · intro t; rw [(wfr_scan_mem bits i cur qs c).2.2.1]
  · exact fun t => envSteps_registered he (wfr_pause_mem env w c) t
  · intro t; rw [(cds_list_splice_frame _ _ c).2.2.1]
  · intro t
    simp [leader_locked, urcu_move_waiters, urcu_wait_set_state, Cfg.log, Cfg.setHolds,
      Urcu.yield, he _ _]
  · intro t; rw [(leader_release_frame c).2.2.1]
  · exact (sync_queued_frame self c).2.2.2.2.1
  · exact (gp_end_frame b self c).2.2.1

theorem store_gp_ctr_list (v : Nat) (c : Cfg) (r : ListRef) :
    (store_gp_ctr v c).list r = c.list r := by
  cases r <;> rfl

theorem cds_list_splice_list (c : Cfg) :
    (cds_list_splice .qsreaders .registry c).list .registry =
      c.list .qsreaders ++ c.list .registry ∧
    (cds_list_splice .qsreaders .registry c).list .qsreaders = [] ∧
    (cds_list_splice .qsreaders .registry c).list .cur_snap_readers =
      c.list .cur_snap_readers := by
  simp [cds_list_splice, Cfg.setList, Cfg.list]

/-- The grace period proper, entered with empty scratch lists, returns every
registered reader to the registry: the same nodes, each linked once. -/
theorem grace_period_registry {bits : Nat} {env : Env} {fuel : Nat} {c r : Cfg}
    (he : EnvKeepsRegistry env) (hn : c.mem.registry.Nodup) (hcs : c.cur_snap_readers = [])
    (hqs : c.qsreaders = []) (h : grace_period bits env fuel c = .ok r) :
    r.mem.registry.Nodup ∧ (∀ x, x ∈ r.mem.registry ↔ x ∈ c.mem.registry) ∧
    r.cur_snap_readers = [] ∧ r.qsreaders = [] := by
  have hwf : ListsWF c := by
    refine ⟨fun ρ => ?_, fun x r₁ r₂ h₁ h₂ => ?_⟩
    · cases ρ
      · exact hn
      · show c.cur_snap_readers.Nodup; rw [hcs]; exact List.nodup_nil
      · show c.qsreaders.Nodup; rw [hqs]; exact List.nodup_nil
    · cases r₁ <;> cases r₂ <;> simp_all [Cfg.list]
  have hc0 : ∀ x, x ∉ c.list .cur_snap_readers := by
    intro x hx; simp [Cfg.list, hcs] at hx
  have hq0 : ∀ x, x ∉ c.list .qsreaders := by
    intro x hx; simp [Cfg.list, hqs] at hx
  unfold grace_period at h
  by_cases hb : bits < 64
  · simp only [hb, if_true] at h
    split at h
    · cases h
    · rename_i w₁ h₁
      split at h
      · cases h
      · rename_i w₂ h₂
        injection h with h
        subst h
        obtain ⟨he₁, hwf₁, hm₁⟩ := wait_for_readers_lists (by decide) (by decide) he hwf h₁
        have hwf₁' : ListsWF (store_gp_ctr (w₁.mem.gp_ctr ^^^ URCU_QSBR_GP_CTR) w₁) :=
          listsWF_congr (store_gp_ctr_list _ _) hwf₁
        obtain ⟨he₂, hwf₂, hm₂⟩ := wait_for_readers_lists (by decide) (by decide) he hwf₁' h₂
        have hm₂' : Moved .cur_snap_readers none .qsreaders w₁ w₂ :=
          moved_congr (fun ρ => (store_gp_ctr_list _ _ ρ).symm) (fun _ => rfl) hm₂
        obtain ⟨hs₁, hs₂, hs₃⟩ := cds_list_splice_list w₂
        have hreg₂ : w₂.list .registry = [] := by
          apply List.eq_nil_iff_forall_not_mem.2
          intro x hx
          rcases hm₂'.1 x _ hx with h' | ⟨_, h' | h'⟩
          · rw [he₁] at h'; cases h'
          · cases h'
          · cases h'
        refine ⟨?_, fun x => ?_, ?_, ?_⟩
        · show ((cds_list_splice .qsreaders .registry w₂).list .registry).Nodup
          rw [hs₁, hreg₂, List.append_nil]
          exact hwf₂.1 _
        · show x ∈ (cds_list_splice .qsreaders .registry w₂).list .registry ↔ x ∈ c.list .registry
          rw [hs₁, hreg₂, List.append_nil]
          constructor
          · intro hx
            rcases hm₂'.1 x _ hx with h' | ⟨h', _⟩
            · rcases hm₁.1 x _ h' with h'' | ⟨h'', _⟩
              · exact absurd h'' (hq0 x)
              · exact h''
            · rcases hm₁.1 x _ h' with h'' | ⟨h'', _⟩
              · exact absurd h'' (hc0 x)
              · exact h''
          · intro hx
            rcases hm₁.2 x _ hx with h' | ⟨_, h' | ⟨l, hl, h'⟩⟩
            · rw [he₁] at h'; cases h'
            · rcases hm₂'.2 x _ h' with h'' | ⟨h'', _⟩
              · exact h''
              · cases h''
            · injection hl with hl
              subst hl
              rcases hm₂'.2 x _ h' with h'' | ⟨_, h'' | ⟨l, hl, _⟩⟩
              · have he₂' : w₂.list .cur_snap_readers = [] := he₂
                rw [he₂'] at h''; cases h''
              · exact h''
              · cases hl
        · have : (cds_list_splice .qsreaders .registry w₂).list .cur_snap_readers = [] := by
            rw [hs₃]; exact he₂
          exact this
        · exact hs₂
  · simp only [hb, if_false] at h
    split at h
    · cases h
    · rename_i w₁ h₁
      injection h with h
      subst h
      have hwf' : ListsWF (store_gp_ctr ((c.mem.gp_ctr + URCU_QSBR_GP_CTR) % 2 ^ bits) c) :=
        listsWF_congr (store_gp_ctr_list _ _) hwf
      obtain ⟨he₁, hwf₁, hm₁⟩ := wait_for_readers_lists (by decide) (by decide) he hwf' h₁
      have hm₁' : Moved .registry none .qsreaders c w₁ :=
        moved_congr (fun ρ => (store_gp_ctr_list _ _ ρ).symm) (fun _ => rfl) hm₁
      obtain ⟨hs₁, hs₂, hs₃⟩ := cds_list_splice_list w₁
      refine ⟨?_, fun x => ?_, ?_, ?_⟩
      · show ((cds_list_splice .qsreaders .registry w₁).list .registry).Nodup
        rw [hs₁, he₁, List.append_nil]
        exact hwf₁.1 _
      · show x ∈ (cds_list_splice .qsreaders .registry w₁).list .registry ↔ x ∈ c.list .registry
        rw [hs₁, he₁, List.append_nil]
        constructor
        · intro hx
          rcases hm₁'.1 x _ hx with h' | ⟨h', _⟩
          · exact absurd h' (hq0 x)
          · exact h'
        · intro hx
          rcases hm₁'.2 x _ hx with h' | ⟨_, h' | ⟨l, hl, _⟩⟩
          · rw [he₁] at h'; cases h'
          · exact h'
          · cases hl
      · have : (cds_list_splice .qsreaders .registry w₁).list .cur_snap_readers = [] := by
          rw [hs₃]
          apply List.eq_nil_iff_forall_not_mem.2
          intro x hx
          rcases hm₁'.1 x _ hx with h' | ⟨_, h' | h'⟩
          · exact hc0 x h'
          · cases h'
          · cases h'
        exact this
      · exact hs₂

theorem leader_locked_lists {env : Env} (he : EnvKeepsRegistry env) (self : Tid) (c : Cfg) :
    (leader_locked env self c).mem.registry = c.mem.registry ∧
    (leader_locked env self c).cur_snap_readers = c.cur_snap_readers ∧
    (leader_locked env self c).qsreaders = c.qsreaders := by
  simp [leader_locked, urcu_move_waiters, urcu_wait_set_state, Cfg.log, Cfg.setHolds,
    Urcu.yield, he _ _]

/-- `urcu_qsbr_synchronize_rcu` returns with the registry holding the nodes it
held on entry, each linked once, and with its scratch lists empty. -/
theorem urcu_qsbr_synchronize_rcu_registry {bits : Nat} {env : Env} {fuel : Nat} {self : Tid}
    {c r : Cfg} (he : EnvKeepsRegistry env) (hn : c.mem.registry.Nodup)
    (h : urcu_qsbr_synchronize_rcu bits env fuel self c = .ok r) :
    r.mem.registry.Nodup ∧ (∀ x, x ∈ r.mem.registry ↔ x ∈ c.mem.registry) ∧
    r.cur_snap_readers = [] ∧ r.qsreaders = [] := by
  obtain ⟨_, _, _, _, _, hs6, _, hs8, hs9, _⟩ := sync_queued_frame self c
  obtain ⟨c₂, hr, hl | hl⟩ := urcu_qsbr_synchronize_rcu_ok h
  · obtain ⟨_, _, c₃, h₃, _, _, hr₃⟩ := synchronize_rcu_leader_ok hl.2
    obtain ⟨hq1, hq2, hq3⟩ := leader_locked_lists he self (sync_queued self c)
    have key : c₃.mem.registry.Nodup ∧ (∀ x, x ∈ c₃.mem.registry ↔ x ∈ c.mem.registry) ∧
        c₃.cur_snap_readers = [] ∧ c₃.qsreaders = [] := by
      split at h₃
      · injection h₃ with h₃
        subst h₃
        rw [hq1, hs6, hq2, hq3]
        exact ⟨hn, fun _ => Iff.rfl, hs8, hs9⟩
      · obtain ⟨g1, g2, g3, g4⟩ := grace_period_registry he (by rw [hq1, hs6]; exact hn)
          (by rw [hq2, hs8]) (by rw [hq3, hs9]) h₃
        rw [hq1, hs6] at g2
        exact ⟨g1, g2, g3, g4⟩
    obtain ⟨_, _, _, g4, _, _, _, _, _, g10, g11⟩ := gp_end_frame
      (decide ((c.mem.reader self).ctr ≠ 0)) self c₂
    obtain ⟨_, _, _, f4, _, f6, f7, _⟩ := leader_release_frame c₃
    rw [hr, g4, g10, g11, hr₃, f4, f6, f7]
    exact key
  · have hreg : c₂.mem.registry = c.mem.registry ∧ c₂.cur_snap_readers = [] ∧
        c₂.qsreaders = [] :=
      (urcu_adaptative_busy_wait_inv
        (Q := fun c' => c'.mem.registry = c.mem.registry ∧ c'.cur_snap_readers = [] ∧
          c'.qsreaders = [])
        (fun c' hc' => ⟨(he _ _).trans hc'.1, hc'.2.1, hc'.2.2⟩) fuel _ _ ⟨hs6, hs8, hs9⟩
        hl.2).1
    obtain ⟨_, _, _, g4, _, _, _, _, _, g10, g11⟩ := gp_end_frame
      (decide ((c.mem.reader self).ctr ≠ 0)) self c₂
    rw [hr, g4, g10, g11, hreg.1]
    exact ⟨hn, fun _ => Iff.rfl, hreg.2.1, hreg.2.2⟩

theorem register_result_registry {env : Env} (he : EnvKeepsRegistry env)
    (hr : EnvKeepsRegistered env) (self : Tid) (c : Cfg) :
    (register_result env self c).mem.registry = self :: c.mem.registry ∧
    ∀ t, ((register_result env self c).mem.reader t).registered =
      if t = self then true else (c.mem.reader t).registered := by
  unfold register_result
  dsimp only
  obtain ⟨_, _, _, _, h5, h6, _⟩ := urcu_qsbr_thread_online_frame self
    ((cds_list_add self .registry
      ((((yield env (c.setReader self { c.mem.reader self with tid := some self })).setHolds
        .rcu_registry_lock true).log (.lock .rcu_registry_lock)).setReader self
        { ((((yield env (c.setReader self { c.mem.reader self with tid := some self })).setHolds
        .rcu_registry_lock true).log (.lock .rcu_registry_lock)).mem.reader self) with
          registered := true })).setHolds .rcu_registry_lock false |>.log
      (.unlock .rcu_registry_lock))
  refine ⟨?_, fun t => ?_⟩
  · rw [h6]
    simp [cds_list_add, Cfg.setList, Cfg.list, Cfg.log, Cfg.setHolds, Cfg.setReader,
      Urcu.yield, he _ _]
  · rw [h5]
    by_cases ht : t = self
    · simp [cds_list_add, Cfg.setList, Cfg.list, Cfg.log, Cfg.setHolds, Cfg.setReader,
        Urcu.yield, ht]
    · simp [cds_list_add, Cfg.setList, Cfg.list, Cfg.log, Cfg.setHolds, Cfg.setReader,
        Urcu.yield, ht, hr _ _ _]

theorem unregister_result_registry {env : Env} (he : EnvKeepsRegistry env)
    (hr : EnvKeepsRegistered env) (self : Tid) (c : Cfg) :
    (unregister_result env self c).mem.registry = c.mem.registry.filter (fun u => u ≠ self) ∧
    ∀ t, ((unregister_result env self c).mem.reader t).registered =
      if t = self then false else (c.mem.reader t).registered := by
  obtain ⟨_, _, _, _, h5, h6, _⟩ := urcu_qsbr_thread_offline_frame self c
  unfold unregister_result
  dsimp only
  refine ⟨?_, fun t => ?_⟩
  · simp [cds_list_del, Cfg.log, Cfg.setHolds, Cfg.setReader, Urcu.yield, he _ _, h6]
  · by_cases ht : t = self
    · simp [cds_list_del, Cfg.log, Cfg.setHolds, Cfg.setReader, Urcu.yield, hr _ _ _, ht]
    · simp [cds_list_del, Cfg.log, Cfg.setHolds, Cfg.setReader, Urcu.yield, hr _ _ _, ht, h5]

/-- Registry consistency holds in every reachable configuration. -/
theorem reachable_registry_consistent {bits : Nat} {c : Cfg} (h : Reachable bits c) :
    RegistryConsistent c := by
  induction h with
  | init => exact ⟨fun t => by simp [Cfg.init, Mem.init], List.nodup_nil⟩
  | @register_thread env self c r _ he hr ih =>
    obtain ⟨_, _, hnr, hr⟩ := urcu_qsbr_register_thread_ok hr
    obtain ⟨h1, h2⟩ := register_result_registry he.1 he.2.1 self c
    rw [he.2.1] at hnr
    have hnr' : (c.mem.reader self).registered = false := by
      simpa [Cfg.setReader] using hnr
    have hself : self ∉ c.mem.registry := fun hm => by
      rw [(ih.1 self).1 hm] at hnr'; cases hnr'
    subst hr
    refine ⟨fun t => ?_, ?_⟩
    · rw [h1, h2, List.mem_cons]
      by_cases ht : t = self
      · simp [ht]
      · simp [ht, ih.1 t]
    · rw [h1]
      exact List.nodup_cons.2 ⟨hself, ih.2⟩
  | @unregister_thread env self c r _ he hr ih =>
    obtain ⟨_, _, hr⟩ := urcu_qsbr_unregister_thread_ok hr
    obtain ⟨h1, h2⟩ := unregister_result_registry he.1 he.2.1 self c
    subst hr
    refine ⟨fun t => ?_, ?_⟩
    · rw [h1, h2, List.mem_filter]
      by_cases ht : t = self
      · simp [ht]
      · simp [ht, ih.1 t]
    · rw [h1]
      exact ih.2.filter _
  | @synchronize_rcu env fuel self c r _ he hr ih =>
    obtain ⟨h1, h2, _, _⟩ := urcu_qsbr_synchronize_rcu_registry he.1 ih.2 hr
    have h3 := urcu_qsbr_synchronize_rcu_inv
      (registered_stable bits env self he.2.1 _) (fun _ => rfl) hr
    exact ⟨fun t => by rw [h2, h3]; exact ih.1 t, h1⟩
  | @thread_offline self c _ ih =>
    obtain ⟨_, _, _, _, h5, h6, _⟩ := urcu_qsbr_thread_offline_frame self c
    exact ⟨fun t => by rw [h6, h5]; exact ih.1 t, by rw [h6]; exact ih.2⟩
  | @thread_online self c _ ih =>
    obtain ⟨_, _, _, _, h5, h6, _⟩ := urcu_qsbr_thread_online_frame self c
    exact ⟨fun t => by rw [h6, h5]; exact ih.1 t, by rw [h6]; exact ih.2⟩
  | @quiescent_state self c _ ih =>
    obtain ⟨_, h5, h6⟩ := urcu_qsbr_quiescent_state_frame self c
    exact ⟨fun t => by rw [h6, h5]; exact ih.1 t, by rw [h6]; exact ih.2⟩

/-! ## What the stages log -/

theorem sync_queued_trace (self : Tid) (c : Cfg) :
    ∃ evs, (sync_queued self c).trace = c.trace ++ evs ∧ ∀ e ∈ evs, e = Event.futex_wake := by
  unfold sync_queued
  dsimp only
  split
  · unfold urcu_qsbr_thread_offline urcu_qsbr_wake_up_gp
    split
    · exact ⟨[.futex_wake], rfl, by simp⟩
    · exact ⟨[], by simp [urcu_wait_add, Cfg.setReader, urcu_wait_set_state], by simp⟩
  · exact ⟨[], by simp [urcu_wait_add, urcu_wait_set_state], by simp⟩

theorem leader_locked_trace (env : Env) (self : Tid) (c : Cfg) :
    (leader_locked env self c).trace =
      c.trace ++ [.lock .rcu_gp_lock, .lock .rcu_registry_lock] := by
  simp [leader_locked, urcu_move_waiters, urcu_wait_set_state, Cfg.log, Cfg.setHolds,
    Urcu.yield]

theorem urcu_wake_all_waiters_trace (c : Cfg) :
    ∃ evs, (urcu_wake_all_waiters c).trace = c.trace ++ evs ∧
      ∀ e ∈ evs, ∃ t, e = Event.wake_waiter t := by
  unfold urcu_wake_all_waiters
  refine foldl_inv (fun b => ∃ evs, b.trace = c.trace ++ evs ∧
    ∀ e ∈ evs, ∃ t, e = Event.wake_waiter t) _ c.waiters ?_ c ⟨[], by simp, by simp⟩
  rintro b a _ ⟨evs, h1, h2⟩
  unfold urcu_adaptative_wake_up
  split
  · exact ⟨evs, h1, h2⟩
  · refine ⟨evs ++ [.wake_waiter a], by simp [Cfg.log, urcu_wait_set_state, h1], ?_⟩
    intro e he
    rcases List.mem_append.1 he with he | he
    · exact h2 e he
    · exact ⟨a, by simpa using he⟩

theorem leader_release_trace (c : Cfg) :
    ∃ evs, (leader_release c).trace =
        c.trace ++ [.unlock .rcu_registry_lock, .unlock .rcu_gp_lock] ++ evs ∧
      ∀ e ∈ evs, ∃ t, e = Event.wake_waiter t := by
  unfold leader_release
  dsimp only
  obtain ⟨evs, h1, h2⟩ := urcu_wake_all_waiters_trace
    ((((c.setHolds .rcu_registry_lock false).log (.unlock .rcu_registry_lock)).setHolds
      .rcu_gp_lock false).log (.unlock .rcu_gp_lock))
  exact ⟨evs, by rw [h1]; simp [Cfg.log, Cfg.setHolds], h2⟩

/-- Every batched waiter is RUNNING once the leader has walked the batch. -/
theorem urcu_wake_all_waiters_running (c : Cfg) :
    ∀ t ∈ c.waiters, (urcu_wake_all_waiters c).mem.wait_state t = .URCU_WAIT_RUNNING := by
  have key : ∀ (l : List Tid) (b : Cfg) (t : Tid),
      (t ∈ l ∨ b.mem.wait_state t = .URCU_WAIT_RUNNING) →
      (l.foldl urcu_adaptative_wake_up b).mem.wait_state t = .URCU_WAIT_RUNNING := by
    intro l
    induction l with
    | nil => intro b t h; simpa using h
    | cons a l ih =>
      intro b t h
      simp only [List.foldl_cons]
      apply ih
      by_cases hta : t = a
      · right
        subst hta
        unfold urcu_adaptative_wake_up
        split
        · assumption
        · simp [Cfg.log, urcu_wait_set_state]
      · rcases h with h | h
        · rcases List.mem_cons.1 h with h | h
          · exact absurd h hta
          · exact Or.inl h
        · right
          unfold urcu_adaptative_wake_up
          split
          · exact h
          · simp [Cfg.log, urcu_wait_set_state, hta, h]
  intro t ht
  exact key c.waiters c t (Or.inl ht)

/-- With the registry empty when the registry lock is taken, the leader's part
is lock, release, and nothing in between; it needs no fuel. -/
theorem synchronize_rcu_leader_empty (bits : Nat) (env : Env) (fuel : Nat) (self : Tid)
    (c : Cfg) (hg : c.holds_gp = false) (hr : c.holds_registry = false)
    (he : (leader_locked env self c).mem.registry = []) :
    synchronize_rcu_leader bits env fuel self c =
      .ok (leader_release (leader_locked env self c)) := by
  obtain ⟨hlg, hlr⟩ := leader_locked_holds env self c
  rw [synchronize_rcu_leader_eq bits env fuel self c hg hr]
  have : cds_list_empty .registry (leader_locked env self c) = true := by
    simp [cds_list_empty, Cfg.list, he]
  rw [if_pos this]
  dsimp only
  have hu₁ : (leader_locked env self c).holds .rcu_registry_lock = true := hlr
  rw [mutex_unlock_held hu₁]
  dsimp only
  have hu₂ : (((leader_locked env self c).setHolds .rcu_registry_lock false).log
      (.unlock .rcu_registry_lock)).holds .rcu_gp_lock = true := hlg
  rw [mutex_unlock_held hu₂]
  rfl

/-! ## Monitors over the log of `wait_for_readers` -/

theorem check_trace_append {σ : Type} (rule : σ → Event → Option σ) (a b : List Event) :
    ∀ s s', check_trace rule s a = some s' →
      check_trace rule s (a ++ b) = check_trace rule s' b := by
  induction a with
  | nil => intro s s' h; simp [check_trace] at h; subst h; rfl
  | cons e a ih =>
    intro s s' h
    simp only [check_trace, List.cons_append] at h ⊢
    cases hr : rule s e with
    | none => rw [hr] at h; cases h
    | some s₁ => rw [hr] at h; simp only []; exact ih s₁ s' h

theorem check_trace_stutter {σ : Type} (rule : σ → Event → Option σ) (s : σ)
    (l : List Event) (h : ∀ e ∈ l, rule s e = some s) : check_trace rule s l = some s := by
  induction l with
  | nil => rfl
  | cons e l ih =>
    simp only [check_trace]
    rw [h e (List.mem_cons_self _ _)]
    exact ih (fun e' he' => h e' (List.mem_cons_of_mem _ he'))

theorem wfr_turn_trace (bits : Nat) (i : ListRef) (cur : Option ListRef) (qs : ListRef)
    (w : Nat) (c : Cfg) :
    (wfr_scan bits i cur qs (wfr_arm i w c).2).trace = c.trace ++ turn_events bits i w c := by
  rw [wfr_scan_trace, (wfr_arm_frame i w c).1]
  have hst : (fun t => Event.examine t (urcu_qsbr_reader_state bits
      (wfr_arm i w c).2.mem.gp_ctr ((wfr_arm i w c).2.mem.reader t).ctr)) =
      (fun t => Event.examine t (urcu_qsbr_reader_state bits c.mem.gp_ctr
        (c.mem.reader t).ctr)) := by
    funext t; rw [wfr_arm_state]
  rw [hst]
  unfold turn_events
  by_cases hs : (wfr_arm i w c).1 ≥ RCU_QS_ACTIVE_ATTEMPTS
  · rw [if_pos hs, wfr_arm_saturated i w c hs]
    simp
  · rw [if_neg hs, wfr_arm_spin i w c (by omega)]
    simp

/-- A monitor that accepts the entries of a turn accepts the scan part of any
turn entered in a configuration where it accepts the examinations. -/
theorem check_turn_events {σ : Type} {rule : σ → Event → Option σ} {held free : σ}
    (hr : TurnRule rule held free) (bits : Nat) (i : ListRef) (w : Nat) (c : Cfg)
    (hex : ∀ t ∈ c.list i, rule held (.examine t
      (urcu_qsbr_reader_state bits c.mem.gp_ctr (c.mem.reader t).ctr)) = some held) :
    check_trace rule held (turn_events bits i w c) = some held ∧
    Event.scan ∈ turn_events bits i w c := by
  refine ⟨check_trace_stutter rule held _ (fun e he => ?_), ?_⟩
  · unfold turn_events at he
    rcases List.mem_append.1 he with he | he
    · split at he
      · rcases List.mem_cons.1 he with he | he
        · rw [he]; exact hr.futex _
        · obtain ⟨t, _, rfl⟩ := List.mem_map.1 he
          exact hr.waiting t
      · cases he
    · rcases List.mem_cons.1 he with he | he
      · rw [he]; exact hr.scan
      · obtain ⟨t, ht, rfl⟩ := List.mem_map.1 he
        exact hex t ht
  · unfold turn_events
    exact List.mem_append_right _ (List.mem_cons_self _ _)

/-- The log of `wait_for_readers` passes every monitor that accepts the entries of
its turns, given an invariant of the configuration under which the monitor
accepts the examinations; and the log has a scan. -/
theorem wait_for_readers_trace {σ : Type} {rule : σ → Event → Option σ} {held free : σ}
    (hr : TurnRule rule held free) {bits : Nat} {env : Env} {fuel : Nat} {i : ListRef}
    {cur : Option ListRef} {qs : ListRef} {c r : Cfg} (I : Cfg → Prop)
    (harm : ∀ w c, I c → I (wfr_arm i w c).2)
    (hscan : ∀ c, I c → I (wfr_scan bits i cur qs c))
    (hpause : ∀ w c, I c → I (wfr_pause env w c))
    (hex : ∀ c, I c → ∀ t ∈ c.list i, rule held (.examine t
      (urcu_qsbr_reader_state bits c.mem.gp_ctr (c.mem.reader t).ctr)) = some held)
    (h₀ : I c) (h : wait_for_readers bits env fuel i cur qs c = .ok r) :
    ∃ evs, r.trace = c.trace ++ evs ∧ check_trace rule held evs = some held ∧
      Event.scan ∈ evs := by
  obtain ⟨w₀, c₀, ⟨hI, evs, ht, hck⟩, hb⟩ := wfr_loop_last
    (fun _ c' => I c' ∧ ∃ evs, c'.trace = c.trace ++ evs ∧ check_trace rule held evs = some held)
    (fun w c₁ w' c' hP hb => by
      obtain ⟨hI, evs, ht, hck⟩ := hP
      obtain ⟨_, _, hc'⟩ := wfr_body_cont hb
      subst hc'
      refine ⟨hpause _ _ (hscan _ (harm _ _ hI)), ?_⟩
      obtain ⟨_, _, _, _, _, hpt⟩ := wfr_pause_rest env (wfr_arm i w c₁).1
        (wfr_scan bits i cur qs (wfr_arm i w c₁).2)
      refine ⟨evs ++ turn_events bits i w c₁ ++ [.unlock .rcu_registry_lock,
        if (wfr_arm i w c₁).1 ≥ RCU_QS_ACTIVE_ATTEMPTS then .wait_gp else .cpu_relax,
        .lock .rcu_registry_lock], ?_, ?_⟩
      · rw [hpt, wfr_turn_trace, ht]; simp
      · rw [List.append_assoc, check_trace_append rule _ _ _ _ hck,
          check_trace_append rule _ _ _ _ (check_turn_events hr bits i w c₁ (hex c₁ hI)).1]
        by_cases hs : (wfr_arm i w c₁).1 ≥ RCU_QS_ACTIVE_ATTEMPTS
        · simp [hs, check_trace, hr.unlock, hr.lock, hr.wait_gp]
        · simp [hs, check_trace, hr.unlock, hr.lock, hr.cpu_relax])
    fuel 0 c r ⟨h₀, [], by simp, rfl⟩ h
  obtain ⟨_, hrr⟩ := wfr_body_brk hb
  obtain ⟨hck', hsc⟩ := check_turn_events hr bits i w₀ c₀ (hex c₀ hI)
  by_cases hs : (wfr_arm i w₀ c₀).1 ≥ RCU_QS_ACTIVE_ATTEMPTS
  · rw [if_pos hs] at hrr
    refine ⟨evs ++ turn_events bits i w₀ c₀ ++ [.futex_store 0], ?_, ?_, ?_⟩
    · rw [hrr]
      show (wfr_scan bits i cur qs (wfr_arm i w₀ c₀).2).trace ++ [Event.futex_store 0] = _
      rw [wfr_turn_trace, ht]; simp
    · rw [List.append_assoc, check_trace_append rule _ _ _ _ hck,
        check_trace_append rule _ _ _ _ hck']
      simp [check_trace, hr.futex]
    · exact List.mem_append_left _ (List.mem_append_right _ hsc)
  · rw [if_neg hs] at hrr
    refine ⟨evs ++ turn_events bits i w₀ c₀, ?_, ?_, ?_⟩
    · rw [hrr, wfr_turn_trace, ht]; simp
    · rw [check_trace_append rule _ _ _ _ hck]
      exact hck'
    · exact List.mem_append_right _ hsc

theorem no_gp_ctr_store_turn : TurnRule no_gp_ctr_store_rule () () :=
  ⟨fun _ => rfl, fun _ => rfl, rfl, rfl, rfl, rfl, rfl⟩

theorem wait_for_readers_gp_ctr {bits : Nat} {env : Env} {fuel : Nat} {i : ListRef}
    {cur : Option ListRef} {qs : ListRef} {c r : Cfg} (hc : EnvKeepsGpCtr env)
    (h : wait_for_readers bits env fuel i cur qs c = .ok r) : r.mem.gp_ctr = c.mem.gp_ctr :=
  wait_for_readers_inv (fun c' => c'.mem.gp_ctr = c.mem.gp_ctr)
    (fun w c' hc' => (wfr_arm_frame i w c').2.1.trans hc')
    (fun c' hc' => (wfr_scan_mem bits i cur qs c').1.trans hc')
    (fun w c' hc' => (envSteps_gp_ctr hc (wfr_pause_mem env w c')).trans hc')
    (fun _ hc' => hc') rfl h

/-- The grace period proper of the 32-bit build: a wait, one flip of the parity
bit, a second wait. -/
theorem grace_period_two_subphase {bits : Nat} {env : Env} {fuel : Nat} {c r : Cfg}
    (hb : bits < 64) (hc : EnvKeepsGpCtr env) (h : grace_period bits env fuel c = .ok r) :
    r.mem.gp_ctr = c.mem.gp_ctr ^^^ URCU_QSBR_GP_CTR ∧
    ∃ e₁ e₂, r.trace = c.trace ++ e₁ ++
        [.gp_ctr_store (c.mem.gp_ctr ^^^ URCU_QSBR_GP_CTR)] ++ e₂ ∧
      Event.scan ∈ e₁ ∧ Event.scan ∈ e₂ ∧
      check_trace no_gp_ctr_store_rule () e₁ = some () ∧
      check_trace no_gp_ctr_store_rule () e₂ = some () := by
  unfold grace_period at h
  simp only [hb, if_true] at h
  split at h
  · cases h
  · rename_i w₁ h₁
    split at h
    · cases h
    · rename_i w₂ h₂
      injection h with h
      subst h
      have g₁ := wait_for_readers_gp_ctr hc h₁
      have g₂ := wait_for_readers_gp_ctr hc h₂
      obtain ⟨e₁, t₁, k₁, s₁⟩ := wait_for_readers_trace no_gp_ctr_store_turn (fun _ => True)
        (fun _ _ _ => trivial) (fun _ _ => trivial) (fun _ _ _ => trivial)
        (fun _ _ _ _ => rfl) trivial h₁
      obtain ⟨e₂, t₂, k₂, s₂⟩ := wait_for_readers_trace no_gp_ctr_store_turn (fun _ => True)
        (fun _ _ _ => trivial) (fun _ _ => trivial) (fun _ _ _ => trivial)
        (fun _ _ _ _ => rfl) trivial h₂
      obtain ⟨f1, _, _, _, _, _, _, _, _, f10⟩ := cds_list_splice_frame .qsreaders .registry w₂
      refine ⟨?_, e₁, e₂, ?_, s₁, s₂, k₁, k₂⟩
      · rw [f1, g₂, ← g₁]; rfl
      · rw [f10, t₂, ← g₁]
        show (w₁.trace ++ [Event.gp_ctr_store (w₁.mem.gp_ctr ^^^ URCU_QSBR_GP_CTR)]) ++ e₂ = _
        rw [t₁]

/-- The log of the grace period proper passes every monitor that accepts the
entries of the turns of `wait_for_readers` and the store to the global `ctr`. -/
theorem grace_period_trace {σ : Type} {rule : σ → Event → Option σ} {held free : σ}
    (hr : TurnRule rule held free) (hstore : ∀ v, rule held (.gp_ctr_store v) = some held)
    {bits : Nat} {env : Env} {fuel : Nat} {c r : Cfg} (I : Cfg → Prop)
    (hI : GpStable bits env I)
    (hex : ∀ i c, I c → ∀ t ∈ c.list i, rule held (.examine t
      (urcu_qsbr_reader_state bits c.mem.gp_ctr (c.mem.reader t).ctr)) = some held)
    (h₀ : I c) (h : grace_period bits env fuel c = .ok r) :
    ∃ evs, r.trace = c.trace ++ evs ∧ check_trace rule held evs = some held := by
  have hw : ∀ i cur qs (c r : Cfg), I c → wait_for_readers bits env fuel i cur qs c = .ok r →
      I r ∧ ∃ evs, r.trace = c.trace ++ evs ∧ check_trace rule held evs = some held := by
    intro i cur qs c r hc hrun
    refine ⟨wait_for_readers_inv I (hI.arm i) (hI.scan i cur qs) hI.pause hI.futex hc hrun, ?_⟩
    obtain ⟨evs, h1, h2, _⟩ := wait_for_readers_trace hr I (hI.arm i) (hI.scan i cur qs)
      hI.pause (hex i) hc hrun
    exact ⟨evs, h1, h2⟩
  have hsp : ∀ c : Cfg, (cds_list_splice .qsreaders .registry c).trace = c.trace :=
    fun c => (cds_list_splice_frame _ _ c).2.2.2.2.2.2.2.2.2
  unfold grace_period at h
  by_cases hb : bits < 64
  · simp only [hb, if_true] at h
    split at h
    · cases h
    · rename_i w₁ h₁
      split at h
      · cases h
      · rename_i w₂ h₂
        injection h with h
        subst h
        obtain ⟨hI₁, e₁, t₁, k₁⟩ := hw _ _ _ _ _ h₀ h₁
        have hI₁' := hI.store w₁ hI₁
        simp only [gp_ctr_next, hb, if_true] at hI₁'
        obtain ⟨_, e₂, t₂, k₂⟩ := hw _ _ _ _ _ hI₁' h₂
        refine ⟨e₁ ++ [.gp_ctr_store (w₁.mem.gp_ctr ^^^ URCU_QSBR_GP_CTR)] ++ e₂, ?_, ?_⟩
        · rw [hsp, t₂]
          show (w₁.trace ++ [Event.gp_ctr_store (w₁.mem.gp_ctr ^^^ URCU_QSBR_GP_CTR)]) ++ e₂ = _
          rw [t₁]; simp
        · rw [List.append_assoc, check_trace_append rule _ _ _ _ k₁]
          simp only [List.singleton_append, check_trace, hstore]
          exact k₂
  · simp only [hb, if_false] at h
    split at h
    · cases h
    · rename_i w₁ h₁
      injection h with h
      subst h
      have hI' := hI.store c h₀
      simp only [gp_ctr_next, hb, if_false] at hI'
      obtain ⟨_, e₁, t₁, k₁⟩ := hw _ _ _ _ _ hI' h₁
      refine ⟨[.gp_ctr_store ((c.mem.gp_ctr + URCU_QSBR_GP_CTR) % 2 ^ bits)] ++ e₁, ?_, ?_⟩
      · rw [hsp, t₁]
        show (c.trace ++ [Event.gp_ctr_store ((c.mem.gp_ctr + URCU_QSBR_GP_CTR) % 2 ^ bits)]) ++
          e₁ = _
        simp
      · simp only [List.singleton_append, check_trace, hstore]
        exact k₁

/-- The log of a whole call of `urcu_qsbr_synchronize_rcu` passes every monitor
that accepts the entries of its stages. -/
theorem urcu_qsbr_synchronize_rcu_trace {σ : Type} {rule : σ → Event → Option σ}
    {out free held : σ} (hr : LeaderRule rule out free held)
    {bits : Nat} {env : Env} {fuel : Nat} {self : Tid} {c r : Cfg} (I : Cfg → Prop)
    (hI : GpStable bits env I) (hlock : ∀ c, I c → I (leader_locked env self c))
    (hex : ∀ i c, I c → ∀ t ∈ c.list i, rule held (.examine t
      (urcu_qsbr_reader_state bits c.mem.gp_ctr (c.mem.reader t).ctr)) = some held)
    (h₀ : I (sync_queued self c))
    (h : urcu_qsbr_synchronize_rcu bits env fuel self c = .ok r) :
    ∃ evs, r.trace = c.trace ++ evs ∧ check_trace rule out evs = some out := by
  obtain ⟨evq, tq, hq⟩ := sync_queued_trace self c
  have kq : check_trace rule out evq = some out :=
    check_trace_stutter rule out evq (fun e he => by rw [hq e he]; exact hr.futex_wake)
  obtain ⟨c₂, hrr, hl | hl⟩ := urcu_qsbr_synchronize_rcu_ok h
  · obtain ⟨_, _, c₃, h₃, _, _, hr₃⟩ := synchronize_rcu_leader_ok hl.2
    obtain ⟨evr, tr, hrel⟩ := leader_release_trace c₃
    have kr : check_trace rule out evr = some out :=
      check_trace_stutter rule out evr (fun e he => by
        obtain ⟨t, ht⟩ := hrel e he
        rw [ht]; exact hr.wake t)
    have hgp : ∃ evs, c₃.trace = (leader_locked env self (sync_queued self c)).trace ++ evs ∧
        check_trace rule held evs = some held := by
      split at h₃
      · injection h₃ with h₃
        subst h₃
        exact ⟨[], by simp, rfl⟩
      · exact grace_period_trace hr.turn hr.store I hI hex (hlock _ h₀) h₃
    obtain ⟨evg, tg, kg⟩ := hgp
    refine ⟨evq ++ ([.lock .rcu_gp_lock, .lock .rcu_registry_lock] ++ (evg ++
      ([.unlock .rcu_registry_lock, .unlock .rcu_gp_lock] ++ evr))), ?_, ?_⟩
    · rw [hrr, (gp_end_frame _ self c₂).2.2.2.2.2.2.2.2.1, hr₃, tr, tg, leader_locked_trace, tq]
      simp
    · rw [check_trace_append rule _ _ _ _ kq]
      simp only [List.cons_append, List.nil_append, check_trace, hr.lock_gp, hr.turn.lock]
      show check_trace rule held (evg ++
        ([Event.unlock .rcu_registry_lock, Event.unlock .rcu_gp_lock] ++ evr)) = some out
      rw [check_trace_append rule _ _ _ _ kg]
      simp only [List.cons_append, List.nil_append, check_trace, hr.turn.unlock, hr.unlock_gp]
      exact kr
  · have ht : c₂.trace = (sync_queued self c).trace :=
      (urcu_adaptative_busy_wait_inv (Q := fun c' => c'.trace = (sync_queued self c).trace)
        (fun _ hc' => hc') fuel _ _ rfl hl.2).1
    refine ⟨evq, ?_, kq⟩
    rw [hrr, (gp_end_frame _ self c₂).2.2.2.2.2.2.2.2.1, ht, tq]

theorem registry_rule_leader : LeaderRule registry_rule false false true :=
  ⟨⟨fun _ => rfl, fun _ => rfl, rfl, rfl, rfl, rfl, rfl⟩, fun _ => rfl, rfl, rfl, fun _ => rfl,
    rfl⟩

theorem nesting_rule_leader :
    LeaderRule nesting_rule (false, false) (true, false) (true, true) :=
  ⟨⟨fun _ => rfl, fun _ => rfl, rfl, rfl, rfl, rfl, rfl⟩, fun _ => rfl, rfl, rfl, fun _ => rfl,
    rfl⟩

theorem gp_stable_true (bits : Nat) (env : Env) : GpStable bits env (fun _ => True) :=
  ⟨fun _ _ => trivial, fun _ _ _ _ => trivial, fun _ _ _ _ _ => trivial, fun _ _ _ => trivial,
    fun _ _ => trivial, fun _ _ => trivial⟩

/-- `urcu_qsbr_synchronize_rcu`, entered holding neither mutex, returns holding
neither. -/
theorem urcu_qsbr_synchronize_rcu_holds {bits : Nat} {env : Env} {fuel : Nat} {self : Tid}
    {c r : Cfg} (hg : c.holds_gp = false) (hr : c.holds_registry = false)
    (h : urcu_qsbr_synchronize_rcu bits env fuel self c = .ok r) :
    r.holds_gp = false ∧ r.holds_registry = false := by
  obtain ⟨_, _, _, _, _, _, _, _, _, q10, q11, _⟩ := sync_queued_frame self c
  obtain ⟨c₂, hrr, hl | hl⟩ := urcu_qsbr_synchronize_rcu_ok h
  · obtain ⟨_, _, c₃, _, _, _, hr₃⟩ := synchronize_rcu_leader_ok hl.2
    obtain ⟨_, _, _, _, _, _, _, _, f9, f10, _⟩ := leader_release_frame c₃
    obtain ⟨_, _, _, _, _, _, g7, g8, _⟩ := gp_end_frame
      (decide ((c.mem.reader self).ctr ≠ 0)) self c₂
    rw [hrr, g7, g8, hr₃]
    exact ⟨f9, f10⟩
  · have hh : c₂.holds_gp = false ∧ c₂.holds_registry = false :=
      (urcu_adaptative_busy_wait_inv
        (Q := fun c' => c'.holds_gp = false ∧ c'.holds_registry = false)
        (fun _ hc' => hc') fuel _ _ ⟨q10.trans hg, q11.trans hr⟩ hl.2).1
    obtain ⟨_, _, _, _, _, _, g7, g8, _⟩ := gp_end_frame
      (decide ((c.mem.reader self).ctr ≠ 0)) self c₂
    rw [hrr, g7, g8]
    exact hh

/-! ## Termination -/

theorem wfr_loop_first_turn (bits : Nat) (env : Env) (fuel : Nat) (i : ListRef)
    (cur : Option ListRef) (qs : ListRef) (hq : qs ≠ i) (hc : cur ≠ some i) (w : Nat) (c : Cfg)
    (h : ∀ t ∈ c.list i,
      urcu_qsbr_reader_state bits c.mem.gp_ctr (c.mem.reader t).ctr ≠ .URCU_READER_ACTIVE_OLD) :
    ∃ r, wfr_loop bits env i cur qs (fuel + 1) w c = .ok r := by
  have hempty : (wfr_scan bits i cur qs (wfr_arm i w c).2).list i = [] := by
    apply wfr_scan_empties bits i cur qs hq hc
    intro t ht
    rw [(wfr_arm_frame i w c).1] at ht
    rw [wfr_arm_state]
    exact h t ht
  unfold wfr_loop
  rw [wfr_body_eq, if_pos hempty]
  exact ⟨_, rfl⟩

theorem wfr_pause_mem_last (env : Env) (w : Nat) (c : Cfg) :
    ∃ k m, (wfr_pause env w c).mem = env k m := by
  unfold wfr_pause
  exact ⟨_, _, rfl⟩

theorem wfr_turn_own_ctr (bits : Nat) {env : Env} {self : Tid} (he : EnvKeepsOwnCtr self env)
    (i : ListRef) (cur : Option ListRef) (qs : ListRef) (w : Nat) (c : Cfg) :
    ((wfr_scan bits i cur qs (wfr_arm i w c).2).mem.reader self).ctr = (c.mem.reader self).ctr ∧
    ((wfr_pause env (wfr_arm i w c).1 (wfr_scan bits i cur qs (wfr_arm i w c).2)).mem.reader
      self).ctr = (c.mem.reader self).ctr := by
  have h1 : ((wfr_scan bits i cur qs (wfr_arm i w c).2).mem.reader self).ctr =
      (c.mem.reader self).ctr := by
    rw [(wfr_scan_mem bits i cur qs _).2.2.1]
    exact (wfr_arm_frame i w c).2.2.1 self
  exact ⟨h1, (envSteps_own_ctr he (wfr_pause_mem env _ _)).trans h1⟩

/-- With the caller offline and the other readers quiescing whenever the caller
blocks, `wait_for_readers` returns within two turns. -/
theorem wait_for_readers_returns (bits : Nat) {env : Env} {self : Tid} (fuel : Nat)
    (i : ListRef) (cur : Option ListRef) (qs : ListRef) (hq : qs ≠ i) (hc : cur ≠ some i)
    (c : Cfg) (ho : OthersQuiesce bits self env) (he : EnvKeepsOwnCtr self env)
    (hself : (c.mem.reader self).ctr = 0) (_ : c.holds_registry = true) :
    ∃ r, wait_for_readers bits env (fuel + 2) i cur qs c = .ok r := by
  unfold wait_for_readers wfr_loop
  rw [wfr_body_eq]
  by_cases hempty : (wfr_scan bits i cur qs (wfr_arm i 0 c).2).list i = []
  · rw [if_pos hempty]
    exact ⟨_, rfl⟩
  · rw [if_neg hempty]
    dsimp only
    apply wfr_loop_first_turn bits env fuel i cur qs hq hc
    intro t _
    by_cases ht : t = self
    · subst ht
      rw [(wfr_turn_own_ctr bits he i cur qs 0 c).2, hself]
      simp [urcu_qsbr_reader_state]
    · obtain ⟨k, m, hm⟩ := wfr_pause_mem_last env (wfr_arm i 0 c).1
        (wfr_scan bits i cur qs (wfr_arm i 0 c).2)
      rw [hm]
      exact ho k m t ht

theorem wait_for_readers_own_ctr {bits : Nat} {env : Env} {self : Tid} {fuel : Nat}
    {i : ListRef} {cur : Option ListRef} {qs : ListRef} {c r : Cfg}
    (he : EnvKeepsOwnCtr self env) (h : wait_for_readers bits env fuel i cur qs c = .ok r) :
    (r.mem.reader self).ctr = (c.mem.reader self).ctr :=
  wait_for_readers_inv (fun c' => (c'.mem.reader self).ctr = (c.mem.reader self).ctr)
    (fun w c' hc' => ((wfr_arm_frame i w c').2.2.1 self).trans hc')
    (fun c' hc' => by
      show ((wfr_scan bits i cur qs c').mem.reader self).ctr = _
      rw [(wfr_scan_mem bits i cur qs c').2.2.1]; exact hc')
    (fun w c' hc' => (envSteps_own_ctr he (wfr_pause_mem env w c')).trans hc')
    (fun _ hc' => hc') rfl h

theorem wait_for_readers_holds {bits : Nat} {env : Env} {fuel : Nat}
    {i : ListRef} {cur : Option ListRef} {qs : ListRef} {c r : Cfg}
    (hr : c.holds_registry = true) (h : wait_for_readers bits env fuel i cur qs c = .ok r) :
    r.holds_registry = true ∧ r.holds_gp = c.holds_gp :=
  wait_for_readers_inv (fun c' => c'.holds_registry = true ∧ c'.holds_gp = c.holds_gp)
    (fun w c' hc' => by
      obtain ⟨_, _, _, _, _, _, _, h8, h9, _⟩ := wfr_arm_frame i w c'
      exact ⟨h9.trans hc'.1, h8.trans hc'.2⟩)
    (fun c' hc' => by
      obtain ⟨_, h2, h3, _⟩ := wfr_scan_rest bits i cur qs c'
      exact ⟨h3.trans hc'.1, h2.trans hc'.2⟩)
    (fun w c' hc' => by
      obtain ⟨_, _, _, h4, h5, _⟩ := wfr_pause_rest env w c'
      exact ⟨h5, h4.trans hc'.2⟩)
    (fun _ hc' => hc') ⟨hr, rfl⟩ h

/-- With the caller offline and the other readers quiescing whenever the caller
blocks, the grace period proper returns, two units of fuel sufficing. -/
theorem grace_period_returns (bits : Nat) {env : Env} {self : Tid} (fuel : Nat) (c : Cfg)
    (ho : OthersQuiesce bits self env) (he : EnvKeepsOwnCtr self env)
    (hself : (c.mem.reader self).ctr = 0) (hr : c.holds_registry = true) :
    ∃ r, grace_period bits env (fuel + 2) c = .ok r := by
  unfold grace_period
  by_cases hb : bits < 64
  · simp only [hb, if_true]
    obtain ⟨w₁, h₁⟩ := wait_for_readers_returns bits fuel .registry (some .cur_snap_readers)
      .qsreaders (by decide) (by decide) c ho he hself hr
    rw [h₁]
    dsimp only
    obtain ⟨w₂, h₂⟩ := wait_for_readers_returns bits fuel .cur_snap_readers none
      .qsreaders (by decide) (by decide)
      (store_gp_ctr (w₁.mem.gp_ctr ^^^ URCU_QSBR_GP_CTR) w₁) ho he
      ((wait_for_readers_own_ctr he h₁).trans hself) (wait_for_readers_holds hr h₁).1
    rw [h₂]
    exact ⟨_, rfl⟩
  · simp only [hb, if_false]
    obtain ⟨w₁, h₁⟩ := wait_for_readers_returns bits fuel .registry none
      .qsreaders (by decide) (by decide)
      (store_gp_ctr ((c.mem.gp_ctr + URCU_QSBR_GP_CTR) % 2 ^ bits) c) ho he hself hr
    rw [h₁]
    exact ⟨_, rfl⟩

theorem leader_locked_own_ctr {env : Env} {self : Tid} (he : EnvKeepsOwnCtr self env)
    (t : Tid) (c : Cfg) :
    ((leader_locked env t c).mem.reader self).ctr = (c.mem.reader self).ctr := by
  simp [leader_locked, urcu_move_waiters, urcu_wait_set_state, Cfg.log, Cfg.setHolds,
    Urcu.yield, he _ _]

/-- A caller that holds neither mutex and leads returns from
`urcu_qsbr_synchronize_rcu`, two units of fuel sufficing, when the other readers
quiesce whenever it blocks: the grace period does not wait on the caller. -/
theorem urcu_qsbr_synchronize_rcu_returns (bits : Nat) {env : Env} (fuel : Nat) (self : Tid)
    (c : Cfg) (hg : c.holds_gp = false) (hr : c.holds_registry = false)
    (hw : c.mem.gp_waiters = []) (ho : OthersQuiesce bits self env)
    (he : EnvKeepsOwnCtr self env) :
    ∃ r, urcu_qsbr_synchronize_rcu bits env (fuel + 2) self c = .ok r := by
  obtain ⟨_, _, q3, _, _, _, _, _, _, q10, q11, _⟩ := sync_queued_frame self c
  obtain ⟨hlg, hlr⟩ := leader_locked_holds env self (sync_queued self c)
  have hlead : ∃ r, synchronize_rcu_leader bits env (fuel + 2) self (sync_queued self c) =
      .ok r := by
    rw [synchronize_rcu_leader_eq bits env _ self _ (q10.trans hg) (q11.trans hr)]
    have hgp : ∃ c₂, (if cds_list_empty .registry (leader_locked env self (sync_queued self c))
        then .ok (leader_locked env self (sync_queued self c))
        else grace_period bits env (fuel + 2) (leader_locked env self (sync_queued self c))) =
        .ok c₂ ∧ c₂.holds_registry = true ∧ c₂.holds_gp = true := by
      split
      · exact ⟨_, rfl, hlr, hlg⟩
      · obtain ⟨c₂, h₂⟩ := grace_period_returns bits fuel
          (leader_locked env self (sync_queued self c)) ho he
          ((leader_locked_own_ctr he self _).trans q3) hlr
        obtain ⟨g1, g2⟩ := grace_period_holds h₂ hlr
        exact ⟨c₂, h₂, g1, g2.trans hlg⟩
    obtain ⟨c₂, h₂, hr₂, hg₂⟩ := hgp
    rw [h₂]
    dsimp only
    have hu₁ : c₂.holds .rcu_registry_lock = true := hr₂
    rw [mutex_unlock_held hu₁]
    dsimp only
    have hu₂ : ((c₂.setHolds .rcu_registry_lock false).log
        (.unlock .rcu_registry_lock)).holds .rcu_gp_lock = true := hg₂
    rw [mutex_unlock_held hu₂]
    exact ⟨_, rfl⟩
  obtain ⟨r, hl⟩ := hlead
  rw [urcu_qsbr_synchronize_rcu_eq, if_pos hw, hl]
  exact ⟨_, rfl⟩

/-- A caller that queues behind a leader returns from `urcu_qsbr_synchronize_rcu`,
two units of fuel sufficing, when the leader wakes it. -/
theorem urcu_qsbr_synchronize_rcu_woken (bits : Nat) {env : Env} (fuel : Nat) (self : Tid)
    (c : Cfg) (hw : c.mem.gp_waiters ≠ []) (hl : LeaderWakes self env) :
    ∃ r, urcu_qsbr_synchronize_rcu bits env (fuel + 2) self c = .ok r := by
  have hb : ∃ r, urcu_adaptative_busy_wait env self (fuel + 2) (sync_queued self c) = .ok r := by
    unfold urcu_adaptative_busy_wait
    split
    · exact ⟨_, rfl⟩
    · unfold urcu_adaptative_busy_wait
      have hrun : (yield env (sync_queued self c)).mem.wait_state self =
          .URCU_WAIT_RUNNING := hl _ _
      rw [if_pos hrun]
      exact ⟨_, rfl⟩
  obtain ⟨r, hb⟩ := hb
  rw [urcu_qsbr_synchronize_rcu_eq, if_neg hw, hb]
  exact ⟨_, rfl⟩

theorem check_no_gp_ctr_store (l : List Event)
    (h : check_trace no_gp_ctr_store_rule () l = some ()) :
    ∀ e ∈ l, ∀ v, e ≠ Event.gp_ctr_store v := by
  induction l with
  | nil => intro e he; cases he
  | cons a l ih =>
    intro e he v
    simp only [check_trace] at h
    cases hr : no_gp_ctr_store_rule () a with
    | none =>
      rw [hr] at h; cases h
    | some u =>
      rw [hr] at h
      rcases List.mem_cons.1 he with he | he
      · subst he
        intro hv
        rw [hv] at hr
        cases hr
      · exact ih h e he v

/-- The leader of the 32-bit build over a non-empty registry: one flip of the
parity bit, a scan before it and a scan after it. -/
theorem urcu_qsbr_synchronize_rcu_two_subphase {bits : Nat} {env : Env} {fuel : Nat}
    {self : Tid} {c r : Cfg} (hb : bits < 64) (hw : c.mem.gp_waiters = [])
    (hne : c.mem.registry ≠ []) (he : EnvKeepsRegistry env) (hc : EnvKeepsGpCtr env)
    (h : urcu_qsbr_synchronize_rcu bits env fuel self c = .ok r) :
    r.mem.gp_ctr = c.mem.gp_ctr ^^^ URCU_QSBR_GP_CTR ∧
    ∃ pre post, r.trace = c.trace ++ pre ++
        [.gp_ctr_store (c.mem.gp_ctr ^^^ URCU_QSBR_GP_CTR)] ++ post ∧
      Event.scan ∈ pre ∧ Event.scan ∈ post ∧
      (∀ e ∈ pre, ∀ v, e ≠ Event.gp_ctr_store v) ∧
      (∀ e ∈ post, ∀ v, e ≠ Event.gp_ctr_store v) := by
  obtain ⟨q1, _, _, _, _, q6, _⟩ := sync_queued_frame self c
  obtain ⟨c₂, hr, hl | hl⟩ := urcu_qsbr_synchronize_rcu_ok h
  · obtain ⟨_, _, c₃, h₃, _, _, hr₃⟩ := synchronize_rcu_leader_ok hl.2
    obtain ⟨l1, _, _⟩ := leader_locked_lists he self (sync_queued self c)
    have hne' : cds_list_empty .registry (leader_locked env self (sync_queued self c)) =
        false := by
      simp [cds_list_empty, Cfg.list, l1, q6, hne]
    rw [hne'] at h₃
    simp only [Bool.false_eq_true, if_false] at h₃
    obtain ⟨g1, e₁, e₂, gt, s₁, s₂, k₁, k₂⟩ := grace_period_two_subphase hb hc h₃
    have hLg : (leader_locked env self (sync_queued self c)).mem.gp_ctr = c.mem.gp_ctr := by
      rw [← q1]
      simp [leader_locked, urcu_move_waiters, urcu_wait_set_state, Cfg.log, Cfg.setHolds,
        Urcu.yield, hc _ _]
    rw [hLg] at g1 gt
    obtain ⟨evq, tq, hq⟩ := sync_queued_trace self c
    obtain ⟨evr, tr, hrel⟩ := leader_release_trace c₃
    obtain ⟨f1, _⟩ := leader_release_frame c₃
    obtain ⟨e1, _, _, _, _, _, _, _, e9, _⟩ := gp_end_frame
      (decide ((c.mem.reader self).ctr ≠ 0)) self c₂
    refine ⟨by rw [hr, e1, hr₃, f1, g1],
      evq ++ [.lock .rcu_gp_lock, .lock .rcu_registry_lock] ++ e₁,
      e₂ ++ [.unlock .rcu_registry_lock, .unlock .rcu_gp_lock] ++ evr, ?_,
      List.mem_append_right _ s₁,
      List.mem_append_left _ (List.mem_append_left _ s₂), ?_, ?_⟩
    · rw [hr, e9, hr₃, tr, gt, leader_locked_trace, tq]
      simp
    · intro e hm v
      rcases List.mem_append.1 hm with hm | hm
      · rcases List.mem_append.1 hm with hm | hm
        · rw [hq e hm]; simp
        · simp at hm; rcases hm with hm | hm <;> (rw [hm]; simp)
      · exact check_no_gp_ctr_store e₁ k₁ e hm v
    · intro e hm v
      rcases List.mem_append.1 hm with hm | hm
      · rcases List.mem_append.1 hm with hm | hm
        · exact check_no_gp_ctr_store e₂ k₂ e hm v
        · simp at hm; rcases hm with hm | hm <;> (rw [hm]; simp)
      · obtain ⟨t, ht⟩ := hrel e hm
        rw [ht]; simp
  · exact absurd hw hl.1

/-! ## The caller stays offline -/

theorem envSteps_gp_odd {env : Env} (he : EnvKeepsGpOdd env) {m m' : Mem}
    (h : EnvSteps env m m') (hm : m.gp_ctr % 2 = 1) : m'.gp_ctr % 2 = 1 := by
  induction h with
  | refl => exact hm
  | step k _ ih => exact he _ _ (ih hm)

/-- While the other threads keep the global `ctr` odd, so does every step of
`urcu_qsbr_synchronize_rcu`. -/
theorem gp_ctr_odd_stable_weak (bits : Nat) (env : Env) (self : Tid) (he : EnvKeepsGpOdd env) :
    SyncStable bits env self (fun c => c.mem.gp_ctr % 2 = 1) := by
  have key : ∀ c c' : Cfg, c'.mem.gp_ctr = c.mem.gp_ctr →
      c.mem.gp_ctr % 2 = 1 → c'.mem.gp_ctr % 2 = 1 := by
    intro c c' h hc; rw [h]; exact hc
  refine ⟨⟨⟨fun c hc => (gp_ctr_next_odd bits _ hc).1, fun i w c => key c _ ?_,
    fun i cur qs c => key c _ ?_, fun w c hc => ?_, fun c => key c _ rfl,
    fun c => key c _ ?_⟩, fun c hc => ?_, fun c => key c _ ?_⟩, fun c => key c _ ?_,
    fun c hc => he _ _ hc, fun b c => key c _ ?_⟩
  · exact (wfr_arm_frame i w c).2.1
  · exact (wfr_scan_mem bits i cur qs c).1
  · exact envSteps_gp_odd he (wfr_pause_mem env w c) hc
  · exact (cds_list_splice_frame _ _ c).1
  · unfold leader_locked
    exact he _ _ (he _ _ hc)
  · exact (leader_release_frame c).1
  · exact (sync_queued_frame self c).1
  · exact (gp_end_frame b self c).1

theorem self_inactive_rule_leader (self : Tid) :
    LeaderRule (self_inactive_rule self) () () () :=
  ⟨⟨fun _ => rfl, fun _ => rfl, rfl, rfl, rfl, rfl, rfl⟩, fun _ => rfl, rfl, rfl, fun _ => rfl,
    rfl⟩

theorem check_self_inactive (self : Tid) (l : List Event)
    (h : check_trace (self_inactive_rule self) () l = some ()) :
    ∀ s, Event.examine self s ∈ l → s = .URCU_READER_INACTIVE := by
  induction l with
  | nil => intro s hs; cases hs
  | cons a l ih =>
    intro s hs
    simp only [check_trace] at h
    cases hr : self_inactive_rule self () a with
    | none => rw [hr] at h; cases h
    | some u =>
      rw [hr] at h
      rcases List.mem_cons.1 hs with hs | hs
      · subst hs
        simp only [self_inactive_rule, true_and] at hr
        by_contra hne
        simp [hne] at hr
      · exact ih h s hs

/-- While the other threads do not write the caller's `ctr`, no step of the
grace period proper does. -/
theorem own_ctr_gp_stable (bits : Nat) {env : Env} {self : Tid} (he : EnvKeepsOwnCtr self env)
    (v : Nat) : GpStable bits env (fun c => (c.mem.reader self).ctr = v) := by
  refine ⟨fun _ h => h, fun i w c h => ?_, fun i cur qs c h => ?_, fun w c h => ?_,
    fun _ h => h, fun c h => ?_⟩
  · exact ((wfr_arm_frame i w c).2.2.1 self).trans h
  · show ((wfr_scan bits i cur qs c).mem.reader self).ctr = v
    rw [(wfr_scan_mem bits i cur qs c).2.2.1]; exact h
  · exact (envSteps_own_ctr he (wfr_pause_mem env w c)).trans h
  · show ((cds_list_splice .qsreaders .registry c).mem.reader self).ctr = v
    rw [(cds_list_splice_frame _ _ c).2.2.1]; exact h

/-- The caller of `urcu_qsbr_synchronize_rcu` is offline from the moment its node
is queued until `gp_end`. -/
theorem urcu_qsbr_synchronize_rcu_offline {bits : Nat} {env : Env} {fuel : Nat} {self : Tid}
    {c r : Cfg} (he : EnvKeepsOwnCtr self env)
    (h : urcu_qsbr_synchronize_rcu bits env fuel self c = .ok r) :
    ∃ c₂, r = gp_end (decide ((c.mem.reader self).ctr ≠ 0)) self c₂ ∧
      (c₂.mem.reader self).ctr = 0 := by
  obtain ⟨_, _, q3, _⟩ := sync_queued_frame self c
  obtain ⟨c₂, hrr, hl | hl⟩ := urcu_qsbr_synchronize_rcu_ok h
  · refine ⟨c₂, hrr, ?_⟩
    exact synchronize_rcu_leader_inv (Q := fun c' => (c'.mem.reader self).ctr = 0)
      ⟨own_ctr_gp_stable bits he 0, fun c' hc' => (leader_locked_own_ctr he self c').trans hc',
        fun c' hc' => by
          show ((leader_release c').mem.reader self).ctr = 0
          rw [(leader_release_frame c').2.2.1]; exact hc'⟩ q3 hl.2
  · refine ⟨c₂, hrr, ?_⟩
    exact (urcu_adaptative_busy_wait_inv (Q := fun c' => (c'.mem.reader self).ctr = 0)
      (fun c' hc' => (he _ _).trans hc') fuel _ _ q3 hl.2).1

/-! ## The store to the global counter -/

theorem wfr_loop_succ (bits : Nat) (env : Env) (i : ListRef) (cur : Option ListRef)
    (qs : ListRef) (fuel w : Nat) (c : Cfg) :
    wfr_loop bits env i cur qs (fuel + 1) w c =
      if (wfr_scan bits i cur qs (wfr_arm i w c).2).list i = [] then
        .ok (if (wfr_arm i w c).1 ≥ RCU_QS_ACTIVE_ATTEMPTS
          then uatomic_set_futex 0 (wfr_scan bits i cur qs (wfr_arm i w c).2)
          else wfr_scan bits i cur qs (wfr_arm i w c).2)
      else
        wfr_loop bits env i cur qs fuel (wfr_arm i w c).1
          (wfr_pause env (wfr_arm i w c).1 (wfr_scan bits i cur qs (wfr_arm i w c).2)) := by
  rw [wfr_loop, wfr_body_eq]
  by_cases he : (wfr_scan bits i cur qs (wfr_arm i w c).2).list i = []
  · simp only [he, if_true]
  · simp only [he, if_false]

/-- The loop of `wait_for_readers`, entered holding the registry lock, however
much fuel it is given: it returns or is still waiting at the top of a turn, it
holds the registry lock then, and its log passes every monitor that accepts the
entries of its turns. -/
theorem wfr_loop_outcome {σ : Type} {rule : σ → Event → Option σ} {held free : σ}
    (hr : TurnRule rule held free) (hex : ∀ t s, rule held (.examine t s) = some held)
    (bits : Nat) (env : Env) (i : ListRef) (cur : Option ListRef) (qs : ListRef) :
    ∀ (fuel w : Nat) (c : Cfg), c.holds_registry = true →
      in_order (wfr_loop bits env i cur qs fuel w c) = true ∧
      (final_cfg (wfr_loop bits env i cur qs fuel w c)).holds_registry = true ∧
      (final_cfg (wfr_loop bits env i cur qs fuel w c)).holds_gp = c.holds_gp ∧
      ∃ evs, (final_cfg (wfr_loop bits env i cur qs fuel w c)).trace = c.trace ++ evs ∧
        check_trace rule held evs = some held := by
  intro fuel
  induction fuel with
  | zero =>
    intro w c hh
    exact ⟨rfl, hh, rfl, [], (List.append_nil _).symm, rfl⟩
  | succ n ih =>
    intro w c hh
    have hsr : (wfr_scan bits i cur qs (wfr_arm i w c).2).holds_registry = true :=
      ((wfr_scan_rest bits i cur qs _).2.2.1.trans
        (wfr_arm_frame i w c).2.2.2.2.2.2.2.2.1).trans hh
    have hsg : (wfr_scan bits i cur qs (wfr_arm i w c).2).holds_gp = c.holds_gp :=
      (wfr_scan_rest bits i cur qs _).2.1.trans (wfr_arm_frame i w c).2.2.2.2.2.2.2.1
    have hst := wfr_turn_trace bits i cur qs w c
    obtain ⟨hck, _⟩ := check_turn_events hr bits i w c (fun t _ => hex t _)
    rw [wfr_loop_succ]
    by_cases he : (wfr_scan bits i cur qs (wfr_arm i w c).2).list i = []
    · rw [if_pos he]
      by_cases hs : (wfr_arm i w c).1 ≥ RCU_QS_ACTIVE_ATTEMPTS
      · rw [if_pos hs]
        refine ⟨rfl, hsr, hsg, turn_events bits i w c ++ [.futex_store 0], ?_, ?_⟩
        · show (wfr_scan bits i cur qs (wfr_arm i w c).2).trace ++ [Event.futex_store 0] = _
          rw [hst, List.append_assoc]
        · rw [check_trace_append rule _ _ _ _ hck]
          simp [check_trace, hr.futex]
      · rw [if_neg hs]
        exact ⟨rfl, hsr, hsg, turn_events bits i w c, hst, hck⟩
    · rw [if_neg he]
      obtain ⟨_, _, _, p4, p5, p6⟩ := wfr_pause_rest env (wfr_arm i w c).1
        (wfr_scan bits i cur qs (wfr_arm i w c).2)
      obtain ⟨k1, k2, k3, evs, k4, k5⟩ := ih (wfr_arm i w c).1 _ p5
      have hpe : check_trace rule held [.unlock .rcu_registry_lock,
          if (wfr_arm i w c).1 ≥ RCU_QS_ACTIVE_ATTEMPTS then .wait_gp else .cpu_relax,
          .lock .rcu_registry_lock] = some held := by
        by_cases hs : (wfr_arm i w c).1 ≥ RCU_QS_ACTIVE_ATTEMPTS
        · simp [hs, check_trace, hr.unlock, hr.lock, hr.wait_gp]
        · simp [hs, check_trace, hr.unlock, hr.lock, hr.cpu_relax]
      refine ⟨k1, k2, k3.trans (p4.trans hsg),
        turn_events bits i w c ++ ([.unlock .rcu_registry_lock,
          if (wfr_arm i w c).1 ≥ RCU_QS_ACTIVE_ATTEMPTS then .wait_gp else .cpu_relax,
          .lock .rcu_registry_lock] ++ evs), ?_, ?_⟩
      · rw [k4, p6, hst]
        simp only [List.append_assoc]
      · rw [check_trace_append rule _ _ _ _ hck, check_trace_append rule _ _ _ _ hpe]
        exact k5

/-- The grace period proper, entered holding the registry lock, however much
fuel it is given. -/
theorem grace_period_outcome {σ : Type} {rule : σ → Event → Option σ} {held free : σ}
    (hr : TurnRule rule held free) (hex : ∀ t s, rule held (.examine t s) = some held)
    (hstore : ∀ v, rule held (.gp_ctr_store v) = some held)
    (bits : Nat) (env : Env) (fuel : Nat) (c : Cfg) (hh : c.holds_registry = true) :
    in_order (grace_period bits env fuel c) = true ∧
    (final_cfg (grace_period bits env fuel c)).holds_registry = true ∧
    (final_cfg (grace_period bits env fuel c)).holds_gp = c.holds_gp ∧
    ∃ evs, (final_cfg (grace_period bits env fuel c)).trace = c.trace ++ evs ∧
      check_trace rule held evs = some held := by
  have hsp : ∀ c' : Cfg, (cds_list_splice .qsreaders .registry c').trace = c'.trace ∧
      (cds_list_splice .qsreaders .registry c').holds_registry = c'.holds_registry ∧
      (cds_list_splice .qsreaders .registry c').holds_gp = c'.holds_gp := fun c' =>
    ⟨(cds_list_splice_frame _ _ c').2.2.2.2.2.2.2.2.2,
      (cds_list_splice_frame _ _ c').2.2.2.2.2.2.2.1,
      (cds_list_splice_frame _ _ c').2.2.2.2.2.2.1⟩
  unfold grace_period wait_for_readers
  by_cases hb : bits < 64
  · simp only [hb, if_true]
    have k₁ := wfr_loop_outcome hr hex bits env .registry (some .cur_snap_readers) .qsreaders
      fuel 0 c hh
    generalize wfr_loop bits env .registry (some .cur_snap_readers) .qsreaders fuel 0 c = o₁
      at k₁ ⊢
    cases o₁ with
    | error e => exact k₁
    | ok c₁ =>
      obtain ⟨_, (a2 : c₁.holds_registry = true), (a3 : c₁.holds_gp = c.holds_gp), e₁,
        (a4 : c₁.trace = c.trace ++ e₁), a5⟩ := k₁
      have k₂ := wfr_loop_outcome hr hex bits env .cur_snap_readers none .qsreaders fuel 0
        (store_gp_ctr (c₁.mem.gp_ctr ^^^ URCU_QSBR_GP_CTR) c₁) a2
      have hcomb : ∀ c₂ : Cfg, (∃ evs, c₂.trace =
          (store_gp_ctr (c₁.mem.gp_ctr ^^^ URCU_QSBR_GP_CTR) c₁).trace ++ evs ∧
          check_trace rule held evs = some held) →
          ∃ evs, c₂.trace = c.trace ++ evs ∧ check_trace rule held evs = some held := by
        rintro c₂ ⟨e₂, b4, b5⟩
        refine ⟨e₁ ++ ([.gp_ctr_store (c₁.mem.gp_ctr ^^^ URCU_QSBR_GP_CTR)] ++ e₂), ?_, ?_⟩
        · rw [b4]
          show (c₁.trace ++ [Event.gp_ctr_store (c₁.mem.gp_ctr ^^^ URCU_QSBR_GP_CTR)]) ++ e₂ = _
          rw [a4]
          simp only [List.append_assoc]
        · rw [check_trace_append rule _ _ _ _ a5]
          simp only [List.singleton_append, check_trace, hstore]
          exact b5
      dsimp only
      generalize wfr_loop bits env .cur_snap_readers none .qsreaders fuel 0
        (store_gp_ctr (c₁.mem.gp_ctr ^^^ URCU_QSBR_GP_CTR) c₁) = o₂ at k₂ ⊢
      cases o₂ with
      | error e =>
        obtain ⟨b1, b2, b3, hb'⟩ := k₂
        exact ⟨b1, b2, b3.trans a3, hcomb _ hb'⟩
      | ok c₂ =>
        obtain ⟨_, b2, b3, hb'⟩ := k₂
        obtain ⟨s1, s2, s3⟩ := hsp c₂
        refine ⟨rfl, s2.trans b2, s3.trans (b3.trans a3), ?_⟩
        obtain ⟨evs, t, k⟩ := hcomb c₂ hb'
        exact ⟨evs, s1.trans t, k⟩
  · simp only [hb, if_false]
    have k₁ := wfr_loop_outcome hr hex bits env .registry none .qsreaders fuel 0
      (store_gp_ctr ((c.mem.gp_ctr + URCU_QSBR_GP_CTR) % 2 ^ bits) c) hh
    have hcomb : ∀ c₂ : Cfg, (∃ evs, c₂.trace =
        (store_gp_ctr ((c.mem.gp_ctr + URCU_QSBR_GP_CTR) % 2 ^ bits) c).trace ++ evs ∧
        check_trace rule held evs = some held) →
        ∃ evs, c₂.trace = c.trace ++ evs ∧ check_trace rule held evs = some held := by
      rintro c₂ ⟨e₂, b4, b5⟩
      refine ⟨[.gp_ctr_store ((c.mem.gp_ctr + URCU_QSBR_GP_CTR) % 2 ^ bits)] ++ e₂, ?_, ?_⟩
      · rw [b4]
        show (c.trace ++ [Event.gp_ctr_store ((c.mem.gp_ctr + URCU_QSBR_GP_CTR) % 2 ^ bits)]) ++
          e₂ = _
        simp only [List.append_assoc]
      · simp only [List.singleton_append, check_trace, hstore]
        exact b5
    generalize wfr_loop bits env .registry none .qsreaders fuel 0
      (store_gp_ctr ((c.mem.gp_ctr + URCU_QSBR_GP_CTR) % 2 ^ bits) c) = o₁ at k₁ ⊢
    cases o₁ with
    | error e =>
      obtain ⟨b1, b2, b3, hb'⟩ := k₁
      exact ⟨b1, b2, b3, hcomb _ hb'⟩
    | ok c₁ =>
      obtain ⟨_, b2, b3, hb'⟩ := k₁
      obtain ⟨s1, s2, s3⟩ := hsp c₁
      refine ⟨rfl, s2.trans b2, s3.trans b3, ?_⟩
      obtain ⟨evs, t, k⟩ := hcomb c₁ hb'
      exact ⟨evs, s1.trans t, k⟩

/-- The leader's part, entered holding neither mutex, is lock, the grace period
unless the registry is empty, and release. -/
theorem synchronize_rcu_leader_stages (bits : Nat) (env : Env) (fuel : Nat) (self : Tid)
    (c : Cfg) (hg : c.holds_gp = false) (hr : c.holds_registry = false) :
    synchronize_rcu_leader bits env fuel self c =
      match (if cds_list_empty .registry (leader_locked env self c)
          then .ok (leader_locked env self c)
          else grace_period bits env fuel (leader_locked env self c)) with
      | .error e => .error e
      | .ok c₂ => .ok (leader_release c₂) := by
  rw [synchronize_rcu_leader_eq bits env fuel self c hg hr]
  generalize (if cds_list_empty .registry (leader_locked env self c)
    then (Except.ok (leader_locked env self c) : Except Halt Cfg)
    else grace_period bits env fuel (leader_locked env self c)) = o
  cases o with
  | error e => rfl
  | ok c₂ =>
    dsimp only
    rw [mutex_unlock_eq]
    dsimp only
    rw [mutex_unlock_eq]
    rfl

/-- The leader's part, entered holding neither mutex, however much fuel it is
given: it returns holding neither mutex, or is still waiting for readers
holding both, and its log passes every monitor that accepts the entries of its
stages, ending in the monitor's state for the mutexes it holds. -/
theorem synchronize_rcu_leader_outcome {σ : Type} {rule : σ → Event → Option σ}
    {out free held : σ} (hr : LeaderRule rule out free held)
    (hex : ∀ t s, rule held (.examine t s) = some held)
    (bits : Nat) (env : Env) (fuel : Nat) (self : Tid) (c : Cfg)
    (hg : c.holds_gp = false) (hrg : c.holds_registry = false) :
    in_order (synchronize_rcu_leader bits env fuel self c) = true ∧
    ∃ evs s, (final_cfg (synchronize_rcu_leader bits env fuel self c)).trace = c.trace ++ evs ∧
      check_trace rule out evs = some s ∧
      ((s = out ∧ (final_cfg (synchronize_rcu_leader bits env fuel self c)).holds_gp = false ∧
          (final_cfg (synchronize_rcu_leader bits env fuel self c)).holds_registry = false) ∨
       (s = held ∧ (final_cfg (synchronize_rcu_leader bits env fuel self c)).holds_gp = true ∧
          (final_cfg (synchronize_rcu_leader bits env fuel self c)).holds_registry = true ∧
          ∀ r, synchronize_rcu_leader bits env fuel self c ≠ .ok r)) := by
  obtain ⟨hlg, hlr⟩ := leader_locked_holds env self c
  have hlt := leader_locked_trace env self c
  have hgp : in_order (if cds_list_empty .registry (leader_locked env self c)
        then (Except.ok (leader_locked env self c) : Except Halt Cfg)
        else grace_period bits env fuel (leader_locked env self c)) = true ∧
      (final_cfg (if cds_list_empty .registry (leader_locked env self c)
        then (Except.ok (leader_locked env self c) : Except Halt Cfg)
        else grace_period bits env fuel (leader_locked env self c))).holds_registry = true ∧
      (final_cfg (if cds_list_empty .registry (leader_locked env self c)
        then (Except.ok (leader_locked env self c) : Except Halt Cfg)
        else grace_period bits env fuel (leader_locked env self c))).holds_gp = true ∧
      ∃ evs, (final_cfg (if cds_list_empty .registry (leader_locked env self c)
        then (Except.ok (leader_locked env self c) : Except Halt Cfg)
        else grace_period bits env fuel (leader_locked env self c))).trace =
          (leader_locked env self c).trace ++ evs ∧
        check_trace rule held evs = some held := by
    split
    · exact ⟨rfl, hlr, hlg, [], (List.append_nil _).symm, rfl⟩
    · obtain ⟨g1, g2, g3, g4⟩ := grace_period_outcome hr.turn hex hr.store bits env fuel
        (leader_locked env self c) hlr
      exact ⟨g1, g2, g3.trans hlg, g4⟩
  rw [synchronize_rcu_leader_stages bits env fuel self c hg hrg]
  generalize (if cds_list_empty .registry (leader_locked env self c)
    then (Except.ok (leader_locked env self c) : Except Halt Cfg)
    else grace_period bits env fuel (leader_locked env self c)) = o at hgp ⊢
  obtain ⟨g1, g2, g3, evg, g4, g5⟩ := hgp
  have hpre : check_trace rule out ([.lock .rcu_gp_lock, .lock .rcu_registry_lock] ++ evg) =
      some held := by
    simp only [List.cons_append, List.nil_append, check_trace, hr.lock_gp, hr.turn.lock]
    exact g5
  cases o with
  | error e =>
    refine ⟨g1, [.lock .rcu_gp_lock, .lock .rcu_registry_lock] ++ evg, held, ?_, hpre,
      Or.inr ⟨rfl, g3, g2, fun r h => by cases h⟩⟩
    show e.cfg.trace = _
    have : e.cfg.trace = (leader_locked env self c).trace ++ evg := g4
    rw [this, hlt, List.append_assoc]
  | ok c₂ =>
    obtain ⟨evr, tr, hrel⟩ := leader_release_trace c₂
    obtain ⟨_, _, _, _, _, _, _, _, f9, f10, _⟩ := leader_release_frame c₂
    have kr : check_trace rule out evr = some out :=
      check_trace_stutter rule out evr (fun e he => by
        obtain ⟨t, ht⟩ := hrel e he
        rw [ht]; exact hr.wake t)
    have hc₂ : c₂.trace = (leader_locked env self c).trace ++ evg := g4
    refine ⟨rfl, ([.lock .rcu_gp_lock, .lock .rcu_registry_lock] ++ evg) ++
      ([.unlock .rcu_registry_lock, .unlock .rcu_gp_lock] ++ evr), out, ?_, ?_,
      Or.inl ⟨rfl, f9, f10⟩⟩
    · show (leader_release c₂).trace = _
      rw [tr, hc₂, hlt]
      simp only [List.append_assoc]
    · rw [check_trace_append rule _ _ _ _ hpre]
      simp only [List.cons_append, List.nil_append, check_trace, hr.turn.unlock, hr.unlock_gp]
      exact kr

theorem urcu_adaptative_busy_wait_outcome (env : Env) (self : Tid) :
    ∀ (fuel : Nat) (c : Cfg),
      in_order (urcu_adaptative_busy_wait env self fuel c) = true ∧
      (final_cfg (urcu_adaptative_busy_wait env self fuel c)).trace = c.trace ∧
      (final_cfg (urcu_adaptative_busy_wait env self fuel c)).holds_gp = c.holds_gp ∧
      (final_cfg (urcu_adaptative_busy_wait env self fuel c)).holds_registry =
        c.holds_registry := by
  intro fuel
  induction fuel with
  | zero => intro c; exact ⟨rfl, rfl, rfl, rfl⟩
  | succ n ih =>
    intro c
    unfold urcu_adaptative_busy_wait
    split
    · exact ⟨rfl, rfl, rfl, rfl⟩
    · exact ih (yield env c)

/-- A whole call of `urcu_qsbr_synchronize_rcu`, entered holding neither mutex,
however much fuel it is given: it returns, or is still waiting for the readers
or for its leader; it does not abort and does not block for ever on a mutex; its
log passes every monitor that accepts the entries of its stages, the monitor
ending in its state for the mutexes the caller holds then: none on return. -/
theorem urcu_qsbr_synchronize_rcu_outcome {σ : Type} {rule : σ → Event → Option σ}
    {out free held : σ} (hr : LeaderRule rule out free held)
    (hex : ∀ t s, rule held (.examine t s) = some held)
    (bits : Nat) (env : Env) (fuel : Nat) (self : Tid) (c : Cfg)
    (hg : c.holds_gp = false) (hrg : c.holds_registry = false) :
    in_order (urcu_qsbr_synchronize_rcu bits env fuel self c) = true ∧
    ∃ evs s,
      (final_cfg (urcu_qsbr_synchronize_rcu bits env fuel self c)).trace = c.trace ++ evs ∧
      check_trace rule out evs = some s ∧
      ((s = out ∧
          (final_cfg (urcu_qsbr_synchronize_rcu bits env fuel self c)).holds_gp = false ∧
          (final_cfg (urcu_qsbr_synchronize_rcu bits env fuel self c)).holds_registry = false) ∨
       (s = held ∧
          (final_cfg (urcu_qsbr_synchronize_rcu bits env fuel self c)).holds_gp = true ∧
          (final_cfg (urcu_qsbr_synchronize_rcu bits env fuel self c)).holds_registry = true ∧
          ∀ r, urcu_qsbr_synchronize_rcu bits env fuel self c ≠ .ok r)) := by
  obtain ⟨_, _, _, _, _, _, _, _, _, q10, q11, _⟩ := sync_queued_frame self c
  obtain ⟨evq, tq, hq⟩ := sync_queued_trace self c
  have kq : check_trace rule out evq = some out :=
    check_trace_stutter rule out evq (fun e he => by rw [hq e he]; exact hr.futex_wake)
  have hge : ∀ c₂ : Cfg,
      (gp_end (decide ((c.mem.reader self).ctr ≠ 0)) self c₂).trace = c₂.trace ∧
      (gp_end (decide ((c.mem.reader self).ctr ≠ 0)) self c₂).holds_gp = c₂.holds_gp ∧
      (gp_end (decide ((c.mem.reader self).ctr ≠ 0)) self c₂).holds_registry =
        c₂.holds_registry := fun c₂ =>
    ⟨(gp_end_frame _ self c₂).2.2.2.2.2.2.2.2.1, (gp_end_frame _ self c₂).2.2.2.2.2.2.1,
      (gp_end_frame _ self c₂).2.2.2.2.2.2.2.1⟩
  rw [urcu_qsbr_synchronize_rcu_eq]
  by_cases hw : c.mem.gp_waiters = []
  · rw [if_pos hw]
    have k := synchronize_rcu_leader_outcome hr hex bits env fuel self (sync_queued self c)
      (q10.trans hg) (q11.trans hrg)
    generalize synchronize_rcu_leader bits env fuel self (sync_queued self c) = o at k ⊢
    obtain ⟨k1, evs, s, k2, k3, k4⟩ := k
    have hck : check_trace rule out (evq ++ evs) = some s := by
      rw [check_trace_append rule _ _ _ _ kq]; exact k3
    cases o with
    | error e =>
      refine ⟨k1, evq ++ evs, s, ?_, hck, ?_⟩
      · show e.cfg.trace = _
        have : e.cfg.trace = (sync_queued self c).trace ++ evs := k2
        rw [this, tq, List.append_assoc]
      · rcases k4 with ⟨h1, h2, h3⟩ | ⟨h1, h2, h3, _⟩
        · exact Or.inl ⟨h1, h2, h3⟩
        · exact Or.inr ⟨h1, h2, h3, fun r h => by cases h⟩
    | ok c₂ =>
      obtain ⟨e1, e2, e3⟩ := hge c₂
      have hc₂ : c₂.trace = (sync_queued self c).trace ++ evs := k2
      refine ⟨rfl, evq ++ evs, s, ?_, hck, ?_⟩
      · show (gp_end (decide ((c.mem.reader self).ctr ≠ 0)) self c₂).trace = _
        rw [e1, hc₂, tq, List.append_assoc]
      · rcases k4 with ⟨h1, h2, h3⟩ | ⟨_, _, _, h4⟩
        · exact Or.inl ⟨h1, e2.trans h2, e3.trans h3⟩
        · exact absurd rfl (h4 c₂)
  · rw [if_neg hw]
    have k := urcu_adaptative_busy_wait_outcome env self fuel (sync_queued self c)
    generalize urcu_adaptative_busy_wait env self fuel (sync_queued self c) = o at k ⊢
    obtain ⟨k1, k2, k3, k4⟩ := k
    cases o with
    | error e =>
      refine ⟨k1, evq, out, ?_, kq, Or.inl ⟨rfl, ?_, ?_⟩⟩
      · show e.cfg.trace = _
        have : e.cfg.trace = (sync_queued self c).trace := k2
        rw [this, tq]
      · show e.cfg.holds_gp = false
        have : e.cfg.holds_gp = (sync_queued self c).holds_gp := k3
        rw [this, q10, hg]
      · show e.cfg.holds_registry = false
        have : e.cfg.holds_registry = (sync_queued self c).holds_registry := k4
        rw [this, q11, hrg]
    | ok c₂ =>
      obtain ⟨e1, e2, e3⟩ := hge c₂
      have h2 : c₂.trace = (sync_queued self c).trace := k2
      have h3 : c₂.holds_gp = (sync_queued self c).holds_gp := k3
      have h4 : c₂.holds_registry = (sync_queued self c).holds_registry := k4
      refine ⟨rfl, evq, out, ?_, kq, Or.inl ⟨rfl, ?_, ?_⟩⟩
      · show (gp_end (decide ((c.mem.reader self).ctr ≠ 0)) self c₂).trace = _
        rw [e1, h2, tq]
      · show (gp_end (decide ((c.mem.reader self).ctr ≠ 0)) self c₂).holds_gp = false
        rw [e2, h3, q10, hg]
      · show (gp_end (decide ((c.mem.reader self).ctr ≠ 0)) self c₂).holds_registry = false
        rw [e3, h4, q11, hrg]

/-! ## What the other threads are shown -/

theorem offlineSince_congr {self : Tid} {base : List Mem} {c c' : Cfg}
    (hm : (c'.mem.reader self).ctr = (c.mem.reader self).ctr) (hs : c'.seen = c.seen)
    (h : OfflineSince self base c) : OfflineSince self base c' := by
  unfold OfflineSince at h ⊢
  rw [hm, hs]
  exact h

/-- A blocking point of an offline caller shows it offline, and leaves it
offline when the other threads do not write its `ctr`. -/
theorem offlineSince_yield {env : Env} {self : Tid} (he : EnvKeepsOwnCtr self env)
    {base : List Mem} {c : Cfg} (h : OfflineSince self base c) :
    OfflineSince self base (yield env c) := by
  obtain ⟨h0, ms, h1, h2⟩ := h
  refine ⟨(he _ _).trans h0, ms ++ [c.mem], ?_, ?_⟩
  · show c.seen ++ [c.mem] = _
    rw [h1, List.append_assoc]
  · intro m hm
    rcases List.mem_append.1 hm with hm | hm
    · exact h2 m hm
    · rw [List.mem_singleton.1 hm]
      exact h0

theorem cds_list_move_seen (t : Tid) (d : ListRef) (c : Cfg) :
    (cds_list_move t d c).seen = c.seen := by
  cases d <;> simp [cds_list_move, cds_list_add, cds_list_del, Cfg.setList, Cfg.list]

theorem wfr_examine_seen (bits : Nat) (cur : Option ListRef) (qs : ListRef) (c : Cfg)
    (t : Tid) : (wfr_examine bits cur qs c t).seen = c.seen := by
  unfold wfr_examine
  cases urcu_qsbr_reader_state bits c.mem.gp_ctr (c.mem.reader t).ctr <;>
    cases cur <;> simp [cds_list_move_seen, Cfg.log]

theorem wfr_scan_seen (bits : Nat) (i : ListRef) (cur : Option ListRef) (qs : ListRef)
    (c : Cfg) : (wfr_scan bits i cur qs c).seen = c.seen := by
  unfold wfr_scan
  exact foldl_inv (fun b => b.seen = c.seen) _ _
    (fun b a _ hb => (wfr_examine_seen bits cur qs b a).trans hb) (c.log .scan) rfl

theorem wfr_arm_seen (i : ListRef) (w : Nat) (c : Cfg) : (wfr_arm i w c).2.seen = c.seen := by
  by_cases h : (wfr_arm i w c).1 < RCU_QS_ACTIVE_ATTEMPTS
  · rw [wfr_arm_spin i w c h]
  · rw [wfr_arm_saturated i w c (by omega)]

theorem cds_list_splice_seen (a b : ListRef) (c : Cfg) :
    (cds_list_splice a b c).seen = c.seen := by
  cases a <;> cases b <;> simp [cds_list_splice, Cfg.setList, Cfg.list]

theorem offlineSince_wait_gp {env : Env} {self : Tid} (he : EnvKeepsOwnCtr self env)
    {base : List Mem} {c : Cfg} (h : OfflineSince self base c) :
    OfflineSince self base (wait_gp env c) := by
  have hl : OfflineSince self base (c.log .wait_gp) := offlineSince_congr rfl rfl h
  unfold wait_gp
  dsimp only
  split
  · exact hl
  · exact offlineSince_yield he hl

theorem offlineSince_pause {env : Env} {self : Tid} (he : EnvKeepsOwnCtr self env)
    {base : List Mem} (w : Nat) {c : Cfg} (h : OfflineSince self base c) :
    OfflineSince self base (wfr_pause env w c) := by
  have hu : OfflineSince self base
      ((c.setHolds .rcu_registry_lock false).log (.unlock .rcu_registry_lock)) :=
    offlineSince_congr rfl rfl h
  have hw : OfflineSince self base (if w ≥ RCU_QS_ACTIVE_ATTEMPTS
      then wait_gp env ((c.setHolds .rcu_registry_lock false).log (.unlock .rcu_registry_lock))
      else caa_cpu_relax
        ((c.setHolds .rcu_registry_lock false).log (.unlock .rcu_registry_lock))) := by
    split
    · exact offlineSince_wait_gp he hu
    · exact offlineSince_congr rfl rfl hu
  exact offlineSince_congr rfl rfl (offlineSince_yield he hw)

/-- While the other threads do not write the caller's `ctr`, every step of the
grace period proper leaves an offline caller offline, at each of its blocking
points too. -/
theorem offlineSince_gp_stable (bits : Nat) {env : Env} {self : Tid}
    (he : EnvKeepsOwnCtr self env) (base : List Mem) :
    GpStable bits env (OfflineSince self base) := by
  refine ⟨fun c h => offlineSince_congr rfl rfl h, fun i w c h => ?_, fun i cur qs c h => ?_,
    fun w c h => offlineSince_pause he w h, fun c h => offlineSince_congr rfl rfl h,
    fun c h => ?_⟩
  · exact offlineSince_congr ((wfr_arm_frame i w c).2.2.1 self) (wfr_arm_seen i w c) h
  · exact offlineSince_congr (by rw [(wfr_scan_mem bits i cur qs c).2.2.1])
      (wfr_scan_seen bits i cur qs c) h
  · exact offlineSince_congr (by rw [(cds_list_splice_frame _ _ c).2.2.1])
      (cds_list_splice_seen _ _ c) h

theorem urcu_wake_all_waiters_seen (c : Cfg) : (urcu_wake_all_waiters c).seen = c.seen := by
  unfold urcu_wake_all_waiters
  refine foldl_inv (fun b => b.seen = c.seen) _ c.waiters ?_ c rfl
  intro b a _ hb
  unfold urcu_adaptative_wake_up
  split
  · exact hb
  · exact hb

theorem offlineSince_leader_stable (bits : Nat) {env : Env} {self : Tid}
    (he : EnvKeepsOwnCtr self env) (base : List Mem) :
    LeaderStable bits env self (OfflineSince self base) := by
  refine ⟨offlineSince_gp_stable bits he base, fun c h => ?_, fun c h => ?_⟩
  · have h₁ : OfflineSince self base (urcu_wait_set_state self .URCU_WAIT_RUNNING c) :=
      offlineSince_congr rfl rfl h
    have h₂ : OfflineSince self base (urcu_move_waiters
        (((yield env (urcu_wait_set_state self .URCU_WAIT_RUNNING c)).setHolds
          .rcu_gp_lock true).log (.lock .rcu_gp_lock))) :=
      offlineSince_congr rfl rfl (offlineSince_yield he h₁)
    exact offlineSince_congr rfl rfl (offlineSince_yield he h₂)
  · refine offlineSince_congr ?_ ?_ h
    · rw [(leader_release_frame c).2.2.1]
    · unfold leader_release
      dsimp only
      rw [urcu_wake_all_waiters_seen]
      rfl

theorem sync_queued_seen (self : Tid) (c : Cfg) : (sync_queued self c).seen = c.seen := by
  unfold sync_queued
  dsimp only
  split
  · unfold urcu_qsbr_thread_offline urcu_qsbr_wake_up_gp
    split <;> rfl
  · rfl

theorem gp_end_seen (b : Bool) (self : Tid) (c : Cfg) : (gp_end b self c).seen = c.seen := by
  unfold gp_end
  cases b <;> rfl

/-- During a call of `urcu_qsbr_synchronize_rcu` that returns, on either path,
every shared memory the other threads are handed shows the caller's `ctr` at 0. -/
theorem urcu_qsbr_synchronize_rcu_seen {bits : Nat} {env : Env} {fuel : Nat} {self : Tid}
    {c r : Cfg} (he : EnvKeepsOwnCtr self env)
    (h : urcu_qsbr_synchronize_rcu bits env fuel self c = .ok r) :
    ∃ ms, r.seen = c.seen ++ ms ∧ ∀ m ∈ ms, (m.reader self).ctr = 0 := by
  have hq : OfflineSince self c.seen (sync_queued self c) :=
    ⟨(sync_queued_frame self c).2.2.1, [], by rw [sync_queued_seen, List.append_nil],
      fun m hm => by cases hm⟩
  obtain ⟨c₂, hrr, hl | hl⟩ := urcu_qsbr_synchronize_rcu_ok h
  · have := synchronize_rcu_leader_inv (offlineSince_leader_stable bits he c.seen) hq hl.2
    rw [hrr, gp_end_seen]
    exact this.2
  · have := (urcu_adaptative_busy_wait_inv (Q := OfflineSince self c.seen)
      (fun c' hc' => offlineSince_yield he hc') fuel _ _ hq hl.2).1
    rw [hrr, gp_end_seen]
    exact this.2

/-! ## Invariants of every run, returning or not -/

theorem wfr_loop_final_inv {bits : Nat} {env : Env} {i : ListRef} {cur : Option ListRef}
    {qs : ListRef} (Q : Cfg → Prop)
    (harm : ∀ w c, Q c → Q (wfr_arm i w c).2)
    (hscan : ∀ c, Q c → Q (wfr_scan bits i cur qs c))
    (hpause : ∀ w c, Q c → Q (wfr_pause env w c))
    (hfutex : ∀ c, Q c → Q (uatomic_set_futex 0 c)) :
    ∀ (fuel w : Nat) (c : Cfg), Q c → Q (final_cfg (wfr_loop bits env i cur qs fuel w c)) := by
  intro fuel
  induction fuel with
  | zero => intro w c h; exact h
  | succ n ih =>
    intro w c h
    rw [wfr_loop_succ]
    by_cases he : (wfr_scan bits i cur qs (wfr_arm i w c).2).list i = []
    · rw [if_pos he]
      show Q (if (wfr_arm i w c).1 ≥ RCU_QS_ACTIVE_ATTEMPTS
        then uatomic_set_futex 0 (wfr_scan bits i cur qs (wfr_arm i w c).2)
        else wfr_scan bits i cur qs (wfr_arm i w c).2)
      split
      · exact hfutex _ (hscan _ (harm _ _ h))
      · exact hscan _ (harm _ _ h)
    · rw [if_neg he]
      exact ih _ _ (hpause _ _ (hscan _ (harm _ _ h)))

/-- Whatever every step of the grace period preserves holds where it ends,
whether it returns or is still waiting. -/
theorem grace_period_final_inv {bits : Nat} {env : Env} {fuel : Nat} {c : Cfg}
    {Q : Cfg → Prop} (hQ : GpStable bits env Q) (h₀ : Q c) :
    Q (final_cfg (grace_period bits env fuel c)) := by
  have hw : ∀ i cur qs (c : Cfg), Q c → Q (final_cfg (wfr_loop bits env i cur qs fuel 0 c)) :=
    fun i cur qs c hc =>
      wfr_loop_final_inv Q (hQ.arm i) (hQ.scan i cur qs) hQ.pause hQ.futex fuel 0 c hc
  unfold grace_period wait_for_readers
  by_cases hb : bits < 64
  · simp only [hb, if_true]
    have k₁ := hw .registry (some .cur_snap_readers) .qsreaders c h₀
    generalize wfr_loop bits env .registry (some .cur_snap_readers) .qsreaders fuel 0 c = o₁
      at k₁ ⊢
    cases o₁ with
    | error e => exact k₁
    | ok c₁ =>
      have hs := hQ.store c₁ k₁
      simp only [gp_ctr_next, hb, if_true] at hs
      have k₂ := hw .cur_snap_readers none .qsreaders _ hs
      dsimp only
      generalize wfr_loop bits env .cur_snap_readers none .qsreaders fuel 0
        (store_gp_ctr (c₁.mem.gp_ctr ^^^ URCU_QSBR_GP_CTR) c₁) = o₂ at k₂ ⊢
      cases o₂ with
      | error e => exact k₂
      | ok c₂ => exact hQ.splice _ k₂
  · simp only [hb, if_false]
    have hs := hQ.store c h₀
    simp only [gp_ctr_next, hb, if_false] at hs
    have k₁ := hw .registry none .qsreaders _ hs
    generalize wfr_loop bits env .registry none .qsreaders fuel 0
      (store_gp_ctr ((c.mem.gp_ctr + URCU_QSBR_GP_CTR) % 2 ^ bits) c) = o₁ at k₁ ⊢
    cases o₁ with
    | error e => exact k₁
    | ok c₁ => exact hQ.splice _ k₁

theorem synchronize_rcu_leader_final_inv {bits : Nat} {env : Env} {fuel : Nat} {self : Tid}
    {c : Cfg} {Q : Cfg → Prop} (hQ : LeaderStable bits env self Q)
    (hg : c.holds_gp = false) (hr : c.holds_registry = false) (h₀ : Q c) :
    Q (final_cfg (synchronize_rcu_leader bits env fuel self c)) := by
  rw [synchronize_rcu_leader_stages bits env fuel self c hg hr]
  have k : Q (final_cfg (if cds_list_empty .registry (leader_locked env self c)
      then (Except.ok (leader_locked env self c) : Except Halt Cfg)
      else grace_period bits env fuel (leader_locked env self c))) := by
    split
    · exact hQ.locked c h₀
    · exact grace_period_final_inv hQ.gp (hQ.locked c h₀)
  generalize (if cds_list_empty .registry (leader_locked env self c)
    then (Except.ok (leader_locked env self c) : Except Halt Cfg)
    else grace_period bits env fuel (leader_locked env self c)) = o at k ⊢
  cases o with
  | error e => exact k
  | ok c₂ => exact hQ.release _ k

theorem urcu_adaptative_busy_wait_final_inv {env : Env} {self : Tid} {Q : Cfg → Prop}
    (hQ : ∀ c, Q c → Q (yield env c)) :
    ∀ (fuel : Nat) (c : Cfg), Q c → Q (final_cfg (urcu_adaptative_busy_wait env self fuel c)) := by
  intro fuel
  induction fuel with
  | zero => intro c h; exact h
  | succ n ih =>
    intro c h
    unfold urcu_adaptative_busy_wait
    split
    · exact h
    · exact ih _ (hQ c h)

/-- During a call of `urcu_qsbr_synchronize_rcu` by a caller that holds neither
mutex, for as long as it runs, every shared memory the other threads are handed
shows the caller's `ctr` at 0. -/
theorem urcu_qsbr_synchronize_rcu_final_seen (bits : Nat) {env : Env} (fuel : Nat) {self : Tid}
    (c : Cfg) (he : EnvKeepsOwnCtr self env)
    (hg : c.holds_gp = false) (hr : c.holds_registry = false) :
    ∃ ms, (final_cfg (urcu_qsbr_synchronize_rcu bits env fuel self c)).seen = c.seen ++ ms ∧
      ∀ m ∈ ms, (m.reader self).ctr = 0 := by
  obtain ⟨_, _, q3, _, _, _, _, _, _, q10, q11, _⟩ := sync_queued_frame self c
  have hq : OfflineSince self c.seen (sync_queued self c) :=
    ⟨q3, [], by rw [sync_queued_seen, List.append_nil], fun m hm => by cases hm⟩
  rw [urcu_qsbr_synchronize_rcu_eq]
  by_cases hw : c.mem.gp_waiters = []
  · rw [if_pos hw]
    have k : OfflineSince self c.seen
        (final_cfg (synchronize_rcu_leader bits env fuel self (sync_queued self c))) :=
      synchronize_rcu_leader_final_inv (offlineSince_leader_stable bits he c.seen)
        (q10.trans hg) (q11.trans hr) hq
    generalize synchronize_rcu_leader bits env fuel self (sync_queued self c) = o at k ⊢
    cases o with
    | error e => exact k.2
    | ok c₂ =>
      show ∃ ms, (gp_end (decide ((c.mem.reader self).ctr ≠ 0)) self c₂).seen = c.seen ++ ms ∧ _
      rw [gp_end_seen]
      exact k.2
  · rw [if_neg hw]
    have k : OfflineSince self c.seen
        (final_cfg (urcu_adaptative_busy_wait env self fuel (sync_queued self c))) :=
      urcu_adaptative_busy_wait_final_inv (fun c' hc' => offlineSince_yield he hc') fuel _ hq
    generalize urcu_adaptative_busy_wait env self fuel (sync_queued self c) = o at k ⊢
    cases o with
    | error e => exact k.2
    | ok c₂ =>
      show ∃ ms, (gp_end (decide ((c.mem.reader self).ctr ≠ 0)) self c₂).seen = c.seen ++ ms ∧ _
      rw [gp_end_seen]
      exact k.2

/-! ## The global counter while the caller holds `rcu_gp_lock` -/

theorem yield_gp_ctr_from {env : Env} {k₀ : Nat} (hc : EnvKeepsGpCtrFrom k₀ env) {c : Cfg}
    (h : k₀ ≤ c.clock) :
    (yield env c).mem.gp_ctr = c.mem.gp_ctr ∧ k₀ ≤ (yield env c).clock :=
  ⟨hc _ _ h, Nat.le_succ_of_le h⟩

theorem wfr_pause_gp_ctr_from {env : Env} {k₀ : Nat} (hc : EnvKeepsGpCtrFrom k₀ env) (w : Nat)
    {c : Cfg} (h : k₀ ≤ c.clock) :
    (wfr_pause env w c).mem.gp_ctr = c.mem.gp_ctr ∧ k₀ ≤ (wfr_pause env w c).clock := by
  have hw : (if w ≥ RCU_QS_ACTIVE_ATTEMPTS
      then wait_gp env ((c.setHolds .rcu_registry_lock false).log (.unlock .rcu_registry_lock))
      else caa_cpu_relax
        ((c.setHolds .rcu_registry_lock false).log (.unlock .rcu_registry_lock))).mem.gp_ctr =
        c.mem.gp_ctr ∧
      k₀ ≤ (if w ≥ RCU_QS_ACTIVE_ATTEMPTS
      then wait_gp env ((c.setHolds .rcu_registry_lock false).log (.unlock .rcu_registry_lock))
      else caa_cpu_relax
        ((c.setHolds .rcu_registry_lock false).log (.unlock .rcu_registry_lock))).clock := by
    split
    · unfold wait_gp
      dsimp only
      split
      · exact ⟨rfl, h⟩
      · exact ⟨hc _ _ h, Nat.le_succ_of_le h⟩
    · exact ⟨rfl, h⟩
  obtain ⟨y1, y2⟩ := yield_gp_ctr_from hc hw.2
  exact ⟨y1.trans hw.1, y2⟩

/-- While the other threads do not store to the global `ctr` from the blocking
point `k₀` on, a call of `wait_for_readers` made at or after that point returns
with the global `ctr` it was called with. -/
theorem wait_for_readers_gp_ctr_from {bits : Nat} {env : Env} {fuel : Nat} {i : ListRef}
    {cur : Option ListRef} {qs : ListRef} {c r : Cfg} {k₀ : Nat}
    (hc : EnvKeepsGpCtrFrom k₀ env) (hk : k₀ ≤ c.clock)
    (h : wait_for_readers bits env fuel i cur qs c = .ok r) :
    r.mem.gp_ctr = c.mem.gp_ctr ∧ k₀ ≤ r.clock :=
  wait_for_readers_inv (fun c' => c'.mem.gp_ctr = c.mem.gp_ctr ∧ k₀ ≤ c'.clock)
    (fun w c' hc' => ⟨(wfr_arm_frame i w c').2.1.trans hc'.1, by
      rw [(wfr_arm_frame i w c').2.2.2.2.2.2.2.2.2]; exact hc'.2⟩)
    (fun c' hc' => ⟨(wfr_scan_mem bits i cur qs c').1.trans hc'.1, by
      show k₀ ≤ (wfr_scan bits i cur qs c').clock
      rw [(wfr_scan_rest bits i cur qs c').2.2.2]; exact hc'.2⟩)
    (fun w c' hc' => ⟨(wfr_pause_gp_ctr_from hc w hc'.2).1.trans hc'.1,
      (wfr_pause_gp_ctr_from hc w hc'.2).2⟩)
    (fun _ hc' => hc') ⟨rfl, hk⟩ h

/-- The grace period proper of the 32-bit build, when it returns: a wait on the
registry that sets the ACTIVE_CURRENT readers aside in `cur_snap_readers`, the
store of the flipped `ctr`, a wait on `cur_snap_readers`, the splice. -/
theorem grace_period_two_waits {bits : Nat} {env : Env} {fuel : Nat} {c r : Cfg}
    (hb : bits < 64) (h : grace_period bits env fuel c = .ok r) :
    ∃ c₁ c₂,
      wait_for_readers bits env fuel .registry (some .cur_snap_readers) .qsreaders c = .ok c₁ ∧
      wait_for_readers bits env fuel .cur_snap_readers none .qsreaders
        (store_gp_ctr (c₁.mem.gp_ctr ^^^ URCU_QSBR_GP_CTR) c₁) = .ok c₂ ∧
      r = cds_list_splice .qsreaders .registry c₂ := by
  unfold grace_period at h
  simp only [hb, if_true] at h
  split at h
  · cases h
  · rename_i c₁ h₁
    split at h
    · cases h
    · rename_i c₂ h₂
      injection h with h
      exact ⟨c₁, c₂, h₁, h₂, h.symm⟩

/-! ## Who is examined, and with what outcome -/

theorem mem_turn_events_examine (bits : Nat) (i : ListRef) (w : Nat) (c : Cfg) (t : Tid)
    (s : urcu_state) :
    Event.examine t s ∈ turn_events bits i w c ↔
      t ∈ c.list i ∧ s = urcu_qsbr_reader_state bits c.mem.gp_ctr (c.mem.reader t).ctr := by
  unfold turn_events
  rw [List.mem_append]
  constructor
  · rintro (h | h)
    · split at h
      · rcases List.mem_cons.1 h with h | h
        · cases h
        · obtain ⟨_, _, h⟩ := List.mem_map.1 h
          cases h
      · cases h
    · rcases List.mem_cons.1 h with h | h
      · cases h
      · obtain ⟨x, hx, h⟩ := List.mem_map.1 h
        injection h with h1 h2
        subst h1
        exact ⟨hx, h2.symm⟩
  · rintro ⟨ht, hs⟩
    right
    exact List.mem_cons_of_mem _ (List.mem_map.2 ⟨t, ht, by rw [hs]⟩)

theorem wfr_dest_arm (bits : Nat) (i : ListRef) (cur : Option ListRef) (qs : ListRef) (w : Nat)
    (c : Cfg) (t : Tid) :
    wfr_dest bits cur qs (wfr_arm i w c).2 t = wfr_dest bits cur qs c t := by
  unfold wfr_dest
  rw [wfr_arm_state]

/-- Membership in every list after the counting step and the scan of a turn. -/
theorem wfr_turn_list (bits : Nat) (i : ListRef) (cur : Option ListRef) (qs : ListRef)
    (w : Nat) (c : Cfg) (x : Tid) (ρ : ListRef) :
    x ∈ (wfr_scan bits i cur qs (wfr_arm i w c).2).list ρ ↔
      if x ∈ c.list i then
        (match wfr_dest bits cur qs c x with
          | some d => ρ = d
          | none => x ∈ c.list ρ)
      else x ∈ c.list ρ := by
  rw [wfr_scan_list, wfr_dest_arm, (wfr_arm_frame i w c).1, (wfr_arm_frame i w c).1]

theorem examined_congr {i : ListRef} {cur : Option ListRef} {c c₁ c₂ : Cfg}
    {evs evs' : List Event} (hl : ∀ r, c₂.list r = c₁.list r)
    (hev : ∀ t s, Event.examine t s ∈ evs' ↔ Event.examine t s ∈ evs)
    (h : Examined i cur c c₁ evs) : Examined i cur c c₂ evs' := by
  unfold Examined at h ⊢
  simp only [hl, hev]
  exact h

/-- One scan, seen from the examinations it logs. -/
theorem examined_turn (bits : Nat) {i : ListRef} {cur : Option ListRef} (qs : ListRef)
    (hc : cur ≠ some i) (hcq : cur ≠ some qs) {c c₁ : Cfg} {evs : List Event} (w : Nat)
    (hwf : ListsWF c₁) (hsub : ∀ t, t ∈ c₁.list i → t ∈ c.list i)
    (h : Examined i cur c c₁ evs) :
    Examined i cur c (wfr_scan bits i cur qs (wfr_arm i w c₁).2)
      (evs ++ turn_events bits i w c₁) ∧
    ∀ t, t ∈ (wfr_scan bits i cur qs (wfr_arm i w c₁).2).list i → t ∈ c.list i := by
  obtain ⟨hA, hB, hC⟩ := h
  have hl := wfr_turn_list bits i cur qs w c₁
  have hev := mem_turn_events_examine bits i w c₁
  refine ⟨⟨fun t s hm => ?_, fun t ht => ?_, fun l hcl t => ?_⟩, fun t ht => ?_⟩
  · rcases List.mem_append.1 hm with hm | hm
    · exact hA t s hm
    · exact hsub t ((hev t s).1 hm).1
  · rcases hB t ht with h₁ | ⟨s, hs, hne⟩
    · cases hst : urcu_qsbr_reader_state bits c₁.mem.gp_ctr (c₁.mem.reader t).ctr with
      | URCU_READER_ACTIVE_OLD =>
        left
        rw [hl, if_pos h₁]
        simp only [wfr_dest, hst]
        exact h₁
      | URCU_READER_ACTIVE_CURRENT =>
        right
        exact ⟨_, List.mem_append_right _ ((hev t _).2 ⟨h₁, hst.symm⟩), by simp⟩
      | URCU_READER_INACTIVE =>
        right
        exact ⟨_, List.mem_append_right _ ((hev t _).2 ⟨h₁, hst.symm⟩), by simp⟩
    · exact Or.inr ⟨s, List.mem_append_left _ hs, hne⟩
  · have hli : l ≠ i := fun hh => hc (hh ▸ hcl)
    have hlq : l ≠ qs := fun hh => hcq (hh ▸ hcl)
    rw [hl, List.mem_append, hev]
    by_cases hti : t ∈ c₁.list i
    · have hnl : t ∉ c₁.list l := fun hm => hli (hwf.2 t l i hm hti)
      have hnc : ¬ (t ∈ c.list l ∨ Event.examine t .URCU_READER_ACTIVE_CURRENT ∈ evs) :=
        fun hh => hnl ((hC l hcl t).2 hh)
      rw [if_pos hti]
      cases hst : urcu_qsbr_reader_state bits c₁.mem.gp_ctr (c₁.mem.reader t).ctr with
      | URCU_READER_ACTIVE_OLD =>
        simp only [wfr_dest, hst]
        constructor
        · intro hm; exact absurd hm hnl
        · rintro (hh | hh | ⟨_, hh⟩)
          · exact absurd (Or.inl hh) hnc
          · exact absurd (Or.inr hh) hnc
          · cases hh
      | URCU_READER_ACTIVE_CURRENT =>
        simp only [wfr_dest, hst, hcl, Option.getD_some]
        exact ⟨fun _ => Or.inr (Or.inr ⟨hti, by trivial⟩), fun _ => by trivial⟩
      | URCU_READER_INACTIVE =>
        simp only [wfr_dest, hst]
        constructor
        · intro hm; exact absurd hm hlq
        · rintro (hh | hh | ⟨_, hh⟩)
          · exact absurd (Or.inl hh) hnc
          · exact absurd (Or.inr hh) hnc
          · cases hh
    · rw [if_neg hti, hC l hcl t]
      constructor
      · rintro (hh | hh)
        · exact Or.inl hh
        · exact Or.inr (Or.inl hh)
      · rintro (hh | hh | ⟨hh, _⟩)
        · exact Or.inl hh
        · exact Or.inr hh
        · exact absurd hh hti
  · rw [hl] at ht
    by_cases hti : t ∈ c₁.list i
    · exact hsub t hti
    · rw [if_neg hti] at ht
      exact absurd ht hti

/-- When `wait_for_readers` returns, its log has examined only readers of
`input_readers`, each of them at least once with an outcome other than
ACTIVE_OLD, and the readers it has put in `cur_snap_readers` are those it has
examined ACTIVE_CURRENT. -/
theorem wait_for_readers_examined {bits : Nat} {env : Env} {fuel : Nat} {i : ListRef}
    {cur : Option ListRef} {qs : ListRef} {c r : Cfg}
    (hc : cur ≠ some i) (hcq : cur ≠ some qs) (he : EnvKeepsRegistry env)
    (hwf : ListsWF c) (h : wait_for_readers bits env fuel i cur qs c = .ok r) :
    ∃ evs, r.trace = c.trace ++ evs ∧
      (∀ t s, Event.examine t s ∈ evs → t ∈ c.list i) ∧
      (∀ t ∈ c.list i, ∃ s, Event.examine t s ∈ evs ∧ s ≠ .URCU_READER_ACTIVE_OLD) ∧
      (∀ l, cur = some l → ∀ t, t ∈ r.list l ↔
        (t ∈ c.list l ∨ Event.examine t .URCU_READER_ACTIVE_CURRENT ∈ evs)) := by
  have h₀ : Examined i cur c c [] :=
    ⟨fun t s hm => (by cases hm), fun t ht => Or.inl ht, fun l _ t => (by simp)⟩
  obtain ⟨w₀, c₀, ⟨hwf₀, hsub₀, evs, ht, hex⟩, hb⟩ := wfr_loop_last
    (fun _ c' => ListsWF c' ∧ (∀ t, t ∈ c'.list i → t ∈ c.list i) ∧
      ∃ evs, c'.trace = c.trace ++ evs ∧ Examined i cur c c' evs)
    (fun w c₁ w' c' hP hb => by
      obtain ⟨hwf₁, hsub₁, evs, ht, hex⟩ := hP
      obtain ⟨_, _, hc'⟩ := wfr_body_cont hb
      subst hc'
      obtain ⟨h1, _, h3⟩ := wfr_turn_lists bits i cur qs he w c₁ hwf₁
      obtain ⟨x1, x2⟩ := examined_turn bits qs hc hcq w hwf₁ hsub₁ hex
      obtain ⟨_, _, _, _, _, hpt⟩ := wfr_pause_rest env (wfr_arm i w c₁).1
        (wfr_scan bits i cur qs (wfr_arm i w c₁).2)
      refine ⟨listsWF_congr h3 h1, fun t hm => x2 t (by rw [← h3]; exact hm),
        (evs ++ turn_events bits i w c₁) ++ [.unlock .rcu_registry_lock,
          if (wfr_arm i w c₁).1 ≥ RCU_QS_ACTIVE_ATTEMPTS then .wait_gp else .cpu_relax,
          .lock .rcu_registry_lock], ?_, ?_⟩
      · rw [hpt, wfr_turn_trace, ht]
        simp only [List.append_assoc]
      · refine examined_congr h3 (fun t s => ?_) x1
        rw [List.mem_append]
        constructor
        · rintro (hm | hm)
          · exact hm
          · simp only [List.mem_cons, List.mem_singleton, List.not_mem_nil, or_false] at hm
            rcases hm with hm | hm | hm
            · cases hm
            · split at hm <;> cases hm
            · cases hm
        · exact fun hm => Or.inl hm)
    fuel 0 c r ⟨hwf, fun _ ht => ht, [], (List.append_nil _).symm, h₀⟩ h
  obtain ⟨hempty, hrr⟩ := wfr_body_brk hb
  obtain ⟨x1, _⟩ := examined_turn bits qs hc hcq w₀ hwf₀ hsub₀ hex
  have hst := wfr_turn_trace bits i cur qs w₀ c₀
  have hfin : ∃ evs', r.trace = c.trace ++ evs' ∧ Examined i cur c r evs' := by
    by_cases hs : (wfr_arm i w₀ c₀).1 ≥ RCU_QS_ACTIVE_ATTEMPTS
    · rw [if_pos hs] at hrr
      refine ⟨(evs ++ turn_events bits i w₀ c₀) ++ [.futex_store 0], ?_, ?_⟩
      · rw [hrr]
        show (wfr_scan bits i cur qs (wfr_arm i w₀ c₀).2).trace ++ [Event.futex_store 0] = _
        rw [hst, ht]
        simp only [List.append_assoc]
      · refine examined_congr (fun ρ => by rw [hrr]; exact uatomic_set_futex_list _ _ _)
          (fun t s => ?_) x1
        rw [List.mem_append]
        constructor
        · rintro (hm | hm)
          · exact hm
          · simp only [List.mem_singleton] at hm
            cases hm
        · exact fun hm => Or.inl hm
    · rw [if_neg hs] at hrr
      refine ⟨evs ++ turn_events bits i w₀ c₀, ?_, ?_⟩
      · rw [hrr, hst, ht]
        simp only [List.append_assoc]
      · rw [hrr]
        exact x1
  obtain ⟨evs', t', hA, hB, hC⟩ := hfin
  have hri : r.list i = [] := by
    rw [hrr]
    split
    · rw [uatomic_set_futex_list]; exact hempty
    · exact hempty
  refine ⟨evs', t', hA, fun t htm => ?_, hC⟩
  rcases hB t htm with h₁ | h₁
  · rw [hri] at h₁; cases h₁
  · exact h₁

theorem listsWF_of_empty_scratch {c : Cfg} (hn : c.mem.registry.Nodup)
    (hcs : c.cur_snap_readers = []) (hqs : c.qsreaders = []) : ListsWF c := by
  refine ⟨fun ρ => ?_, fun x r₁ r₂ h₁ h₂ => ?_⟩
  · cases ρ
    · exact hn
    · show c.cur_snap_readers.Nodup; rw [hcs]; exact List.nodup_nil
    · show c.qsreaders.Nodup; rw [hqs]; exact List.nodup_nil
  · cases r₁ <;> cases r₂ <;> simp_all [Cfg.list]

theorem xor_gp_ctr_ne (g : Nat) : g ^^^ URCU_QSBR_GP_CTR ≠ g := by
  intro heq
  have h3 : g ^^^ (g ^^^ URCU_QSBR_GP_CTR) = 0 := by
    rw [heq, Nat.xor_self]
  rw [Nat.xor_cancel_left] at h3
  cases h3

/-- The leader of the 32-bit build over a non-empty registry, when it returns:
the two waits, the one store between them, who is examined in each, and what
becomes of the global `ctr`. -/
theorem urcu_qsbr_synchronize_rcu_two_waits {bits : Nat} {env : Env} {fuel : Nat} {self : Tid}
    {c r : Cfg} (hb : bits < 64) (hw : c.mem.gp_waiters = []) (hne : c.mem.registry ≠ [])
    (hn : c.mem.registry.Nodup) (he : EnvKeepsRegistry env)
    (hc : EnvKeepsGpCtrFrom (c.clock + 1) env)
    (h : urcu_qsbr_synchronize_rcu bits env fuel self c = .ok r) :
    ∃ c₁ c₂ pre post,
      wait_for_readers bits env fuel .registry (some .cur_snap_readers) .qsreaders
        (leader_locked env self (sync_queued self c)) = .ok c₁ ∧
      wait_for_readers bits env fuel .cur_snap_readers none .qsreaders
        (store_gp_ctr (c₁.mem.gp_ctr ^^^ URCU_QSBR_GP_CTR) c₁) = .ok c₂ ∧
      c₂.cur_snap_readers = [] ∧
      c₁.mem.gp_ctr = (yield env (urcu_wait_set_state self .URCU_WAIT_RUNNING
        (sync_queued self c))).mem.gp_ctr ∧
      r.mem.gp_ctr = c₁.mem.gp_ctr ^^^ URCU_QSBR_GP_CTR ∧
      r.mem.gp_ctr ≠ c₁.mem.gp_ctr ∧
      ((∀ m, (env c.clock m).gp_ctr = m.gp_ctr) →
        r.mem.gp_ctr = c.mem.gp_ctr ^^^ URCU_QSBR_GP_CTR ∧ r.mem.gp_ctr ≠ c.mem.gp_ctr) ∧
      r.trace = c.trace ++ pre ++
        [.gp_ctr_store (c₁.mem.gp_ctr ^^^ URCU_QSBR_GP_CTR)] ++ post ∧
      Event.scan ∈ pre ∧ Event.scan ∈ post ∧
      (∀ e ∈ pre, ∀ v, e ≠ Event.gp_ctr_store v) ∧
      (∀ e ∈ post, ∀ v, e ≠ Event.gp_ctr_store v) ∧
      (∀ t s, Event.examine t s ∈ pre → t ∈ c.mem.registry) ∧
      (∀ t ∈ c.mem.registry,
        ∃ s, Event.examine t s ∈ pre ∧ s ≠ .URCU_READER_ACTIVE_OLD) ∧
      (∀ t, t ∈ c₁.cur_snap_readers ↔
        Event.examine t .URCU_READER_ACTIVE_CURRENT ∈ pre) ∧
      (∀ t s, Event.examine t s ∈ post → t ∈ c₁.cur_snap_readers) ∧
      (∀ t ∈ c₁.cur_snap_readers,
        ∃ s, Event.examine t s ∈ post ∧ s ≠ .URCU_READER_ACTIVE_OLD) := by
  obtain ⟨q1, _, _, _, _, q6, _, q8, q9, _, _, q12⟩ := sync_queued_frame self c
  obtain ⟨c₂', hr, hl | hl⟩ := urcu_qsbr_synchronize_rcu_ok h
  swap
  · exact absurd hw hl.1
  obtain ⟨_, _, c₃, h₃, _, _, hr₃⟩ := synchronize_rcu_leader_ok hl.2
  obtain ⟨l1, l2, l3⟩ := leader_locked_lists he self (sync_queued self c)
  have hne' : cds_list_empty .registry (leader_locked env self (sync_queued self c)) =
      false := by
    simp [cds_list_empty, Cfg.list, l1, q6, hne]
  rw [hne'] at h₃
  simp only [Bool.false_eq_true, if_false] at h₃
  obtain ⟨c₁, c₂, h₁, h₂, hsp⟩ := grace_period_two_waits hb h₃
  -- the lists
  have hwfL : ListsWF (leader_locked env self (sync_queued self c)) :=
    listsWF_of_empty_scratch (by rw [l1, q6]; exact hn) (l2.trans q8) (l3.trans q9)
  obtain ⟨_, hwf₁, _⟩ := wait_for_readers_lists (by decide) (by decide) he hwfL h₁
  have hwf₁' : ListsWF (store_gp_ctr (c₁.mem.gp_ctr ^^^ URCU_QSBR_GP_CTR) c₁) :=
    listsWF_congr (store_gp_ctr_list _ _) hwf₁
  obtain ⟨he₂, _, _⟩ := wait_for_readers_lists (by decide) (by decide) he hwf₁' h₂
  -- the counter
  have hLc : c.clock + 1 ≤ (leader_locked env self (sync_queued self c)).clock := by
    show c.clock + 1 ≤ (sync_queued self c).clock + 1 + 1
    rw [q12]
    omega
  have hLg : (leader_locked env self (sync_queued self c)).mem.gp_ctr =
      (yield env (urcu_wait_set_state self .URCU_WAIT_RUNNING
        (sync_queued self c))).mem.gp_ctr := by
    unfold leader_locked
    exact hc _ _ (by show c.clock + 1 ≤ (sync_queued self c).clock + 1; rw [q12])
  obtain ⟨g₁, k₁⟩ := wait_for_readers_gp_ctr_from hc hLc h₁
  have k₁' : c.clock + 1 ≤ (store_gp_ctr (c₁.mem.gp_ctr ^^^ URCU_QSBR_GP_CTR) c₁).clock := k₁
  obtain ⟨g₂, _⟩ := wait_for_readers_gp_ctr_from hc k₁' h₂
  have hrg : r.mem.gp_ctr = c₁.mem.gp_ctr ^^^ URCU_QSBR_GP_CTR := by
    rw [hr, (gp_end_frame _ self c₂').1, hr₃, (leader_release_frame c₃).1, hsp,
      (cds_list_splice_frame _ _ c₂).1, g₂]
    rfl
  -- the logs
  obtain ⟨e₁, t₁, n₁, s₁⟩ := wait_for_readers_trace no_gp_ctr_store_turn (fun _ => True)
    (fun _ _ _ => trivial) (fun _ _ => trivial) (fun _ _ _ => trivial)
    (fun _ _ _ _ => rfl) trivial h₁
  obtain ⟨e₂, t₂, n₂, s₂⟩ := wait_for_readers_trace no_gp_ctr_store_turn (fun _ => True)
    (fun _ _ _ => trivial) (fun _ _ => trivial) (fun _ _ _ => trivial)
    (fun _ _ _ _ => rfl) trivial h₂
  obtain ⟨e₁', t₁', a₁, b₁, d₁⟩ := wait_for_readers_examined (by decide) (by decide) he hwfL h₁
  obtain ⟨e₂', t₂', a₂, b₂, _⟩ := wait_for_readers_examined (by decide) (by decide) he hwf₁' h₂
  have x₁ : e₁' = e₁ := List.append_cancel_left (t₁'.symm.trans t₁)
  have x₂ : e₂' = e₂ := List.append_cancel_left (t₂'.symm.trans t₂)
  subst x₁
  subst x₂
  obtain ⟨evq, tq, hq⟩ := sync_queued_trace self c
  obtain ⟨evr, tr, hrel⟩ := leader_release_trace c₃
  have hpre : ∀ t s, Event.examine t s ∈
      evq ++ [.lock .rcu_gp_lock, .lock .rcu_registry_lock] ++ e₁' ↔
      Event.examine t s ∈ e₁' := by
    intro t s
    constructor
    · intro hm
      rcases List.mem_append.1 hm with hm | hm
      · rcases List.mem_append.1 hm with hm | hm
        · have := hq _ hm
          cases this
        · simp at hm
      · exact hm
    · exact fun hm => List.mem_append_right _ hm
  have hpost : ∀ t s, Event.examine t s ∈
      e₂' ++ [.unlock .rcu_registry_lock, .unlock .rcu_gp_lock] ++ evr ↔
      Event.examine t s ∈ e₂' := by
    intro t s
    constructor
    · intro hm
      rcases List.mem_append.1 hm with hm | hm
      · rcases List.mem_append.1 hm with hm | hm
        · exact hm
        · simp at hm
      · obtain ⟨u, hu⟩ := hrel _ hm
        cases hu
    · exact fun hm => List.mem_append_left _ (List.mem_append_left _ hm)
  refine ⟨c₁, c₂, evq ++ [.lock .rcu_gp_lock, .lock .rcu_registry_lock] ++ e₁',
    e₂' ++ [.unlock .rcu_registry_lock, .unlock .rcu_gp_lock] ++ evr, h₁, h₂, he₂,
    g₁.trans hLg, hrg, ?_, ?_, ?_, List.mem_append_right _ s₁,
    List.mem_append_left _ (List.mem_append_left _ s₂), ?_, ?_, ?_, ?_, ?_, ?_, ?_⟩
  · rw [hrg]
    exact xor_gp_ctr_ne _
  · intro hfirst
    have hg : c₁.mem.gp_ctr = c.mem.gp_ctr := by
      rw [g₁, hLg, ← q1]
      show (env (sync_queued self c).clock _).gp_ctr = _
      rw [q12, hfirst]
      rfl
    rw [hrg, hg]
    exact ⟨rfl, xor_gp_ctr_ne _⟩
  · rw [hr, (gp_end_frame _ self c₂').2.2.2.2.2.2.2.2.1, hr₃, tr, hsp,
      (cds_list_splice_frame _ _ c₂).2.2.2.2.2.2.2.2.2, t₂']
    show ((c₁.trace ++ [Event.gp_ctr_store (c₁.mem.gp_ctr ^^^ URCU_QSBR_GP_CTR)]) ++ e₂') ++ _
      ++ evr = _
    rw [t₁', leader_locked_trace, tq]
    simp only [List.append_assoc]
  · intro e hm v
    rcases List.mem_append.1 hm with hm | hm
    · rcases List.mem_append.1 hm with hm | hm
      · rw [hq e hm]; simp
      · simp at hm; rcases hm with hm | hm <;> (rw [hm]; simp)
    · exact check_no_gp_ctr_store e₁' n₁ e hm v
  · intro e hm v
    rcases List.mem_append.1 hm with hm | hm
    · rcases List.mem_append.1 hm with hm | hm
      · exact check_no_gp_ctr_store e₂' n₂ e hm v
      · simp at hm; rcases hm with hm | hm <;> (rw [hm]; simp)
    · obtain ⟨t, ht⟩ := hrel e hm
      rw [ht]; simp
  · intro t s hm
    have := a₁ t s ((hpre t s).1 hm)
    rw [← q6, ← l1]
    exact this
  · intro t ht
    have ht' : t ∈ (leader_locked env self (sync_queued self c)).list .registry := by
      show t ∈ (leader_locked env self (sync_queued self c)).mem.registry
      rw [l1, q6]
      exact ht
    obtain ⟨s, hs, hne⟩ := b₁ t ht'
    exact ⟨s, (hpre t s).2 hs, hne⟩
  · intro t
    rw [hpre]
    have := d₁ .cur_snap_readers rfl t
    have hnil : (leader_locked env self (sync_queued self c)).list .cur_snap_readers = [] :=
      l2.trans q8
    rw [hnil] at this
    simpa using this
  · intro t s hm
    exact a₂ t s ((hpost t s).1 hm)
  · intro t ht
    obtain ⟨s, hs, hne⟩ := b₂ t ht
    exact ⟨s, (hpost t s).2 hs, hne⟩

/-! ## Counting the turns of `wait_for_readers` -/

theorem wfr_after_counter {bits : Nat} {env : Env} {i : ListRef} {cur : Option ListRef}
    {qs : ListRef} : ∀ (n w₀ : Nat) (c₀ : Cfg) (w : Nat) (c : Cfg),
    w₀ ≤ RCU_QS_ACTIVE_ATTEMPTS → wfr_after bits env i cur qs n w₀ c₀ = some (w, c) →
    w = min (w₀ + n) RCU_QS_ACTIVE_ATTEMPTS := by
  intro n
  induction n with
  | zero =>
    intro w₀ c₀ w c hw h
    simp only [wfr_after, Option.some.injEq, Prod.mk.injEq] at h
    rw [← h.1, Nat.add_zero, Nat.min_eq_left hw]
  | succ n ih =>
    intro w₀ c₀ w c hw h
    unfold wfr_after at h
    split at h
    · rename_i w' c' hb
      obtain ⟨_, hw', _⟩ := wfr_body_cont hb
      rw [wfr_arm_fst] at hw'
      have hle : w' ≤ RCU_QS_ACTIVE_ATTEMPTS := by
        rw [hw']; split <;> omega
      rw [ih w' c' w c hle h, hw']
      unfold RCU_QS_ACTIVE_ATTEMPTS at hw ⊢
      split <;> omega
    · cases h

theorem wfr_loop_after {bits : Nat} {env : Env} {i : ListRef} {cur : Option ListRef}
    {qs : ListRef} : ∀ (fuel w₀ : Nat) (c₀ r : Cfg),
    wfr_loop bits env i cur qs fuel w₀ c₀ = .ok r →
    ∃ n w c, n < fuel ∧ wfr_after bits env i cur qs n w₀ c₀ = some (w, c) ∧
      wfr_body bits env i cur qs w c = .ok (.brk r) := by
  intro fuel
  induction fuel with
  | zero => intro w₀ c₀ r h; simp [wfr_loop] at h
  | succ f ih =>
    intro w₀ c₀ r h
    unfold wfr_loop at h
    split at h
    · cases h
    · rename_i c' hb
      injection h with h
      subst h
      exact ⟨0, w₀, c₀, Nat.succ_pos _, rfl, hb⟩
    · rename_i w' c' hb
      obtain ⟨n, w, c, hn, ha, hbrk⟩ := ih w' c' r h
      refine ⟨n + 1, w, c, Nat.succ_lt_succ hn, ?_, hbrk⟩
      unfold wfr_after
      rw [hb]
      exact ha

/-! ## Facts about the concrete inputs -/

theorem env_quiesce_keeps_registry : EnvKeepsRegistry env_quiesce :=
  fun _ _ => rfl

theorem cfg_three_readers_wf : ListsWF cfg_three_readers := by
  refine ⟨fun r => by cases r <;> decide, fun x r₁ r₂ h₁ h₂ => ?_⟩
  cases r₁ <;> cases r₂ <;>
    simp [cfg_three_readers, mem_three_readers, Cfg.list] at h₁ h₂ ⊢

theorem env_quiesce_reader_side : ReaderSideEnv env_quiesce :=
  ⟨fun _ _ => rfl, fun _ _ _ => rfl, fun _ _ => rfl⟩

theorem cfg_two_registered_reachable (bits : Nat) : Reachable bits cfg_two_registered :=
  Reachable.register_thread env_quiesce 2
    (Reachable.register_thread env_quiesce 1 Reachable.init env_quiesce_reader_side rfl)
    env_quiesce_reader_side rfl

theorem cfg_two_synced_eq :
    urcu_qsbr_synchronize_rcu 64 env_quiesce 2 1 cfg_two_registered = .ok cfg_two_synced := by
  rfl

/-- C9.  Let the loop of `wait_for_readers` be at the top of its turn `n + 1`,
after `n` unsuccessful scans.  The loop counter is `min n 100`.  If
`n + 1 < 100`, the turn stores nothing before its scan (the counting step is the
identity on the configuration), the scan leaves the futex and every reader
record alone, an unsuccessful scan is followed by unlock, the CPU-relax hint,
lock, and a successful one by the return of the scanned configuration.  From
`n + 1 = 100` on, the counter is 100, the turn stores -1 to the futex and 1 to
the `waiting` flag of every reader in `input_readers` before its scan, an
unsuccessful scan is followed by unlock, `wait_gp`, lock, and a successful one
by the store of 0 to the futex.  So the first `wait_gp` follows the hundredth
unsuccessful scan.  Every return of `wait_for_readers` is the successful scan
of such a turn. -/
theorem spin_then_futex (bits : Nat) (env : Env) (i : ListRef) (cur : Option ListRef)
    (qs : ListRef) (c₀ : Cfg) (n w : Nat) (c : Cfg)
    (h : wfr_after bits env i cur qs n 0 c₀ = some (w, c)) :
    w = min n RCU_QS_ACTIVE_ATTEMPTS ∧
    (n + 1 < RCU_QS_ACTIVE_ATTEMPTS →
      wfr_arm i w c = (n + 1, c) ∧
      (wfr_scan bits i cur qs c).mem.gp_futex = c.mem.gp_futex ∧
      (wfr_scan bits i cur qs c).mem.reader = c.mem.reader ∧
      (∀ w' c', wfr_body bits env i cur qs w c = .ok (.cont w' c') →
        w' = n + 1 ∧
        c'.trace = (wfr_scan bits i cur qs c).trace ++
          [.unlock .rcu_registry_lock, .cpu_relax, .lock .rcu_registry_lock]) ∧
      (∀ r, wfr_body bits env i cur qs w c = .ok (.brk r) → r = wfr_scan bits i cur qs c)) ∧
    (RCU_QS_ACTIVE_ATTEMPTS ≤ n + 1 →
      (wfr_arm i w c).1 = RCU_QS_ACTIVE_ATTEMPTS ∧
      (wfr_arm i w c).2.mem.gp_futex = -1 ∧
      (∀ t ∈ c.list i, ((wfr_arm i w c).2.mem.reader t).waiting = 1) ∧
      (wfr_arm i w c).2.trace =
        c.trace ++ Event.futex_store (-1) :: (c.list i).map Event.waiting_store ∧
      (∀ w' c', wfr_body bits env i cur qs w c = .ok (.cont w' c') →
        w' = RCU_QS_ACTIVE_ATTEMPTS ∧
        c'.trace = (wfr_scan bits i cur qs (wfr_arm i w c).2).trace ++
          [.unlock .rcu_registry_lock, .wait_gp, .lock .rcu_registry_lock]) ∧
      (∀ r, wfr_body bits env i cur qs w c = .ok (.brk r) →
        r.mem.gp_futex = 0 ∧
        r.trace = (wfr_scan bits i cur qs (wfr_arm i w c).2).trace ++ [.futex_store 0])) ∧
    (∀ fuel r, wait_for_readers bits env fuel i cur qs c₀ = .ok r →
      ∃ n' w' c', n' < fuel ∧ wfr_after bits env i cur qs n' 0 c₀ = some (w', c') ∧
        wfr_body bits env i cur qs w' c' = .ok (.brk r)) := by
  have hw : w = min n RCU_QS_ACTIVE_ATTEMPTS := by
    have := wfr_after_counter n 0 c₀ w c (Nat.zero_le _) h
    rwa [Nat.zero_add] at this
  have hfst := wfr_arm_fst i w c
  refine ⟨hw, fun hn => ?_, fun hn => ?_, fun fuel r hr => wfr_loop_after fuel 0 c₀ r hr⟩
  · have hwn : w = n := by rw [hw]; exact Nat.min_eq_left (by omega)
    have h1 : (wfr_arm i w c).1 = n + 1 := by
      rw [hfst, if_pos (by omega), hwn]
    have h2 : (wfr_arm i w c).2 = c := wfr_arm_spin i w c (by omega)
    refine ⟨Prod.ext h1 h2, (wfr_scan_mem bits i cur qs c).2.1,
      (wfr_scan_mem bits i cur qs c).2.2.1, fun w' c' hb => ?_, fun r hb => ?_⟩
    · obtain ⟨_, hw', hc'⟩ := wfr_body_cont hb
      rw [h1] at hw' hc'
      rw [h2] at hc'
      refine ⟨hw', ?_⟩
      rw [hc', (wfr_pause_rest env (n + 1) _).2.2.2.2.2, if_neg (by omega)]
    · obtain ⟨_, hr⟩ := wfr_body_brk hb
      rw [h1, if_neg (by omega), h2] at hr
      exact hr
  · have h1 : (wfr_arm i w c).1 = RCU_QS_ACTIVE_ATTEMPTS := by
      rw [hfst, hw]
      unfold RCU_QS_ACTIVE_ATTEMPTS at hn ⊢
      split <;> omega
    have h2 := wfr_arm_saturated i w c (by omega)
    refine ⟨h1, by rw [h2], fun t ht => by rw [h2]; simp [ht], by rw [h2],
      fun w' c' hb => ?_, fun r hb => ?_⟩
    · obtain ⟨_, hw', hc'⟩ := wfr_body_cont hb
      refine ⟨hw'.trans h1, ?_⟩
      rw [hc', (wfr_pause_rest env _ _).2.2.2.2.2, if_pos (by omega)]
    · obtain ⟨_, hr⟩ := wfr_body_brk hb
      rw [if_pos (by omega)] at hr
      rw [hr]
      exact ⟨rfl, rfl⟩

set_option maxRecDepth 100000 in
/-- C9 at a concrete input: reader 3 of `cfg_three_readers` stays stalled; after
100 unsuccessful scans the counter is 100, turn 101 arms the futex before its
scan, and when reader 3 quiesces after the writer's 105th blocking point,
`wait_for_readers` returns having waited 99 times by the CPU-relax hint, then
by `wait_gp`, and having stored 0 to the futex. -/
theorem spin_then_futex_witness :
    wfr_after 64 env_stalled .registry none .qsreaders 100 0 cfg_three_readers =
      some (100, cfg_after_100_scans) ∧
    100 = min 100 RCU_QS_ACTIVE_ATTEMPTS ∧
    cfg_after_100_scans.trace.filter (fun e => e = .cpu_relax ∨ e = .wait_gp) =
      List.replicate 99 .cpu_relax ++ [.wait_gp] ∧
    (wfr_arm .registry 100 cfg_after_100_scans).2.mem.gp_futex = -1 ∧
    ((wfr_arm .registry 100 cfg_after_100_scans).2.mem.reader 3).waiting = 1 ∧
    wait_for_readers 64 (env_resume_at 105) 200 .registry none .qsreaders cfg_three_readers =
      .ok cfg_after_futex_wait ∧
    cfg_after_futex_wait.mem.gp_futex = 0 ∧
    cfg_after_futex_wait.trace.filter (fun e => e = .cpu_relax ∨ e = .wait_gp) =
      List.replicate 99 .cpu_relax ++ List.replicate 4 .wait_gp :=
  ⟨rfl,
    (spin_then_futex 64 env_stalled .registry none .qsreaders cfg_three_readers 100 100
      cfg_after_100_scans rfl).1,
    by decide,
    ((spin_then_futex 64 env_stalled .registry none .qsreaders cfg_three_readers 100 100
      cfg_after_100_scans rfl).2.2.1 (by decide)).2.1,
    ((spin_then_futex 64 env_stalled .registry none .qsreaders cfg_three_readers 100 100
      cfg_after_100_scans rfl).2.2.1 (by decide)).2.2.1 3 (by decide),
    rfl, by decide, by decide⟩

/-! ## C10: locking discipline -/

/-- C10.  The mutex operations are those of the source: `pthread_mutex_unlock`
returns 0 also for a caller that does not hold the mutex, so the discipline is
read off the log, by monitors that track the lock state, and it is stated of
every run, whether it returns or is still waiting when the fuel runs out.
`wait_for_readers`, called with `rcu_registry_lock` held, never aborts and never
blocks for ever on a mutex; its log passes `registry_rule` started with the lock
held (every scan and examination with the lock held, every wait, `wait_gp` or the
CPU-relax hint, with the lock released, no unlock of a released lock, no lock of
a held one), and it holds the lock when it returns and at the top of every
turn.  `urcu_qsbr_synchronize_rcu`, called holding neither mutex, never aborts and
never blocks for ever on a mutex; its log passes `nesting_rule` and
`registry_rule` started with nothing held (`rcu_registry_lock` is taken only
while `rcu_gp_lock` is held, `rcu_gp_lock` never while `rcu_registry_lock` is held,
no mutex is released that is not held), each monitor ending in the lock state
of the configuration the run ends in; and it returns with both mutexes
released.  A leader returns, two units of fuel sufficing, when the other readers
quiesce whenever it blocks. -/
theorem locking_discipline (bits : Nat) (env : Env) (self : Tid) (c : Cfg) :
    (∀ fuel i cur qs, c.holds_registry = true →
      in_order (wait_for_readers bits env fuel i cur qs c) = true ∧
      (final_cfg (wait_for_readers bits env fuel i cur qs c)).holds_registry = true ∧
      ∃ evs, (final_cfg (wait_for_readers bits env fuel i cur qs c)).trace = c.trace ++ evs ∧
        check_trace registry_rule true evs = some true) ∧
    (∀ fuel, c.holds_gp = false → c.holds_registry = false →
      in_order (urcu_qsbr_synchronize_rcu bits env fuel self c) = true ∧
      (∃ evs,
        (final_cfg (urcu_qsbr_synchronize_rcu bits env fuel self c)).trace = c.trace ++ evs ∧
        check_trace nesting_rule (false, false) evs =
          some ((final_cfg (urcu_qsbr_synchronize_rcu bits env fuel self c)).holds_gp,
            (final_cfg (urcu_qsbr_synchronize_rcu bits env fuel self c)).holds_registry) ∧
        check_trace registry_rule false evs =
          some (final_cfg (urcu_qsbr_synchronize_rcu bits env fuel self c)).holds_registry) ∧
      (∀ r, urcu_qsbr_synchronize_rcu bits env fuel self c = .ok r →
        r.holds_gp = false ∧ r.holds_registry = false)) ∧
    (c.holds_gp = false → c.holds_registry = false → c.mem.gp_waiters = [] →
      OthersQuiesce bits self env → EnvKeepsOwnCtr self env →
      ∀ fuel, ∃ r, urcu_qsbr_synchronize_rcu bits env (fuel + 2) self c = .ok r) := by
  refine ⟨fun fuel i cur qs hh => ?_, fun fuel hg hr => ?_, fun hg hr hw ho ho' fuel =>
    urcu_qsbr_synchronize_rcu_returns bits fuel self c hg hr hw ho ho'⟩
  · obtain ⟨h1, h2, _, h4⟩ := wfr_loop_outcome registry_rule_leader.turn (fun _ _ => rfl)
      bits env i cur qs fuel 0 c hh
    exact ⟨h1, h2, h4⟩
  · obtain ⟨n1, evs, s, n2, n3, n4⟩ := urcu_qsbr_synchronize_rcu_outcome nesting_rule_leader
      (fun _ _ => rfl) bits env fuel self c hg hr
    obtain ⟨_, evs', s', r2, r3, r4⟩ := urcu_qsbr_synchronize_rcu_outcome registry_rule_leader
      (fun _ _ => rfl) bits env fuel self c hg hr
    have : evs' = evs := List.append_cancel_left (r2.symm.trans n2)
    subst this
    refine ⟨n1, ⟨evs', n2, ?_, ?_⟩, fun r h => ?_⟩
    · rcases n4 with ⟨h1, h2, h3⟩ | ⟨h1, h2, h3, _⟩ <;> rw [n3, h1, h2, h3]
    · rcases r4 with ⟨h1, _, h3⟩ | ⟨h1, _, h3, _⟩ <;> rw [r3, h1, h3]
    · rcases n4 with ⟨_, h2, h3⟩ | ⟨_, _, _, h4⟩
      · rw [h] at h2 h3
        exact ⟨h2, h3⟩
      · exact absurd h (h4 r)

/-- C10 at concrete inputs.  The wait on the three readers of `cfg_three_readers`
while reader 3 stays stalled does not return within two turns: its log so far
passes the monitor and it holds the registry lock.  The grace period reader 1
leads over the registry `[2, 1]` returns with both mutexes released, and its log
passes both monitors. -/
theorem locking_discipline_witness :
    cfg_three_readers.holds_registry = true ∧
    (match wait_for_readers 64 env_stalled 2 .registry none .qsreaders cfg_three_readers with
      | .error (.out_of_fuel _) => true
      | _ => false) = true ∧
    (final_cfg (wait_for_readers 64 env_stalled 2 .registry none .qsreaders
      cfg_three_readers)).trace =
      [.scan, .examine 1 .URCU_READER_INACTIVE, .examine 2 .URCU_READER_ACTIVE_CURRENT,
        .examine 3 .URCU_READER_ACTIVE_OLD,
        .unlock .rcu_registry_lock, .cpu_relax, .lock .rcu_registry_lock,
        .scan, .examine 3 .URCU_READER_ACTIVE_OLD,
        .unlock .rcu_registry_lock, .cpu_relax, .lock .rcu_registry_lock] ∧
    (in_order (wait_for_readers 64 env_stalled 2 .registry none .qsreaders
        cfg_three_readers) = true ∧
      (final_cfg (wait_for_readers 64 env_stalled 2 .registry none .qsreaders
        cfg_three_readers)).holds_registry = true ∧
      ∃ evs, (final_cfg (wait_for_readers 64 env_stalled 2 .registry none .qsreaders
          cfg_three_readers)).trace = cfg_three_readers.trace ++ evs ∧
        check_trace registry_rule true evs = some true) ∧
    cfg_two_registered.holds_gp = false ∧ cfg_two_registered.holds_registry = false ∧
    urcu_qsbr_synchronize_rcu 64 env_quiesce 2 1 cfg_two_registered = .ok cfg_two_synced ∧
    cfg_two_synced.trace.drop cfg_two_registered.trace.length =
      [.lock .rcu_gp_lock, .lock .rcu_registry_lock, .gp_ctr_store 3, .scan,
        .examine 2 .URCU_READER_ACTIVE_OLD, .examine 1 .URCU_READER_INACTIVE,
        .unlock .rcu_registry_lock, .cpu_relax, .lock .rcu_registry_lock, .scan,
        .examine 2 .URCU_READER_ACTIVE_CURRENT,
        .unlock .rcu_registry_lock, .unlock .rcu_gp_lock] ∧
    in_order (urcu_qsbr_synchronize_rcu 64 env_quiesce 2 1 cfg_two_registered) = true ∧
    (∃ evs,
      (final_cfg (urcu_qsbr_synchronize_rcu 64 env_quiesce 2 1 cfg_two_registered)).trace =
        cfg_two_registered.trace ++ evs ∧
      check_trace nesting_rule (false, false) evs =
        some ((final_cfg (urcu_qsbr_synchronize_rcu 64 env_quiesce 2 1
            cfg_two_registered)).holds_gp,
          (final_cfg (urcu_qsbr_synchronize_rcu 64 env_quiesce 2 1
            cfg_two_registered)).holds_registry) ∧
      check_trace registry_rule false evs =
        some (final_cfg (urcu_qsbr_synchronize_rcu 64 env_quiesce 2 1
          cfg_two_registered)).holds_registry) ∧
    cfg_two_synced.holds_gp = false ∧ cfg_two_synced.holds_registry = false :=
  ⟨rfl, rfl, by decide,
    (locking_discipline 64 env_stalled 1 cfg_three_readers).1 2 .registry none .qsreaders rfl,
    rfl, rfl, cfg_two_synced_eq, by decide,
    ((locking_discipline 64 env_quiesce 1 cfg_two_registered).2.1 2 rfl rfl).1,
    ((locking_discipline 64 env_quiesce 1 cfg_two_registered).2.1 2 rfl rfl).2.1,
    (((locking_discipline 64 env_quiesce 1 cfg_two_registered).2.1 2 rfl rfl).2.2
      cfg_two_synced cfg_two_synced_eq).1,
    (((locking_discipline 64 env_quiesce 1 cfg_two_registered).2.1 2 rfl rfl).2.2
      cfg_two_synced cfg_two_synced_eq).2⟩

/-! ## C3: the 32-bit leader flips the parity bit once -/

/-- C3, as the code has it.  On a build with `CAA_BITS_PER_LONG < 64`, a caller that
leads over a non-empty registry flips the parity bit of the global `ctr` exactly
once, between two waits.  The first call of `wait_for_readers` is on the
registry, with `cur_snap_readers` as the list for the ACTIVE_CURRENT readers: its
part of the log, `pre`, has a scan and no store to the global `ctr`, examines
registered readers only, and each of them at least once with an outcome other
than ACTIVE_OLD.  Then comes the one store, of `ctr ^ URCU_QSBR_GP_CTR`, where `ctr`
is the global `ctr` the caller found when it had taken `rcu_gp_lock`.  The second
call of `wait_for_readers` is on `cur_snap_readers`, which holds exactly the
readers the first wait examined ACTIVE_CURRENT: its part of the log, `post`, has a
scan and no store, examines those readers only, each of them at least once with
an outcome other than ACTIVE_OLD, and leaves `cur_snap_readers` empty.  So the
global `ctr` on return is the `ctr` the caller found with the parity bit flipped,
not that `ctr`; and when no other leader's store lands while the caller waits for
`rcu_gp_lock`, it is the `ctr` on entry with the parity bit flipped, not the `ctr`
on entry.  The call returns, two units of fuel sufficing, when the caller holds
no mutex and the other readers quiesce whenever it blocks.  The other threads
are relied on to leave the registry alone and, once the caller holds
`rcu_gp_lock` (from its second blocking point on), the global `ctr`; the registry
is relied on to link each node once. -/
theorem two_subphase_flips_once (bits : Nat) (env : Env) (self : Tid) (c : Cfg)
    (hb : bits < 64) (hw : c.mem.gp_waiters = []) (hne : c.mem.registry ≠ [])
    (hn : c.mem.registry.Nodup) (he : EnvKeepsRegistry env)
    (hc : EnvKeepsGpCtrFrom (c.clock + 1) env) :
    (∀ fuel r, urcu_qsbr_synchronize_rcu bits env fuel self c = .ok r →
      ∃ c₁ c₂ pre post,
        wait_for_readers bits env fuel .registry (some .cur_snap_readers) .qsreaders
          (leader_locked env self (sync_queued self c)) = .ok c₁ ∧
        wait_for_readers bits env fuel .cur_snap_readers none .qsreaders
          (store_gp_ctr (c₁.mem.gp_ctr ^^^ URCU_QSBR_GP_CTR) c₁) = .ok c₂ ∧
        c₂.cur_snap_readers = [] ∧
        c₁.mem.gp_ctr = (yield env (urcu_wait_set_state self .URCU_WAIT_RUNNING
          (sync_queued self c))).mem.gp_ctr ∧
        r.mem.gp_ctr = c₁.mem.gp_ctr ^^^ URCU_QSBR_GP_CTR ∧
        r.mem.gp_ctr ≠ c₁.mem.gp_ctr ∧
        ((∀ m, (env c.clock m).gp_ctr = m.gp_ctr) →
          r.mem.gp_ctr = c.mem.gp_ctr ^^^ URCU_QSBR_GP_CTR ∧ r.mem.gp_ctr ≠ c.mem.gp_ctr) ∧
        r.trace = c.trace ++ pre ++
          [.gp_ctr_store (c₁.mem.gp_ctr ^^^ URCU_QSBR_GP_CTR)] ++ post ∧
        Event.scan ∈ pre ∧ Event.scan ∈ post ∧
        (∀ e ∈ pre, ∀ v, e ≠ Event.gp_ctr_store v) ∧
        (∀ e ∈ post, ∀ v, e ≠ Event.gp_ctr_store v) ∧
        (∀ t s, Event.examine t s ∈ pre → t ∈ c.mem.registry) ∧
        (∀ t ∈ c.mem.registry,
          ∃ s, Event.examine t s ∈ pre ∧ s ≠ .URCU_READER_ACTIVE_OLD) ∧
        (∀ t, t ∈ c₁.cur_snap_readers ↔
          Event.examine t .URCU_READER_ACTIVE_CURRENT ∈ pre) ∧
        (∀ t s, Event.examine t s ∈ post → t ∈ c₁.cur_snap_readers) ∧
        (∀ t ∈ c₁.cur_snap_readers,
          ∃ s, Event.examine t s ∈ post ∧ s ≠ .URCU_READER_ACTIVE_OLD)) ∧
    (c.holds_gp = false → c.holds_registry = false → OthersQuiesce bits self env →
      EnvKeepsOwnCtr self env →
      ∀ fuel, ∃ r, urcu_qsbr_synchronize_rcu bits env (fuel + 2) self c = .ok r) := by
  refine ⟨fun fuel r h => ?_, fun hg hr ho ho' fuel =>
    urcu_qsbr_synchronize_rcu_returns bits fuel self c hg hr hw ho ho'⟩
  obtain ⟨c₁, c₂, pre, post, hall⟩ := urcu_qsbr_synchronize_rcu_two_waits hb hw hne hn he hc h
  exact ⟨c₁, c₂, pre, post, hall⟩

/-- C3, as stated, fails: on the 32-bit build reader 1 leads a grace
period over the registry `[2, 1]` with the global `ctr` at 1, and returns with the
global `ctr` at 3, having stored to it once, between its first and its second
wait. -/
theorem two_subphase_ctr_not_restored :
    urcu_qsbr_synchronize_rcu 32 env_quiesce 2 1 cfg_two_registered = .ok cfg_two_synced32 ∧
    cfg_two_registered.mem.gp_waiters = [] ∧
    cfg_two_registered.mem.registry = [2, 1] ∧
    cfg_two_registered.mem.gp_ctr = 1 ∧
    cfg_two_synced32.mem.gp_ctr = 3 ∧
    cfg_two_synced32.mem.gp_ctr ≠ cfg_two_registered.mem.gp_ctr ∧
    cfg_two_synced32.trace.filter
      (fun e => match e with | .gp_ctr_store _ => true | _ => false) =
      [.gp_ctr_store 3] ∧
    cfg_two_synced32.trace.drop cfg_two_registered.trace.length =
      [.lock .rcu_gp_lock, .lock .rcu_registry_lock, .scan,
        .examine 2 .URCU_READER_ACTIVE_CURRENT, .examine 1 .URCU_READER_INACTIVE,
        .gp_ctr_store 3, .scan, .examine 2 .URCU_READER_ACTIVE_OLD,
        .unlock .rcu_registry_lock, .cpu_relax, .lock .rcu_registry_lock, .scan,
        .examine 2 .URCU_READER_ACTIVE_CURRENT,
        .unlock .rcu_registry_lock, .unlock .rcu_gp_lock] :=
  ⟨rfl, rfl, by decide, by decide, by decide, by decide, by decide, by decide⟩

/-- C3 as amended, at the same input, and at the same input with another leader
ahead of the caller: there the other leader's flip lands while the caller waits
for `rcu_gp_lock`, the caller finds the global `ctr` at 3 and returns with it at
1. -/
theorem two_subphase_flips_once_witness :
    (32 < 64) ∧ cfg_two_registered.mem.gp_waiters = [] ∧
    cfg_two_registered.mem.registry ≠ [] ∧ cfg_two_registered.mem.registry.Nodup ∧
    EnvKeepsRegistry env_quiesce ∧
    EnvKeepsGpCtrFrom (cfg_two_registered.clock + 1) env_quiesce ∧
    EnvKeepsRegistry env_behind_leader ∧
    EnvKeepsGpCtrFrom (cfg_two_registered.clock + 1) env_behind_leader ∧
    urcu_qsbr_synchronize_rcu 32 env_quiesce 2 1 cfg_two_registered = .ok cfg_two_synced32 ∧
    urcu_qsbr_synchronize_rcu 32 env_behind_leader 2 1 cfg_two_registered =
      .ok cfg_two_synced32_behind ∧
    (∃ (c₁ : Cfg) (pre post : List Event),
      c₁.mem.gp_ctr = 1 ∧
      cfg_two_synced32.mem.gp_ctr = c₁.mem.gp_ctr ^^^ URCU_QSBR_GP_CTR ∧
      cfg_two_synced32.mem.gp_ctr ≠ cfg_two_registered.mem.gp_ctr ∧
      cfg_two_synced32.trace = cfg_two_registered.trace ++ pre ++
        [.gp_ctr_store (c₁.mem.gp_ctr ^^^ URCU_QSBR_GP_CTR)] ++ post ∧
      (∀ t, t ∈ c₁.cur_snap_readers ↔
        Event.examine t .URCU_READER_ACTIVE_CURRENT ∈ pre) ∧
      (∀ t s, Event.examine t s ∈ post → t ∈ c₁.cur_snap_readers) ∧
      (∀ t ∈ c₁.cur_snap_readers,
        ∃ s, Event.examine t s ∈ post ∧ s ≠ .URCU_READER_ACTIVE_OLD)) ∧
    (∃ c₁ : Cfg,
      c₁.mem.gp_ctr = 3 ∧
      cfg_two_synced32_behind.mem.gp_ctr = c₁.mem.gp_ctr ^^^ URCU_QSBR_GP_CTR ∧
      cfg_two_synced32_behind.mem.gp_ctr = cfg_two_registered.mem.gp_ctr) := by
  have hq : EnvKeepsGpCtrFrom (cfg_two_registered.clock + 1) env_quiesce :=
    fun _ _ _ => rfl
  have hbl : EnvKeepsGpCtrFrom (cfg_two_registered.clock + 1) env_behind_leader := by
    intro k m hk
    have hk' : 3 ≤ k := hk
    have : k ≠ 2 := by omega
    simp [env_behind_leader, this, env_quiesce]
  have hbr : EnvKeepsRegistry env_behind_leader := by
    intro k m
    unfold env_behind_leader
    split <;> rfl
  obtain ⟨c₁, _, pre, post, _, _, _, a4, a5, _, a7, a8, _, _, _, _, _, _, a15, a16, a17⟩ :=
    (two_subphase_flips_once 32 env_quiesce 1 cfg_two_registered (by decide) rfl (by decide)
      (by decide) env_quiesce_reader_side.1 hq).1 2 cfg_two_synced32 rfl
  obtain ⟨d₁, _, _, _, _, _, _, b4, b5, _⟩ :=
    (two_subphase_flips_once 32 env_behind_leader 1 cfg_two_registered (by decide) rfl
      (by decide) (by decide) hbr hbl).1 2 cfg_two_synced32_behind rfl
  refine ⟨by decide, rfl, by decide, by decide, env_quiesce_reader_side.1, hq, hbr, hbl, rfl,
    rfl, ⟨c₁, pre, post, ?_, a5, (a7 (fun _ => rfl)).2, a8, a15, a16, a17⟩,
    ⟨d₁, ?_, b5, by decide⟩⟩
  · rw [a4]; decide
  · rw [b4]; decide

/-! ## C4: registry consistency -/

/-- C4.  In every configuration reached from the load-time state by
`register_thread`, `unregister_thread` and `synchronize_rcu` (and the reader-side
calls), a thread's reader record is linked in the registry if and only if its
`registered` flag is true, and it is linked once.  From such a configuration
`synchronize_rcu` returns with the registry a permutation of what it was, its
scratch lists empty and every `registered` flag as it was. -/
theorem registry_consistency (bits : Nat) (c : Cfg) (h : Reachable bits c) :
    (∀ t, t ∈ c.mem.registry ↔ (c.mem.reader t).registered = true) ∧
    c.mem.registry.Nodup ∧
    ∀ env fuel self r, ReaderSideEnv env →
      urcu_qsbr_synchronize_rcu bits env fuel self c = .ok r →
      r.mem.registry.Perm c.mem.registry ∧ r.cur_snap_readers = [] ∧ r.qsreaders = [] ∧
      ∀ t, (r.mem.reader t).registered = (c.mem.reader t).registered := by
  obtain ⟨h1, h2⟩ := reachable_registry_consistent h
  refine ⟨h1, h2, fun env fuel self r he hr => ?_⟩
  obtain ⟨g1, g2, g3, g4⟩ := urcu_qsbr_synchronize_rcu_registry he.1 h2 hr
  exact ⟨(List.perm_ext_iff_of_nodup g1 h2).2 g2, g3, g4,
    urcu_qsbr_synchronize_rcu_inv (registered_stable bits env self he.2.1 _) (fun _ => rfl) hr⟩

/-- C4 at a concrete input: after two registrations, a grace period led by
reader 1 on a 64-bit build leaves both readers in the registry. -/
theorem registry_consistency_witness :
    Reachable 64 cfg_two_registered ∧ cfg_two_registered.mem.registry = [2, 1] ∧
    cfg_two_synced.mem.registry = [2, 1] ∧
    cfg_two_synced.mem.registry.Perm cfg_two_registered.mem.registry ∧
    (3 ∈ cfg_two_registered.mem.registry ↔
      (cfg_two_registered.mem.reader 3).registered = true) :=
  ⟨cfg_two_registered_reachable 64, by decide, by decide,
    ((registry_consistency 64 cfg_two_registered (cfg_two_registered_reachable 64)).2.2
      env_quiesce 2 1 cfg_two_synced env_quiesce_reader_side cfg_two_synced_eq).1,
    (registry_consistency 64 cfg_two_registered (cfg_two_registered_reachable 64)).1 3⟩

/-! ## C5: a reader that calls `synchronize_rcu` does not wait on itself -/

/-- C5.  While the other threads do not write the caller's `ctr` and keep the
global `ctr` odd: whenever `urcu_qsbr_synchronize_rcu` returns, on the leader
path or on the path that waits for a leader, the caller was offline for as long
as anyone could scan the registry.  Every shared memory the other threads were
handed at a blocking point of the call (the two mutex acquisitions and the
pauses of `wait_for_readers` on the leader path, the turns of the busy wait on
the waiter node on the other path) shows the caller's `ctr` at 0; and every
examination of the caller that the call itself logged classified it INACTIVE.
A caller that was online on entry is online on return, its `ctr` holding the
global `ctr` of that moment; a caller that was offline on entry is offline on
return.  The grace period does not wait on the caller: a leader that holds no
mutex returns, two units of fuel sufficing, when the other readers quiesce
whenever it blocks, and a caller queued behind a leader returns when that leader
wakes it.  A call that has not returned yet, of a caller that holds no mutex,
has shown the other threads the caller's `ctr` at 0 at every blocking point so
far. -/
theorem self_wait_freedom (bits : Nat) (env : Env) (self : Tid) (c : Cfg)
    (he : EnvKeepsOwnCtr self env) (hodd : c.mem.gp_ctr % 2 = 1) (hgo : EnvKeepsGpOdd env) :
    (∀ fuel r, urcu_qsbr_synchronize_rcu bits env fuel self c = .ok r →
      (∃ ms, r.seen = c.seen ++ ms ∧ ∀ m ∈ ms, (m.reader self).ctr = 0) ∧
      (∃ evs, r.trace = c.trace ++ evs ∧
        ∀ s, Event.examine self s ∈ evs → s = .URCU_READER_INACTIVE) ∧
      (urcu_qsbr_read_ongoing self c = true →
        urcu_qsbr_read_ongoing self r = true ∧ (r.mem.reader self).ctr = r.mem.gp_ctr) ∧
      (urcu_qsbr_read_ongoing self c = false → urcu_qsbr_read_ongoing self r = false)) ∧
    (c.holds_gp = false → c.holds_registry = false → c.mem.gp_waiters = [] →
      OthersQuiesce bits self env →
      ∀ fuel, ∃ r, urcu_qsbr_synchronize_rcu bits env (fuel + 2) self c = .ok r) ∧
    (c.mem.gp_waiters ≠ [] → LeaderWakes self env →
      ∀ fuel, ∃ r, urcu_qsbr_synchronize_rcu bits env (fuel + 2) self c = .ok r) ∧
    (c.holds_gp = false → c.holds_registry = false →
      ∀ fuel, ∃ ms,
        (final_cfg (urcu_qsbr_synchronize_rcu bits env fuel self c)).seen = c.seen ++ ms ∧
        ∀ m ∈ ms, (m.reader self).ctr = 0) := by
  refine ⟨fun fuel r h => ⟨urcu_qsbr_synchronize_rcu_seen he h, ?_, fun hon => ?_,
      fun hoff => ?_⟩,
    fun hg hr hw ho fuel => urcu_qsbr_synchronize_rcu_returns bits fuel self c hg hr hw ho he,
    fun hw hl fuel => urcu_qsbr_synchronize_rcu_woken bits fuel self c hw hl,
    fun hg hr fuel => urcu_qsbr_synchronize_rcu_final_seen bits fuel c he hg hr⟩
  · obtain ⟨evs, t, k⟩ := urcu_qsbr_synchronize_rcu_trace (self_inactive_rule_leader self)
      (fun c' => (c'.mem.reader self).ctr = 0) (own_ctr_gp_stable bits he 0)
      (fun c' hc' => (leader_locked_own_ctr he self c').trans hc')
      (fun i c' hc' t _ => by
        simp only [self_inactive_rule]
        by_cases hts : t = self
        · subst hts
          rw [hc']
          simp [urcu_qsbr_reader_state]
        · simp [hts])
      (sync_queued_frame self c).2.2.1 h
    exact ⟨evs, t, check_self_inactive self evs k⟩
  · obtain ⟨c₂, hrr, _⟩ := urcu_qsbr_synchronize_rcu_offline he h
    have hodd' : r.mem.gp_ctr % 2 = 1 :=
      urcu_qsbr_synchronize_rcu_inv (gp_ctr_odd_stable_weak bits env self hgo) hodd h
    have hon' : (c.mem.reader self).ctr ≠ 0 := by
      simpa [urcu_qsbr_read_ongoing] using hon
    have hctr : (r.mem.reader self).ctr = r.mem.gp_ctr := by
      rw [hrr]
      simp only [hon', ne_eq, not_false_eq_true, decide_True, gp_end, if_true]
      obtain ⟨f1, _, f3, _⟩ := urcu_qsbr_thread_online_frame self c₂
      rw [f3, f1]
    refine ⟨?_, hctr⟩
    simp only [urcu_qsbr_read_ongoing, hctr, ne_eq, decide_eq_true_eq]
    intro h0
    rw [h0] at hodd'
    cases hodd'
  · obtain ⟨c₂, hrr, hz⟩ := urcu_qsbr_synchronize_rcu_offline he h
    have hoff' : (c.mem.reader self).ctr = 0 := by
      simpa [urcu_qsbr_read_ongoing] using hoff
    rw [hrr]
    simp [hoff', gp_end, urcu_qsbr_read_ongoing, hz]

/-- C5 at concrete inputs: reader 1, online with `ctr` 1, calls `synchronize_rcu`
and leads over the registry `[2, 1]`, blocking three times; and reader 1 calls it
while thread 9 leads, blocking once in the busy wait.  Each time the other
threads see its `ctr` at 0, and it is online again on return.  And reader 1
calls it while thread 9 leads and nothing else happens: after three turns of the
busy wait it has not returned, and it has shown its `ctr` at 0 three times. -/
theorem self_wait_freedom_witness :
    EnvKeepsOwnCtr 1 (env_quiesce_except 1) ∧ EnvKeepsGpOdd (env_quiesce_except 1) ∧
    EnvKeepsOwnCtr 1 env_leader ∧ EnvKeepsGpOdd env_leader ∧
    cfg_two_registered.mem.gp_ctr % 2 = 1 ∧
    urcu_qsbr_read_ongoing 1 cfg_two_registered = true ∧
    (cfg_two_registered.mem.reader 1).ctr = 1 ∧
    urcu_qsbr_synchronize_rcu 64 (env_quiesce_except 1) 2 1 cfg_two_registered =
      .ok cfg_self_led ∧
    urcu_qsbr_synchronize_rcu 64 env_leader 2 1 cfg_two_registered_led = .ok cfg_self_woken ∧
    (cfg_self_led.seen.drop cfg_two_registered.seen.length).map
      (fun m => (m.reader 1).ctr) = [0, 0, 0] ∧
    (cfg_self_woken.seen.drop cfg_two_registered_led.seen.length).map
      (fun m => (m.reader 1).ctr) = [0] ∧
    (∃ ms, cfg_self_led.seen = cfg_two_registered.seen ++ ms ∧
      ∀ m ∈ ms, (m.reader 1).ctr = 0) ∧
    (∃ ms, cfg_self_woken.seen = cfg_two_registered_led.seen ++ ms ∧
      ∀ m ∈ ms, (m.reader 1).ctr = 0) ∧
    cfg_self_led.trace.filter (fun e => match e with | .examine 1 _ => true | _ => false) =
      [.examine 1 .URCU_READER_INACTIVE] ∧
    (urcu_qsbr_read_ongoing 1 cfg_self_led = true ∧
      (cfg_self_led.mem.reader 1).ctr = cfg_self_led.mem.gp_ctr) ∧
    (urcu_qsbr_read_ongoing 1 cfg_self_woken = true ∧
      (cfg_self_woken.mem.reader 1).ctr = cfg_self_woken.mem.gp_ctr) ∧
    cfg_self_woken.mem.gp_ctr = 3 ∧
    cfg_two_registered_led.holds_gp = false ∧ cfg_two_registered_led.holds_registry = false ∧
    (match urcu_qsbr_synchronize_rcu 64 env_stalled 3 1 cfg_two_registered_led with
      | .error (.out_of_fuel _) => true
      | _ => false) = true ∧
    ((final_cfg (urcu_qsbr_synchronize_rcu 64 env_stalled 3 1 cfg_two_registered_led)).seen.drop
      cfg_two_registered_led.seen.length).map (fun m => (m.reader 1).ctr) = [0, 0, 0] ∧
    (∃ ms, (final_cfg (urcu_qsbr_synchronize_rcu 64 env_stalled 3 1
        cfg_two_registered_led)).seen = cfg_two_registered_led.seen ++ ms ∧
      ∀ m ∈ ms, (m.reader 1).ctr = 0) :=
  ⟨fun _ _ => by simp [env_quiesce_except], fun _ _ h => h, fun _ _ => rfl,
    fun _ m h => (gp_ctr_next_odd 64 m.gp_ctr h).1, by decide, by decide, by decide, rfl, rfl,
    by decide, by decide,
    ((self_wait_freedom 64 (env_quiesce_except 1) 1 cfg_two_registered
      (fun _ _ => by simp [env_quiesce_except]) (by decide) (fun _ _ h => h)).1 2 cfg_self_led
      rfl).1,
    ((self_wait_freedom 64 env_leader 1 cfg_two_registered_led (fun _ _ => rfl) (by decide)
      (fun _ m h => (gp_ctr_next_odd 64 m.gp_ctr h).1)).1 2 cfg_self_woken rfl).1,
    by decide,
    ((self_wait_freedom 64 (env_quiesce_except 1) 1 cfg_two_registered
      (fun _ _ => by simp [env_quiesce_except]) (by decide) (fun _ _ h => h)).1 2 cfg_self_led
      rfl).2.2.1 (by decide),
    ((self_wait_freedom 64 env_leader 1 cfg_two_registered_led (fun _ _ => rfl) (by decide)
      (fun _ m h => (gp_ctr_next_odd 64 m.gp_ctr h).1)).1 2 cfg_self_woken rfl).2.2.1 (by decide),
    by decide, rfl, rfl, rfl, by decide,
    (self_wait_freedom 64 env_stalled 1 cfg_two_registered_led (fun _ _ => rfl) (by decide)
      (fun _ _ h => h)).2.2.2 rfl rfl 3⟩

/-! ## C6: the leader with an empty registry -/

/-- C6.  A caller that holds neither mutex, finds the waiter queue empty (so it
leads) and the registry empty, returns from `urcu_qsbr_synchronize_rcu` whatever
the fuel: its log gains no scan, no examination, no store to the global `ctr`, to
the futex or to a `waiting` flag and no wait (`wait_for_readers` is not called);
the mutex operations are lock `rcu_gp_lock`, lock `rcu_registry_lock`, unlock
`rcu_registry_lock`, unlock `rcu_gp_lock`; the global `ctr` and the futex are what
they were; both mutexes are released; and every waiter of the batch drained from
the queue is RUNNING.  The other threads are relied on to leave the registry,
the global `ctr` and the futex alone. -/
theorem synchronize_rcu_empty_registry (bits : Nat) (env : Env) (fuel : Nat) (self : Tid)
    (c : Cfg) (hg : c.holds_gp = false) (hr : c.holds_registry = false)
    (hw : c.mem.gp_waiters = []) (hreg : c.mem.registry = [])
    (he : EnvKeepsRegistry env) (hc : EnvKeepsGpCtr env) (hf : EnvKeepsFutex env) :
    ∃ r evs, urcu_qsbr_synchronize_rcu bits env fuel self c = .ok r ∧
      r.trace = c.trace ++ evs ∧
      evs.filter Event.ofGracePeriod = [] ∧
      evs.filter Event.onMutex = [.lock .rcu_gp_lock, .lock .rcu_registry_lock,
        .unlock .rcu_registry_lock, .unlock .rcu_gp_lock] ∧
      r.mem.gp_ctr = c.mem.gp_ctr ∧ r.mem.gp_futex = c.mem.gp_futex ∧
      r.mem.registry = [] ∧
      r.holds_gp = false ∧ r.holds_registry = false ∧
      r.waiters = (yield env (urcu_wait_set_state self .URCU_WAIT_RUNNING
        (sync_queued self c))).mem.gp_waiters ∧
      ∀ t ∈ r.waiters, r.mem.wait_state t = .URCU_WAIT_RUNNING := by
  obtain ⟨q1, q2, _, _, _, q6, _, _, _, q10, q11, _⟩ := sync_queued_frame self c
  obtain ⟨l1, _, _⟩ := leader_locked_lists he self (sync_queued self c)
  have hl : synchronize_rcu_leader bits env fuel self (sync_queued self c) =
      .ok (leader_release (leader_locked env self (sync_queued self c))) :=
    synchronize_rcu_leader_empty bits env fuel self _ (q10.trans hg) (q11.trans hr)
      (by rw [l1, q6, hreg])
  obtain ⟨evq, tq, hq⟩ := sync_queued_trace self c
  obtain ⟨evr, tr, hrel⟩ := leader_release_trace (leader_locked env self (sync_queued self c))
  obtain ⟨f1, f2, _, f4, _, _, _, f8, f9, f10, _⟩ :=
    leader_release_frame (leader_locked env self (sync_queued self c))
  obtain ⟨g1, g2, _, g4, g5, g6, g7, g8, g9, _, _⟩ := gp_end_frame
    (decide ((c.mem.reader self).ctr ≠ 0)) self
    (leader_release (leader_locked env self (sync_queued self c)))
  have hmutex : ∀ evs : List Event, (∀ e ∈ evs, e = Event.futex_wake ∨ ∃ t, e = Event.wake_waiter t) →
      evs.filter Event.onMutex = [] ∧ evs.filter Event.ofGracePeriod = [] := by
    intro evs h
    constructor <;> (apply List.filter_eq_nil_iff.2; intro e hm
                     rcases h e hm with h' | ⟨t, h'⟩ <;> subst h' <;> simp [Event.onMutex,
                       Event.ofGracePeriod])
  obtain ⟨m1, m2⟩ := hmutex evq (fun e h => Or.inl (hq e h))
  obtain ⟨m3, m4⟩ := hmutex evr (fun e h => Or.inr (hrel e h))
  refine ⟨gp_end (decide ((c.mem.reader self).ctr ≠ 0)) self
      (leader_release (leader_locked env self (sync_queued self c))),
    evq ++ [.lock .rcu_gp_lock, .lock .rcu_registry_lock] ++
    [.unlock .rcu_registry_lock, .unlock .rcu_gp_lock] ++ evr, ?_, ?_, ?_, ?_, ?_, ?_, ?_, ?_,
    ?_, ?_, ?_⟩
  · rw [urcu_qsbr_synchronize_rcu_eq, if_pos hw, hl]
    rfl
  · rw [g9, tr, leader_locked_trace, tq]
    simp
  · simp [List.filter_append, m2, m4, Event.ofGracePeriod]
  · simp [List.filter_append, m1, m3, Event.onMutex]
  · rw [g1, f1, ← q1]
    simp [leader_locked, urcu_move_waiters, urcu_wait_set_state, Cfg.log, Cfg.setHolds,
      Urcu.yield, hc _ _]
  · rw [g2, f2, ← q2]
    simp [leader_locked, urcu_move_waiters, urcu_wait_set_state, Cfg.log, Cfg.setHolds,
      Urcu.yield, hf _ _]
  · rw [g4, f4, l1, q6, hreg]
  · rw [g7, f9]
  · rw [g8, f10]
  · rw [g6, f8]
    simp [leader_locked, urcu_move_waiters, Cfg.log, Cfg.setHolds, Urcu.yield]
  · intro t ht
    rw [g6] at ht
    rw [g5]
    unfold leader_release at ht ⊢
    dsimp only at ht ⊢
    rw [(urcu_wake_all_waiters_frame _).2.2.2.2.2.2.2.1] at ht
    exact urcu_wake_all_waiters_running _ t ht

/-- C6 at a concrete input: at load time thread 7 calls `synchronize_rcu` with no
fuel at all, while thread 9 queues behind it; 9 is in the batch and is woken. -/
theorem synchronize_rcu_empty_registry_witness :
    Cfg.init.holds_gp = false ∧ Cfg.init.holds_registry = false ∧
    Cfg.init.mem.gp_waiters = [] ∧ Cfg.init.mem.registry = [] ∧
    EnvKeepsRegistry env_second_writer ∧ EnvKeepsGpCtr env_second_writer ∧
    EnvKeepsFutex env_second_writer ∧
    ∃ r evs, urcu_qsbr_synchronize_rcu 64 env_second_writer 0 7 Cfg.init = .ok r ∧
      r.trace = Cfg.init.trace ++ evs ∧
      evs.filter Event.ofGracePeriod = [] ∧
      evs.filter Event.onMutex = [.lock .rcu_gp_lock, .lock .rcu_registry_lock,
        .unlock .rcu_registry_lock, .unlock .rcu_gp_lock] ∧
      r.mem.gp_ctr = Cfg.init.mem.gp_ctr ∧ r.mem.gp_futex = Cfg.init.mem.gp_futex ∧
      r.mem.registry = [] ∧
      r.holds_gp = false ∧ r.holds_registry = false ∧
      r.waiters = (yield env_second_writer (urcu_wait_set_state 7 .URCU_WAIT_RUNNING
        (sync_queued 7 Cfg.init))).mem.gp_waiters ∧
      ∀ t ∈ r.waiters, r.mem.wait_state t = .URCU_WAIT_RUNNING :=
  ⟨rfl, rfl, rfl, rfl, fun _ _ => rfl, fun _ _ => rfl, fun _ _ => rfl,
    synchronize_rcu_empty_registry 64 env_second_writer 0 7 Cfg.init rfl rfl rfl rfl
      (fun _ _ => rfl) (fun _ _ => rfl) (fun _ _ => rfl)⟩

/-! ## C7: contract violations in registration abort -/

/-- C7.  Called without the registry lock, while the other threads leave the
caller's `registered` flag and the registry alone: `urcu_qsbr_register_thread` by
a thread that is already registered fails an assertion, whether the thread is
online (the assertion on `ctr`, before the registry lock is taken) or offline
(the assertion on `registered`, under the registry lock), and
`urcu_qsbr_unregister_thread` by a thread that is not registered fails its
assertion; in the configuration in which the process aborts the registry is the
list it was. -/
theorem registration_misuse_aborts (env : Env) (self : Tid) (c : Cfg)
    (hl : c.holds_registry = false) (he : EnvKeepsRegistry env)
    (hr : EnvKeepsRegistered env) :
    ((c.mem.reader self).registered = true →
      ∃ c', urcu_qsbr_register_thread env self c = .error (.assertion c') ∧
        c'.mem.registry = c.mem.registry ∧
        c'.holds_registry = decide ((c.mem.reader self).ctr = 0)) ∧
    ((c.mem.reader self).registered = false →
      ∃ c', urcu_qsbr_unregister_thread env self c = .error (.assertion c') ∧
        c'.mem.registry = c.mem.registry) := by
  refine ⟨fun hreg => ?_, fun hreg => ?_⟩
  · unfold urcu_qsbr_register_thread
    dsimp only
    by_cases hctr : (c.mem.reader self).ctr = 0
    · rw [if_neg (by simpa [Cfg.setReader] using hctr)]
      rw [mutex_lock_free (by simpa [Cfg.holds, Cfg.setReader] using hl)]
      dsimp only
      rw [if_pos (by simp [Cfg.log, Cfg.setHolds, Urcu.yield, Cfg.setReader, hr _ _ _, hreg])]
      exact ⟨_, rfl, by simp [Cfg.log, Cfg.setHolds, Urcu.yield, Cfg.setReader, he _ _],
        by simp [Cfg.log, Cfg.setHolds, Urcu.yield, Cfg.setReader, hctr]⟩
    · rw [if_pos (by simpa [Cfg.setReader] using hctr)]
      exact ⟨_, rfl, rfl, by simp [Cfg.setReader, hl, hctr]⟩
  · obtain ⟨_, _, _, _, h5, h6, _⟩ := urcu_qsbr_thread_offline_frame self c
    unfold urcu_qsbr_unregister_thread
    dsimp only
    rw [if_pos (by simp [h5, hreg])]
    exact ⟨_, rfl, h6⟩

/-- C7 at a concrete input: reader 1, registered and online, registers again;
reader 2, registered and taken offline, registers again; thread 3, never
registered, unregisters. -/
theorem registration_misuse_aborts_witness :
    cfg_two_registered.holds_registry = false ∧ EnvKeepsRegistry env_quiesce ∧
    EnvKeepsRegistered env_quiesce ∧
    (cfg_two_registered.mem.reader 1).registered = true ∧
    (cfg_two_registered.mem.reader 1).ctr ≠ 0 ∧
    ((urcu_qsbr_thread_offline 2 cfg_two_registered).mem.reader 2).registered = true ∧
    ((urcu_qsbr_thread_offline 2 cfg_two_registered).mem.reader 2).ctr = 0 ∧
    (cfg_two_registered.mem.reader 3).registered = false ∧
    (∃ c', urcu_qsbr_register_thread env_quiesce 1 cfg_two_registered =
        .error (.assertion c') ∧ c'.mem.registry = cfg_two_registered.mem.registry ∧
        c'.holds_registry = decide ((cfg_two_registered.mem.reader 1).ctr = 0)) ∧
    (∃ c', urcu_qsbr_register_thread env_quiesce 2
          (urcu_qsbr_thread_offline 2 cfg_two_registered) =
        .error (.assertion c') ∧
        c'.mem.registry = (urcu_qsbr_thread_offline 2 cfg_two_registered).mem.registry ∧
        c'.holds_registry =
          decide (((urcu_qsbr_thread_offline 2 cfg_two_registered).mem.reader 2).ctr = 0)) ∧
    (∃ c', urcu_qsbr_unregister_thread env_quiesce 3 cfg_two_registered =
        .error (.assertion c') ∧ c'.mem.registry = cfg_two_registered.mem.registry) :=
  ⟨rfl, env_quiesce_reader_side.1, env_quiesce_reader_side.2.1, by decide, by decide,
    by decide, by decide, by decide,
    (registration_misuse_aborts env_quiesce 1 cfg_two_registered rfl env_quiesce_reader_side.1
      env_quiesce_reader_side.2.1).1 (by decide),
    (registration_misuse_aborts env_quiesce 2 (urcu_qsbr_thread_offline 2 cfg_two_registered)
      rfl env_quiesce_reader_side.1 env_quiesce_reader_side.2.1).1 (by decide),
    (registration_misuse_aborts env_quiesce 3 cfg_two_registered rfl env_quiesce_reader_side.1
      env_quiesce_reader_side.2.1).2 (by decide)⟩

/-! ## C8: what a scan moves, and where -/

/-- C8.  A scan of `wait_for_readers` decides the place of every reader of
`input_readers` by its classification at that moment: an INACTIVE reader (its
`ctr` is 0) ends in `qsreaders` and nowhere else, an ACTIVE_CURRENT reader in
`cur_snap_readers` when that pointer is non-null and in `qsreaders` otherwise, an
ACTIVE_OLD reader stays in `input_readers`.  Whenever `wait_for_readers` returns,
`input_readers` is empty and every reader that was in it is in exactly one of
`qsreaders` and `cur_snap_readers`; and it does return, in its first turn, when
no reader of `input_readers` is ACTIVE_OLD. -/
theorem wait_for_readers_moves_by_state (bits : Nat) (env : Env) (i : ListRef)
    (cur : Option ListRef) (qs : ListRef) (c : Cfg)
    (hq : qs ≠ i) (hc : cur ≠ some i) (hwf : ListsWF c) (he : EnvKeepsRegistry env) :
    (∀ t ∈ c.list i,
      match urcu_qsbr_reader_state bits c.mem.gp_ctr (c.mem.reader t).ctr with
      | .URCU_READER_INACTIVE =>
        (c.mem.reader t).ctr = 0 ∧ ∀ ρ, t ∈ (wfr_scan bits i cur qs c).list ρ ↔ ρ = qs
      | .URCU_READER_ACTIVE_CURRENT =>
        (c.mem.reader t).ctr ≠ 0 ∧
          ∀ ρ, t ∈ (wfr_scan bits i cur qs c).list ρ ↔ ρ = cur.getD qs
      | .URCU_READER_ACTIVE_OLD =>
        (c.mem.reader t).ctr ≠ 0 ∧ ∀ ρ, t ∈ (wfr_scan bits i cur qs c).list ρ ↔ ρ = i) ∧
    (∀ fuel r, wait_for_readers bits env fuel i cur qs c = .ok r →
      r.list i = [] ∧
      ∀ t ∈ c.list i, ∃ ρ, (ρ = qs ∨ cur = some ρ) ∧ ∀ ρ', t ∈ r.list ρ' ↔ ρ' = ρ) ∧
    ((∀ t ∈ c.list i, urcu_qsbr_reader_state bits c.mem.gp_ctr (c.mem.reader t).ctr ≠
        .URCU_READER_ACTIVE_OLD) →
      ∀ fuel, ∃ r, wait_for_readers bits env (fuel + 1) i cur qs c = .ok r) := by
  refine ⟨fun t ht => ?_, fun fuel r h => ?_, fun h fuel =>
    wait_for_readers_first_turn bits env fuel i cur qs hq hc c h⟩
  · have hlist := fun ρ => wfr_scan_list bits i cur qs c t ρ
    simp only [ht, if_true] at hlist
    have hin := urcu_qsbr_reader_state_inactive bits c.mem.gp_ctr (c.mem.reader t).ctr
    unfold wfr_dest at hlist
    cases hs : urcu_qsbr_reader_state bits c.mem.gp_ctr (c.mem.reader t).ctr with
    | URCU_READER_INACTIVE =>
      rw [hs] at hlist
      exact ⟨hin.1 hs, hlist⟩
    | URCU_READER_ACTIVE_CURRENT =>
      rw [hs] at hlist hin
      exact ⟨fun h0 => by simpa using hin.2 h0, hlist⟩
    | URCU_READER_ACTIVE_OLD =>
      rw [hs] at hlist hin
      refine ⟨fun h0 => by simpa using hin.2 h0, fun ρ => ?_⟩
      rw [hlist ρ]
      exact ⟨fun h => hwf.2 t ρ i h ht, fun h => h ▸ ht⟩
  · obtain ⟨hempty, hwf', hm⟩ := wait_for_readers_lists hq hc he hwf h
    refine ⟨hempty, fun t ht => ?_⟩
    have key : ∃ ρ, (ρ = qs ∨ cur = some ρ) ∧ t ∈ r.list ρ := by
      rcases hm.2 t i ht with h' | ⟨_, h' | ⟨l, hl, h'⟩⟩
      · rw [hempty] at h'; cases h'
      · exact ⟨qs, Or.inl rfl, h'⟩
      · exact ⟨l, Or.inr hl, h'⟩
    obtain ⟨ρ, hρ, hmem⟩ := key
    exact ⟨ρ, hρ, fun ρ' => ⟨fun h' => hwf'.2 t ρ' ρ h' hmem, fun h' => h' ▸ hmem⟩⟩

/-- C8 at a concrete input: three readers, one offline, one current, one old; the
old one republishes the epoch while the writer pauses. -/
theorem wait_for_readers_moves_by_state_witness :
    ListRef.qsreaders ≠ ListRef.registry ∧ (none : Option ListRef) ≠ some ListRef.registry ∧
    ListsWF cfg_three_readers ∧ EnvKeepsRegistry env_quiesce ∧
    (wfr_scan 64 .registry none .qsreaders cfg_three_readers).list .registry = [3] ∧
    (wfr_scan 64 .registry none .qsreaders cfg_three_readers).list .qsreaders = [2, 1] ∧
    ∀ r, wait_for_readers 64 env_quiesce 2 .registry none .qsreaders cfg_three_readers = .ok r →
      r.list .registry = [] ∧
      ∀ t ∈ cfg_three_readers.list .registry,
        ∃ ρ, (ρ = ListRef.qsreaders ∨ (none : Option ListRef) = some ρ) ∧
          ∀ ρ', t ∈ r.list ρ' ↔ ρ' = ρ :=
  ⟨by decide, by decide, cfg_three_readers_wf, env_quiesce_keeps_registry, by decide, by decide,
    (wait_for_readers_moves_by_state 64 env_quiesce .registry none .qsreaders cfg_three_readers
      (by decide) (by decide) cfg_three_readers_wf env_quiesce_keeps_registry).2.1 2⟩

end Urcu
